import Mathlib

/-!
# Madurai Ezhil: area health scores, focus area and retry wrapper

A shallow embedding of

* the snapshot handler of `src/src/pages/Dashboard.jsx` (the `reduce` over
  `reportsData`, `Object.values(areaMap)`, the score map and the sort),
* the focus-area computation of the snapshot handler of `src/src/pages/Home.jsx`,
* the function `fetchGemini` of `src/src/pages/Assistant.jsx`,
* the callable `classifyWaste` of `src/functions/index.js` and the classification step of
  `handleSubmit` in `src/src/pages/Report.jsx`.

Modelling conventions.

* A report document carries the four fields the handlers read.  `severity` is an
  integer when present; `area`, `wasteType` and `status` are strings when present.
  Severities that are strings are treated separately, for the one statement that
  reads them (`severitySumStep`); fractional severities are outside the embedding.
* JavaScript truthiness is made explicit: the empty string and the number `0` are
  falsy, exactly as in `if (curr.area)` and `curr.severity ? curr.severity : 2`.
* `areaMap` and `acc.types` are plain objects (`{}` literals).  Property reads on
  them fall through to `Object.prototype`, and `Object.values` lists own
  properties with array-index keys first (ascending), then the other keys in
  insertion order.  Both facts are part of the embedding.
* `Array.prototype.sort` is stable; with the comparator `a.score - b.score` on
  integers its result is the unique stable ascending arrangement, which is
  computed here by insertion sort.
* A call of `fetchGemini` is run against a sequence of replies, one per request; the
  loop is given a step budget, which is shown never to run out.  Waiting is recorded
  as the durations passed to `sleep`.  The object `body` is shared with the caller, so
  a callback can change it between two passes; every pass evaluates
  `JSON.stringify(body)` anew, and the state of `body` is carried through the loop as
  far as that expression depends on it.  The global environment (`fetch`, `JSON`, the
  timers) is fixed.
* A request of `classifyWaste` carries a `data` object or none (`null`, when the client
  passes no argument); the fields of the object are strings when present.
-/

namespace Ezhil

/-! ## Data model -/

/-- A report document of the feed, restricted to the fields the aggregation reads. -/
structure Report where
  area : Option String
  wasteType : Option String
  severity : Option Int
  status : Option String
  deriving DecidableEq, Repr

/-- An entry of `areaMap`: `{ name, reportCount, penalty, resolved }`. -/
structure AreaEntry where
  name : String
  reportCount : Nat
  penalty : Int
  resolved : Nat
  deriving DecidableEq, Repr

/-- An element of `sortedAreas`: `{ ...area, score }`. -/
structure AreaScore where
  name : String
  reportCount : Nat
  penalty : Int
  resolved : Nat
  score : Int
  deriving DecidableEq, Repr

/-- The object `acc.types`.  The four literal keys hold numbers; `extra` lists the own
keys the reduction has added beyond them (their values are never numbers). -/
structure Types where
  Wet : Nat
  Dry : Nat
  Hazardous : Nat
  Mixed : Nat
  extra : List String
  deriving DecidableEq, Repr

/-- The accumulator object `acc` of the reduction (the state `stats`). -/
structure Stats where
  total : Nat
  resolved : Nat
  pending : Nat
  severitySum : Int
  types : Types
  deriving DecidableEq, Repr

/-- Everything the reduction callback mutates: `acc`, the closure variable `areaMap`, and
the names of the properties it has put on `Object.prototype` (each holds `NaN`). -/
structure Acc where
  stats : Stats
  areaMap : List AreaEntry
  proto : List String
  deriving DecidableEq, Repr

/-! ## JavaScript object semantics used by the handler -/

/-- The property names every plain object inherits from `Object.prototype`; each of
them reads as a truthy, defined value. -/
def objectPrototypeKeys : List String :=
  ["constructor", "__defineGetter__", "__defineSetter__", "hasOwnProperty",
   "__lookupGetter__", "__lookupSetter__", "isPrototypeOf", "propertyIsEnumerable",
   "toString", "valueOf", "__proto__", "toLocaleString"]

/-- Truthiness of a string-valued field: present and not the empty string. -/
def truthy : Option String → Option String
  | some s => if s = "" then none else some s
  | none => none

/-- The test `curr.status === "resolved"`. -/
def isResolved (curr : Report) : Bool :=
  curr.status == some "resolved"

/-- The expression `curr.severity ? curr.severity : 2` (`0` is falsy). -/
def severityPenalty (curr : Report) : Int :=
  match curr.severity with
  | some s => if s ≠ 0 then s else 2
  | none => 2

/-- Numeric value of a digit string. -/
def digitsValue (cs : List Char) : Nat :=
  cs.foldl (fun n c => 10 * n + (c.toNat - 48)) 0

/-- The array index a property key denotes, if any: a canonical decimal numeral (no
leading zero) of value at most `2^32 - 2`. -/
def arrayIndex? (key : String) : Option Nat :=
  let cs := key.toList
  if cs ≠ [] ∧ cs.all Char.isDigit = true ∧ (cs.head? ≠ some '0' ∨ cs.length = 1)
      ∧ digitsValue cs < 4294967295 then
    some (digitsValue cs)
  else
    none

/-- Whether `areaMap` has the own property `key`. -/
def hasOwn (m : List AreaEntry) (key : String) : Bool :=
  m.any (fun e => e.name == key)

/-- Apply `f` to the own property `key` of `areaMap`, if there is one. -/
def modifyOwn (m : List AreaEntry) (key : String) (f : AreaEntry → AreaEntry) :
    List AreaEntry :=
  m.map (fun e => if e.name = key then f e else e)

/-- The order of `Object.values`: array-index keys ascending, then insertion order. -/
def objectValues (m : List AreaEntry) : List AreaEntry :=
  ((m.filter (fun e => (arrayIndex? e.name).isSome)).insertionSort
      (fun a b => (arrayIndex? a.name).getD 0 ≤ (arrayIndex? b.name).getD 0))
    ++ m.filter (fun e => !(arrayIndex? e.name).isSome)

/-! ## The reduction callback -/

/-- The statement `if (curr.wasteType && acc.types[curr.wasteType] !== undefined)
acc.types[curr.wasteType] += 1`.  A read of a key that is not an own property falls
through to `Object.prototype`; the assignment then creates an own property, except
for `__proto__`, whose setter ignores the non-object value. -/
def typesStep (proto : List String) (t : Types) (curr : Report) : Types :=
  match truthy curr.wasteType with
  | none => t
  | some w =>
    if w = "Wet" then { t with Wet := t.Wet + 1 }
    else if w = "Dry" then { t with Dry := t.Dry + 1 }
    else if w = "Hazardous" then { t with Hazardous := t.Hazardous + 1 }
    else if w = "Mixed" then { t with Mixed := t.Mixed + 1 }
    else if w ∈ t.extra then t
    else if w = "__proto__" then t
    else if w ∈ objectPrototypeKeys ∨ w ∈ proto then { t with extra := t.extra ++ [w] }
    else t

/-- Lines 41-48 of the callback: the updates of `acc`. -/
def statsStep (proto : List String) (acc : Stats) (curr : Report) : Stats :=
  { total := acc.total + 1
    resolved := if isResolved curr then acc.resolved + 1 else acc.resolved
    pending := if isResolved curr then acc.pending else acc.pending + 1
    severitySum :=
      match curr.severity with
      | some s => if s ≠ 0 then acc.severitySum + s else acc.severitySum
      | none => acc.severitySum
    types := typesStep proto acc.types curr }

/-- Lines 50-62 of the callback: the updates of `areaMap`.  When `areaMap[curr.area]`
reads a truthy inherited value no own property is created, and the three `+=` land on
the inherited object instead of on an entry of the map. -/
def areaStep (m : List AreaEntry) (curr : Report) : List AreaEntry :=
  match truthy curr.area with
  | none => m
  | some a =>
    let m1 :=
      if hasOwn m a || decide (a ∈ objectPrototypeKeys) then m
      else m ++ [{ name := a, reportCount := 0, penalty := 0, resolved := 0 }]
    let m2 := modifyOwn m1 a (fun e => { e with reportCount := e.reportCount + 1 })
    let m3 :=
      if isResolved curr then modifyOwn m2 a (fun e => { e with resolved := e.resolved + 1 })
      else m2
    if isResolved curr then m3
    else modifyOwn m3 a (fun e => { e with penalty := e.penalty + (10 + severityPenalty curr) })

/-- The properties the callback leaves on `Object.prototype`: for the area `__proto__`
the read `areaMap[curr.area]` yields `Object.prototype` itself, and each `+=` stores
`NaN` under the field name. -/
def protoStep (proto : List String) (curr : Report) : List String :=
  if truthy curr.area = some "__proto__" then
    if isResolved curr then "resolved" :: "reportCount" :: proto
    else "penalty" :: "reportCount" :: proto
  else proto

/-- One call of the reduction callback. -/
def step (acc : Acc) (curr : Report) : Acc :=
  { stats := statsStep acc.proto acc.stats curr
    areaMap := areaStep acc.areaMap curr
    proto := protoStep acc.proto curr }

/-- The initial accumulator and the empty `areaMap`; `proto` lists what earlier
snapshots have left on `Object.prototype`. -/
def initial (proto : List String) : Acc :=
  { stats := { total := 0, resolved := 0, pending := 0, severitySum := 0,
               types := { Wet := 0, Dry := 0, Hazardous := 0, Mixed := 0, extra := [] } }
    areaMap := []
    proto := proto }

/-- The call `reportsData.reduce(...)` together with its effect on `areaMap`. -/
def reduce (proto : List String) (reportsData : List Report) : Acc :=
  reportsData.foldl step (initial proto)

/-- The value `calculated` stored by `setStats`. -/
def calculated (proto : List String) (reportsData : List Report) : Stats :=
  (reduce proto reportsData).stats

/-- The callback of `.map`: `{ ...area, score: Math.max(0, 100 - area.penalty) }`. -/
def withScore (area : AreaEntry) : AreaScore :=
  { name := area.name, reportCount := area.reportCount, penalty := area.penalty,
    resolved := area.resolved, score := max 0 (100 - area.penalty) }

/-- The value `sortedAreas` stored by `setAreaScores`. -/
def sortedAreas (proto : List String) (reportsData : List Report) : List AreaScore :=
  ((objectValues (reduce proto reportsData).areaMap).map withScore).insertionSort
    (fun a b => a.score ≤ b.score)

/-- The aggregate of `sortedAreas` for the area `name`, if there is one. -/
def areaOf (proto : List String) (reportsData : List Report) (name : String) :
    Option AreaScore :=
  (sortedAreas proto reportsData).find? (fun a => a.name == name)

/-! ## Closed forms used in the statements -/

/-- The key list of `areaMap` (own property names in insertion order). -/
def keys (m : List AreaEntry) : List String :=
  m.map (fun e => e.name)

/-- The own property `key` of `areaMap`, if any. -/
def getOwn (m : List AreaEntry) (key : String) : Option AreaEntry :=
  m.find? (fun e => e.name == key)

/-- The combined effect of lines 54-61 on the entry of the report's own area. -/
def bump (curr : Report) (e : AreaEntry) : AreaEntry :=
  { name := e.name
    reportCount := e.reportCount + 1
    penalty := if isResolved curr then e.penalty else e.penalty + (10 + severityPenalty curr)
    resolved := if isResolved curr then e.resolved + 1 else e.resolved }

/-- The reports grouped under the key `a`: those whose `area` is truthy and equal to `a`. -/
def areaReports (a : String) (reportsData : List Report) : List Report :=
  reportsData.filter (fun r => truthy r.area = some a)

/-- The penalty the reports of `reportsData` add to the area `a`: `10 + severityPenalty`
for each report of the area that is not resolved. -/
def penaltySum (a : String) (reportsData : List Report) : Int :=
  (((areaReports a reportsData).filter (fun r => !isResolved r)).map
    (fun r => 10 + severityPenalty r)).sum

/-- The entry of an area after the callbacks of all its reports `rs`, started from `e`. -/
def bumpAll (rs : List Report) (e : AreaEntry) : AreaEntry :=
  rs.foldl (fun e r => bump r e) e

/-- The key a callback adds to `areaMap`, as a list of length at most one. -/
def newKey (m : List AreaEntry) (curr : Report) : List String :=
  match truthy curr.area with
  | none => []
  | some a => if hasOwn m a || decide (a ∈ objectPrototypeKeys) then [] else [a]

/-- The number shown under "Avg. Severity Level", before `toFixed(1)` formats it:
`stats.severitySum / stats.total` when `stats.total > 0`, and the literal `0.0`
otherwise.  The quotient is exact here; the rounding of the double is not modelled. -/
def avgSeverity (stats : Stats) : ℚ :=
  if stats.total > 0 then (stats.severitySum : ℚ) / (stats.total : ℚ) else 0

/-- The sum of the four numeric entries of `acc.types`. -/
def Types.sum (t : Types) : Nat :=
  t.Wet + t.Dry + t.Hazardous + t.Mixed

/-- The wasteType strings for which `acc.types[wasteType] += 1` creates a new own
property when `proto` lists the extra properties of `Object.prototype`. -/
def addsKey (proto : List String) (w : String) : Prop :=
  w ≠ "" ∧ w ∉ ["Wet", "Dry", "Hazardous", "Mixed"] ∧ w ≠ "__proto__" ∧
    (w ∈ objectPrototypeKeys ∨ w ∈ proto)

/-- Index of the first report of the input filed under the area `a`. -/
def firstOccurrence (a : String) (reportsData : List Report) : Nat :=
  reportsData.findIdx (fun r => r.area == some a)

/-- Index of the aggregate named `a` in an area list. -/
def position (a : String) (areas : List AreaScore) : Nat :=
  areas.findIdx (fun e => e.name == a)

/-- The order in which `Object.values(areaMap)` lists two keys: array indices in ascending
numeric order first, then the other keys in order of first occurrence in the input. -/
def listedBefore (reportsData : List Report) (a b : String) : Prop :=
  match arrayIndex? a, arrayIndex? b with
  | some i, some j => i < j
  | some _, none => True
  | none, some _ => False
  | none, none => firstOccurrence a reportsData < firstOccurrence b reportsData

instance listedBeforeDecidable (reportsData : List Report) (a b : String) :
    Decidable (listedBefore reportsData a b) := by
  unfold listedBefore
  cases arrayIndex? a <;> cases arrayIndex? b <;> exact inferInstance

/-! ## Concrete snapshots -/

/-- Three reports of one area: severities 3, 5, 2 with statuses `pending_ai`,
`classified`, `resolved`. -/
def annaNagar : List Report :=
  [ { area := some "Anna Nagar", wasteType := none, severity := some 3, status := some "pending_ai" },
    { area := some "Anna Nagar", wasteType := none, severity := some 5, status := some "classified" },
    { area := some "Anna Nagar", wasteType := none, severity := some 2, status := some "resolved" } ]

/-- One unresolved report whose stored severity is the number `0`. -/
def zeroSeverity : List Report :=
  [ { area := some "Anna Nagar", wasteType := none, severity := some 0, status := some "classified" } ]

/-- Ten unresolved reports of severity 5 in one area. -/
def overloaded : List Report :=
  List.replicate 10
    { area := some "Anna Nagar", wasteType := none, severity := some 5, status := some "classified" }

/-- The three `Anna Nagar` reports, all with status `resolved`. -/
def annaNagarResolved : List Report :=
  [ { area := some "Anna Nagar", wasteType := none, severity := some 3, status := some "resolved" },
    { area := some "Anna Nagar", wasteType := none, severity := some 5, status := some "resolved" },
    { area := some "Anna Nagar", wasteType := none, severity := some 2, status := some "resolved" } ]

/-- Reports whose type is unrecognised (`Plastic`) or absent, next to one `Wet`. -/
def unknownTypes : List Report :=
  [ { area := some "Anna Nagar", wasteType := some "Plastic", severity := some 3, status := some "classified" },
    { area := some "Anna Nagar", wasteType := none, severity := none, status := some "pending_ai" },
    { area := some "Anna Nagar", wasteType := some "Wet", severity := some 2, status := some "classified" } ]

/-- A report whose `wasteType` is the string `constructor`. -/
def constructorType : List Report :=
  [ { area := some "Anna Nagar", wasteType := some "constructor", severity := some 3, status := some "classified" } ]

/-- Ten reports, six `Wet` and four `Dry`, with severities summing to 28. -/
def tenReports : List Report :=
  [ { area := some "Anna Nagar", wasteType := some "Wet", severity := some 3, status := some "classified" },
    { area := some "Anna Nagar", wasteType := some "Wet", severity := some 3, status := some "classified" },
    { area := some "Anna Nagar", wasteType := some "Wet", severity := some 3, status := some "classified" },
    { area := some "KK Nagar", wasteType := some "Wet", severity := some 3, status := some "classified" },
    { area := some "KK Nagar", wasteType := some "Wet", severity := some 3, status := some "resolved" },
    { area := some "KK Nagar", wasteType := some "Wet", severity := some 3, status := some "classified" },
    { area := some "Anna Nagar", wasteType := some "Dry", severity := some 2, status := some "classified" },
    { area := some "Anna Nagar", wasteType := some "Dry", severity := some 2, status := some "classified" },
    { area := some "KK Nagar", wasteType := some "Dry", severity := some 3, status := some "classified" },
    { area := some "KK Nagar", wasteType := some "Dry", severity := some 3, status := some "classified" } ]

/-- An unresolved report without severity for the area of `annaNagar`. -/
def extraReport : Report :=
  { area := some "Anna Nagar", wasteType := none, severity := none, status := some "pending_ai" }

/-- A report filed under the area `__proto__`, followed by a report whose wasteType is
the string `penalty`. -/
def protoThenPenalty : List Report :=
  [ { area := some "__proto__", wasteType := none, severity := none, status := some "pending_ai" },
    { area := some "Anna Nagar", wasteType := some "penalty", severity := some 3, status := some "classified" } ]

/-- The two reports of `protoThenPenalty` in the other order. -/
def penaltyThenProto : List Report :=
  [ { area := some "Anna Nagar", wasteType := some "penalty", severity := some 3, status := some "classified" },
    { area := some "__proto__", wasteType := none, severity := none, status := some "pending_ai" } ]

/-- Reports of two areas with equal scores, the later-first-seen area listed first in the
input of the second snapshot. -/
def twoAreas : List Report :=
  [ { area := some "Anna Nagar", wasteType := some "Wet", severity := some 3, status := some "classified" },
    { area := some "KK Nagar", wasteType := some "Dry", severity := some 3, status := some "classified" },
    { area := some "Anna Nagar", wasteType := some "Plastic", severity := none, status := some "resolved" } ]

/-- A rearrangement of `twoAreas`. -/
def twoAreasPermuted : List Report :=
  [ { area := some "Anna Nagar", wasteType := some "Plastic", severity := none, status := some "resolved" },
    { area := some "KK Nagar", wasteType := some "Dry", severity := some 3, status := some "classified" },
    { area := some "Anna Nagar", wasteType := some "Wet", severity := some 3, status := some "classified" } ]

/-- Two areas named `5` and `3`, in that order, one unresolved report each. -/
def numericAreas : List Report :=
  [ { area := some "5", wasteType := some "Wet", severity := some 3, status := some "classified" },
    { area := some "3", wasteType := some "Dry", severity := some 3, status := some "classified" } ]

/-- Two areas with one unresolved report of severity 3 each, `KK Nagar` seen first. -/
def tiedAreas : List Report :=
  [ { area := some "KK Nagar", wasteType := some "Wet", severity := some 3, status := some "classified" },
    { area := some "Anna Nagar", wasteType := some "Dry", severity := some 3, status := some "classified" } ]

/-! ## The focus-area computation of `Home.jsx` -/

/-- An entry of Home's `areaMap`: `{ name, penalty }`. -/
structure FocusEntry where
  name : String
  penalty : Int
  deriving DecidableEq, Repr

/-- The record `worstArea`: `{ ...area, score }`. -/
structure FocusArea where
  name : String
  penalty : Int
  score : Int
  deriving DecidableEq, Repr

/-- Whether Home's `areaMap` has the own property `key`. -/
def Home.hasOwn (m : List FocusEntry) (key : String) : Bool :=
  m.any (fun e => e.name == key)

/-- Apply `f` to the own property `key` of Home's `areaMap`, if there is one. -/
def Home.modifyOwn (m : List FocusEntry) (key : String) (f : FocusEntry → FocusEntry) :
    List FocusEntry :=
  m.map (fun e => if e.name = key then f e else e)

/-- The order of `Object.values` on Home's `areaMap`: array-index keys ascending, then
insertion order. -/
def Home.objectValues (m : List FocusEntry) : List FocusEntry :=
  ((m.filter (fun e => (arrayIndex? e.name).isSome)).insertionSort
      (fun a b => (arrayIndex? a.name).getD 0 ≤ (arrayIndex? b.name).getD 0))
    ++ m.filter (fun e => !(arrayIndex? e.name).isSome)

/-- Lines 40-44 of Home's handler: the callback of `reports.forEach`.  The status of the
report is not read: every report of the area adds `10 + severityPenalty`. -/
def Home.areaStep (m : List FocusEntry) (curr : Report) : List FocusEntry :=
  match truthy curr.area with
  | none => m
  | some a =>
    let m1 :=
      if Home.hasOwn m a || decide (a ∈ objectPrototypeKeys) then m
      else m ++ [{ name := a, penalty := 0 }]
    Home.modifyOwn m1 a (fun e => { e with penalty := e.penalty + (10 + severityPenalty curr) })

/-- Home's `areaMap` after `reports.forEach`. -/
def Home.areaMap (reports : List Report) : List FocusEntry :=
  reports.foldl Home.areaStep []

/-- The record `{ ...area, score: Math.max(0, 100 - area.penalty) }`. -/
def Home.withScore (area : FocusEntry) : FocusArea :=
  { name := area.name, penalty := area.penalty, score := max 0 (100 - area.penalty) }

/-- Lines 50-53: one call of the callback of `Object.values(areaMap).forEach`, on the
pair of variables `(worstArea, maxPenalty)`. -/
def Home.worstStep (st : Option FocusArea × Int) (area : FocusEntry) : Option FocusArea × Int :=
  if area.penalty > st.2 then (some (Home.withScore area), area.penalty) else st

/-- The variable `worstArea` after the loop over a list of entries, started from
`worstArea = null`, `maxPenalty = 0`. -/
def Home.worstArea (values : List FocusEntry) : Option FocusArea :=
  (values.foldl Home.worstStep (none, 0)).1

/-- The argument of `setFocusArea` for a snapshot, if the handler calls it
(`worstArea && worstArea.score < 85`). -/
def Home.surfaced (reports : List Report) : Option FocusArea :=
  match Home.worstArea (Home.objectValues (Home.areaMap reports)) with
  | some w => if w.score < 85 then some w else none
  | none => none

/-- The state `focusArea` after the handler has processed a snapshot: it is replaced when
`setFocusArea` is called and left as it was otherwise. -/
def Home.onSnapshot (focusArea : Option FocusArea) (reports : List Report) :
    Option FocusArea :=
  match Home.surfaced reports with
  | some w => some w
  | none => focusArea

/-- The Dashboard ordering applied to a penalty map: score every entry, sort ascending by
score with a stable sort, take the first element. -/
def Home.minScoreFirst (values : List FocusEntry) : Option FocusArea :=
  ((values.map Home.withScore).insertionSort (fun a b => a.score ≤ b.score)).head?

/-- A report with its status removed: Home's callback treats a report as the Dashboard
callback treats this one. -/
def unresolve (r : Report) : Report :=
  { r with status := none }

/-- The part of a Dashboard entry that Home's map keeps. -/
def toFocus (e : AreaEntry) : FocusEntry :=
  { name := e.name, penalty := e.penalty }

/-- One report filed under the area `constructor`. -/
def constructorArea : List Report :=
  [ { area := some "constructor", wasteType := some "Wet", severity := some 3, status := some "classified" } ]

/-- Area `A` with three reports of severities 3, 3, 4 (Home penalty 40) and area `B`
with six reports of severity 5 (Home penalty 90). -/
def focusScenario : List Report :=
  [ { area := some "A", wasteType := some "Wet", severity := some 3, status := some "classified" },
    { area := some "A", wasteType := some "Wet", severity := some 3, status := some "classified" },
    { area := some "A", wasteType := some "Dry", severity := some 4, status := some "classified" },
    { area := some "B", wasteType := some "Mixed", severity := some 5, status := some "classified" },
    { area := some "B", wasteType := some "Mixed", severity := some 5, status := some "classified" },
    { area := some "B", wasteType := some "Mixed", severity := some 5, status := some "classified" },
    { area := some "B", wasteType := some "Mixed", severity := some 5, status := some "classified" },
    { area := some "B", wasteType := some "Mixed", severity := some 5, status := some "classified" },
    { area := some "B", wasteType := some "Mixed", severity := some 5, status := some "classified" } ]

/-- A penalty map with two areas clamped to score 0. -/
def clampedMap : List FocusEntry :=
  [ { name := "A", penalty := 110 }, { name := "B", penalty := 150 } ]

/-- A penalty map without clamping: `A` and `C` share the maximum penalty. -/
def unclampedMap : List FocusEntry :=
  [ { name := "D", penalty := 12 }, { name := "A", penalty := 90 },
    { name := "B", penalty := 40 }, { name := "C", penalty := 90 } ]

/-! ## Severities that are not numbers -/

/-- A stored `severity` value of one of the two kinds considered: a number (an integer) or
a string. -/
inductive JsValue where
  | number (n : Int)
  | string (s : String)
  deriving DecidableEq, Repr

/-- Truthiness of a value: `0` and the empty string are falsy. -/
def JsValue.truthy : JsValue → Bool
  | .number n => decide (n ≠ 0)
  | .string s => decide (s ≠ "")

/-- The string a value converts to: the decimal numeral of an integer, a string itself. -/
def JsValue.toStr : JsValue → String
  | .number n => toString n
  | .string s => s

/-- The operator `+`: addition of two numbers, concatenation as soon as one operand is a
string. -/
def JsValue.add : JsValue → JsValue → JsValue
  | .number a, .number b => .number (a + b)
  | x, y => .string (x.toStr ++ y.toStr)

/-- Line 45, `if (curr.severity) acc.severitySum += curr.severity`, for a severity of
either kind. -/
def severitySumStep (severitySum : JsValue) (severity : Option JsValue) : JsValue :=
  match severity with
  | some v => if v.truthy then severitySum.add v else severitySum
  | none => severitySum

/-- The field `severitySum` after the reduction over reports with the given severities. -/
def severitySumOf (severities : List (Option JsValue)) : JsValue :=
  severities.foldl severitySumStep (.number 0)

/-- A report without severity, with an unrecognised wasteType and without area. -/
def malformedReport : Report :=
  { area := none, wasteType := some "Plastic", severity := none, status := some "pending_ai" }

/-! ## The retry wrapper `fetchGemini` of `Assistant.jsx` -/

/-- The field `error` of a parsed answer, as far as the wrapper reads it. -/
structure GeminiError where
  code : Option Int
  message : String
  deriving DecidableEq, Repr

/-- What one request yields: a parsed body `data`, with its `error` field when that field
is truthy, or a rejection of `fetch` or of `res.json()`. -/
inductive Reply where
  | data (body : String) (error : Option GeminiError)
  | rejected (reason : String)
  deriving DecidableEq, Repr

/-- The argument `body` as far as the loop depends on it: whether `JSON.stringify(body)`
raises (a cyclic structure, a BigInt, a raising `toJSON`), and with which message.  The
text sent is not modelled: the answers are given per request. -/
structure Body where
  stringifyError : Option String
  deriving DecidableEq, Repr

/-- What a call of `onRetry` does: it raises, or it returns and leaves the object `body`,
which its caller shares with `fetchGemini`, in some state.  Its return value is not
read. -/
inductive CallbackResult where
  | raised (reason : String)
  | returned (body : Body)
  deriving DecidableEq, Repr

/-- The parameter `onRetry`: called with the wait in seconds and the number of the retry;
the third argument is the state of `body` at the time of the call. -/
abbrev Callback : Type := Nat → Nat → Body → CallbackResult

/-- How a call of `fetchGemini` ends. -/
inductive Outcome where
  /-- `return data` -/
  | returned (body : String)
  /-- `throw data.error` -/
  | threw (error : GeminiError)
  /-- a rejection of `fetch` or `res.json()` propagates -/
  | rejected (reason : String)
  /-- an exception raised by `onRetry` propagates -/
  | callbackThrew (reason : String)
  /-- `JSON.stringify(body)` raises while the arguments of `fetch` are evaluated: the
  exception propagates and no request is issued -/
  | stringifyThrew (message : String)
  /-- the loop condition fails and the function body ends without `return` -/
  | undefined
  /-- the step budget of the model is used up -/
  | outOfFuel
  deriving DecidableEq, Repr

/-- An observable action of `fetchGemini`: a request, a call of `onRetry`, a `sleep`. -/
inductive Event where
  | request
  | callback (seconds attempt : Nat)
  | sleep (ms : Nat)
  deriving DecidableEq, Repr

/-- The observable course of a call: its end, the number of requests issued, the
durations passed to `sleep` and the arguments passed to `onRetry`, both in order, and
the sequence of all three kinds of action in the order in which they happen. -/
structure Run where
  outcome : Outcome
  requests : Nat
  waits : List Nat
  calls : List (Nat × Nat)
  events : List Event
  deriving DecidableEq, Repr

/-- The constant `delays`. -/
def delays : List Nat := [3000, 6000, 10000]

/-- The expression `delays[attempt] ?? 10000`. -/
def waitMs (attempt : Nat) : Nat :=
  delays.getD attempt 10000

/-- The expression `Math.round(waitMs / 1000)` on a non-negative integer. -/
def roundSeconds (ms : Nat) : Nat :=
  (ms + 500) / 1000

/-- The loop of `fetchGemini` from the check `attempt <= maxRetries` on, with `body` in the
given state.  Every pass evaluates `JSON.stringify(body)` anew before it calls `fetch`;
the request of iteration `attempt` is answered by `replies attempt`; the next pass finds
`body` as the callback has left it.  `fuel` bounds the number of checks. -/
def fetchLoop (replies : Nat → Reply) (maxRetries : Int) (onRetry : Option Callback) :
    Nat → Nat → Body → Run
  | 0, _, _ => { outcome := .outOfFuel, requests := 0, waits := [], calls := [], events := [] }
  | fuel + 1, attempt, body =>
    if (attempt : Int) ≤ maxRetries then
      match body.stringifyError with
      | some message =>
        { outcome := .stringifyThrew message, requests := 0, waits := [], calls := [],
          events := [] }
      | none =>
        match replies attempt with
        | .rejected reason =>
          { outcome := .rejected reason, requests := 1, waits := [], calls := [],
            events := [.request] }
        | .data answer none =>
          { outcome := .returned answer, requests := 1, waits := [], calls := [],
            events := [.request] }
        | .data _ (some error) =>
          if error.code = some 429 ∧ (attempt : Int) < maxRetries then
            match onRetry with
            | none =>
              let rest := fetchLoop replies maxRetries onRetry fuel (attempt + 1) body
              { rest with
                requests := rest.requests + 1
                waits := waitMs attempt :: rest.waits
                events := .request :: .sleep (waitMs attempt) :: rest.events }
            | some f =>
              match f (roundSeconds (waitMs attempt)) (attempt + 1) body with
              | .raised reason =>
                { outcome := .callbackThrew reason, requests := 1, waits := [],
                  calls := [(roundSeconds (waitMs attempt), attempt + 1)],
                  events := [.request, .callback (roundSeconds (waitMs attempt)) (attempt + 1)] }
              | .returned body' =>
                let rest := fetchLoop replies maxRetries onRetry fuel (attempt + 1) body'
                { rest with
                  requests := rest.requests + 1
                  waits := waitMs attempt :: rest.waits
                  calls := (roundSeconds (waitMs attempt), attempt + 1) :: rest.calls
                  events := .request :: .callback (roundSeconds (waitMs attempt)) (attempt + 1)
                    :: .sleep (waitMs attempt) :: rest.events }
          else
            { outcome := .threw error, requests := 1, waits := [], calls := [],
              events := [.request] }
    else
      { outcome := .undefined, requests := 0, waits := [], calls := [], events := [] }

/-- The actions of `n` consecutive retries from iteration `attempt` on: the request, the
call of the callback when one is supplied, then the sleep. -/
def retryEvents (withCallback : Bool) : Nat → Nat → List Event
  | _, 0 => []
  | attempt, n + 1 =>
    (if withCallback then
        [Event.request, Event.callback (roundSeconds (waitMs attempt)) (attempt + 1),
          Event.sleep (waitMs attempt)]
      else [Event.request, Event.sleep (waitMs attempt)])
      ++ retryEvents withCallback (attempt + 1) n

/-- The actions of the pass `attempt` that ends the call with the given outcome. -/
def lastEvents (attempt : Nat) : Outcome → List Event
  | .undefined => []
  | .outOfFuel => []
  | .stringifyThrew _ => []
  | .callbackThrew _ =>
    [Event.request, Event.callback (roundSeconds (waitMs attempt)) (attempt + 1)]
  | _ => [Event.request]

/-- The function `fetchGemini(body, maxRetries, onRetry)`: the loop from `attempt = 0`,
with one check more than the loop can pass.  `replies` are the answers of the service. -/
def fetchGemini (replies : Nat → Reply) (body : Body) (maxRetries : Int)
    (onRetry : Option Callback) : Run :=
  fetchLoop replies maxRetries onRetry ((maxRetries + 1).toNat + 1) 0 body

/-- The default value of the parameter `maxRetries`. -/
def defaultMaxRetries : Int := 3

/-- A body of plain data, which `JSON.stringify` serialises. -/
def plainBody : Body := { stringifyError := none }

/-- A body that refers to itself, on which `JSON.stringify` raises. -/
def circularBody : Body := { stringifyError := some "Converting circular structure to JSON" }

/-- A service that answers every request with a rate-limit error. -/
def alwaysRateLimited : Nat → Reply :=
  fun i => .data "" (some { code := some 429, message := s!"quota {i}" })

/-- A service that is rate limited once, then fails with code 500. -/
def rateLimitedThenFailed : Nat → Reply :=
  fun i =>
    if i = 0 then .data "" (some { code := some 429, message := "quota" })
    else .data "" (some { code := some 500, message := "internal" })

/-- A callback that records nothing, leaves `body` alone and never raises. -/
def quietCallback : Callback :=
  fun _ _ body => .returned body

/-- A service that is rate limited once and then answers without error. -/
def rateLimitedThenOk : Nat → Reply :=
  fun i =>
    if i = 0 then .data "" (some { code := some 429, message := "quota" })
    else .data "answer" none

/-- A callback that raises on every call. -/
def raisingCallback : Callback :=
  fun _ _ _ => .raised "callback failed"

/-- A callback that never raises and leaves `body` alone, for comparison with the quiet
one. -/
def statusCallback : Callback :=
  fun _ _ body => .returned body

/-- A callback that returns normally after `body.self = body`: from then on
`JSON.stringify(body)` raises. -/
def circularCallback : Callback :=
  fun _ _ _ => .returned circularBody

/-! ## The classification flows of `functions/index.js` and `Report.jsx` -/

/-- The fields of a stored report that the classification flows write. -/
structure ReportDoc where
  status : Option String
  wasteType : Option String
  confidence : Option Int
  severity : Option Int
  aiReason : Option String
  error : Option String
  deriving DecidableEq, Repr

/-- The parsed answer of the model, `{ type, confidence, severity, reasoning }`. -/
structure Classification where
  type : String
  confidence : Int
  severity : Int
  reasoning : String
  deriving DecidableEq, Repr

/-- The argument of an `update` call on a report document: the result fields with status
`classified`, or status `ai_failed` with the error message. -/
inductive Update where
  | classified (c : Classification)
  | aiFailed (error : String)
  deriving DecidableEq, Repr

/-- The effect of an `update` call on the stored fields: the named fields are replaced,
the others are kept. -/
def Update.apply (doc : ReportDoc) : Update → ReportDoc
  | .classified c =>
    { doc with
      status := some "classified"
      wasteType := some c.type
      confidence := some c.confidence
      severity := some c.severity
      aiReason := some c.reasoning }
  | .aiFailed error => { doc with status := some "ai_failed", error := some error }

/-- An action of a classification flow on the outside world.  An `update` carries whether
the call went through (`applied`) or raised. -/
inductive Effect where
  | download (imageUrl : String)
  | modelCall
  | update (reportId : String) (fields : Update) (applied : Bool)
  deriving DecidableEq, Repr

/-- The error a callable function answers with: `new HttpsError(code, message)`. -/
structure HttpsError where
  code : String
  message : String
  deriving DecidableEq, Repr

/-- The object `request.data` as far as `classifyWaste` reads it. -/
structure RequestData where
  imageUrl : Option String
  reportId : Option String
  deriving DecidableEq, Repr

/-- What a call of `classifyWaste` throws: an `HttpsError`, or the `TypeError` of the
destructuring in line 12 when `request.data` is `null` or `undefined`.  That one is
raised before the checks and outside the `try` block; it is no `HttpsError`, and the
client sees it as an error of code `internal`. -/
inductive Thrown where
  | https (error : HttpsError)
  | typeError (message : String)
  deriving DecidableEq, Repr

/-- What the outside world answers during one call of `classifyWaste`: the message of the
error raised while the image is downloaded (if any), the text of the model's first
candidate or the message of the error raised on the way to it, the result of
`JSON.parse` on a text, and the message of the error an `update` call raises (if any). -/
structure Externals where
  download : Option String
  candidate : Except String String
  parse : String → Except String Classification
  update : String → Update → Option String

/-- The `catch` block of `classifyWaste` (lines 90-104): the update to `ai_failed`, whose
own failure is only logged, then the `internal` error. -/
def catchBlock (ext : Externals) (reportId message : String) (done : List Effect) :
    Except Thrown Classification × List Effect :=
  (.error (.https { code := "internal", message := "Classification failed: " ++ message }),
   done ++ [.update reportId (.aiFailed message)
     (ext.update reportId (.aiFailed message)).isNone])

/-- The checks of lines 15-22 and the `try` statement of `classifyWaste`, on the two
fields read from `request.data`. -/
def classifyFields (imageUrl reportId apiKey : Option String) (ext : Externals) :
    Except Thrown Classification × List Effect :=
  match truthy imageUrl, truthy reportId with
  | some url, some id =>
    match truthy apiKey with
    | none =>
      (.error (.https { code := "failed-precondition", message := "AI Service not configured." }),
       [])
    | some _ =>
      match ext.download with
      | some message => catchBlock ext id message [.download url]
      | none =>
        match ext.candidate with
        | .error message => catchBlock ext id message [.download url, .modelCall]
        | .ok text =>
          match ext.parse text with
          | .error message => catchBlock ext id message [.download url, .modelCall]
          | .ok c =>
            match ext.update id (.classified c) with
            | some message =>
              catchBlock ext id message
                [.download url, .modelCall, .update id (.classified c) false]
            | none =>
              (.ok c, [.download url, .modelCall, .update id (.classified c) true])
  | _, _ =>
    (.error (.https
       { code := "invalid-argument", message := "imageUrl and reportId are required." }), [])

/-- The callable function `classifyWaste`: its answer and its effects, in order.  Line 12,
`const { imageUrl, reportId } = request.data`, raises a `TypeError` when `request.data`
is `null` or `undefined`; otherwise the two fields are read and checked. -/
def classifyWaste (data : Option RequestData) (apiKey : Option String) (ext : Externals) :
    Except Thrown Classification × List Effect :=
  match data with
  | none =>
    (.error (.typeError "Cannot destructure property imageUrl of request.data as it is null."),
     [])
  | some d => classifyFields d.imageUrl d.reportId apiKey ext

/-- Lines 261-279 of `Report.jsx`: the classification step of `handleSubmit` for the
document just created, given what `classifyWithGemini` resolves or rejects with.  The
`catch` block only logs. -/
def handleSubmitClassify (docId : String) (classification : Except String Classification)
    (update : String → Update → Option String) : List Effect :=
  match classification with
  | .ok c => [.update docId (.classified c) (update docId (.classified c)).isNone]
  | .error _ => []

/-- The stored fields of the report `reportId` after the effects of a flow. -/
def applyEffects (reportId : String) (doc : ReportDoc) (effects : List Effect) : ReportDoc :=
  effects.foldl
    (fun d e =>
      match e with
      | .update id fields true => if id = reportId then fields.apply d else d
      | _ => d)
    doc

/-- The fields of a report right after `addDoc` in `handleSubmit`: status `pending_ai`. -/
def pendingDoc : ReportDoc :=
  { status := some "pending_ai", wasteType := none, confidence := none, severity := none,
    aiReason := none, error := none }

/-- An outside world in which the model answers with text that is not JSON. -/
def notJson : Externals :=
  { download := none
    candidate := .ok "not json"
    parse := fun _ => .error "Unexpected token"
    update := fun _ _ => none }

/-! ## Impact points -/

/-- Home.jsx line 67: `setUserImpact(snapshot.size * 10)` on the reports of the user. -/
def Home.userImpact (userReports : List Report) : Nat :=
  userReports.length * 10

/-- Profile.jsx line 177: `myReports.length * 10`. -/
def Profile.impactPoints (myReports : List Report) : Nat :=
  myReports.length * 10

/-- The rule the application prints in Leaderboard.jsx line 231: 10 points for every
report, 20 for every report with AI analysis, 50 for every resolved report. -/
def Leaderboard.pointsRule (reports : List Report) : Nat :=
  10 * reports.length + 20 * reports.countP (fun r => r.wasteType.isSome)
    + 50 * reports.countP (fun r => isResolved r)

/-- The reports of a user with one report, analysed and resolved. -/
def oneResolvedReport : List Report :=
  [ { area := some "Anna Nagar", wasteType := some "Wet", severity := some 3, status := some "resolved" } ]

/-! ## The resolved-share bar and a snapshot for the focus area -/

/-- Dashboard.jsx line 203: the width of the resolved-share bar in percent,
`Math.min(100, (area.resolved / area.reportCount) * 100)`.  The quotient is exact here;
the rounding of the double is not modelled. -/
def barWidth (area : AreaScore) : ℚ :=
  min 100 ((area.resolved : ℚ) / (area.reportCount : ℚ) * 100)

/-- Two reports filed under the area `constructor`. -/
def twoConstructorReports : List Report :=
  [ { area := some "constructor", wasteType := some "Wet", severity := some 5, status := some "classified" },
    { area := some "constructor", wasteType := some "Dry", severity := some 5, status := some "classified" } ]

/-! ## Lemmas on the `areaMap` updates -/

theorem keys_modifyOwn (m : List AreaEntry) (a : String) (f : AreaEntry → AreaEntry)
    (hf : ∀ e, (f e).name = e.name) : keys (modifyOwn m a f) = keys m := by
  unfold keys modifyOwn
  rw [List.map_map]
  apply List.map_congr_left
  intro e _
  by_cases h : e.name = a <;> simp [h, hf]

theorem getOwn_cons (e : AreaEntry) (m : List AreaEntry) (a : String) :
    getOwn (e :: m) a = if e.name = a then some e else getOwn m a := by
  unfold getOwn
  by_cases h : e.name = a
  · simp [List.find?, h]
  · have hb : (e.name == a) = false := by simpa using h
    simp [List.find?, h, hb]

theorem modifyOwn_cons (e : AreaEntry) (m : List AreaEntry) (a : String)
    (f : AreaEntry → AreaEntry) :
    modifyOwn (e :: m) a f = (if e.name = a then f e else e) :: modifyOwn m a f := rfl

theorem getOwn_modifyOwn_same (m : List AreaEntry) (a : String) (f : AreaEntry → AreaEntry)
    (hf : ∀ e, (f e).name = e.name) :
    getOwn (modifyOwn m a f) a = (getOwn m a).map f := by
  induction m with
  | nil => rfl
  | cons e m ih =>
    rw [modifyOwn_cons, getOwn_cons, getOwn_cons]
    by_cases h : e.name = a
    · simp [h, hf]
    · simp [h, ih]

theorem getOwn_modifyOwn_other (m : List AreaEntry) (a b : String) (f : AreaEntry → AreaEntry)
    (hf : ∀ e, (f e).name = e.name) (hab : b ≠ a) :
    getOwn (modifyOwn m b f) a = getOwn m a := by
  induction m with
  | nil => rfl
  | cons e m ih =>
    rw [modifyOwn_cons, getOwn_cons, getOwn_cons, ih]
    by_cases h : e.name = b
    · have h2 : ¬ e.name = a := fun h3 => hab (h.symm.trans h3)
      have h4 : ¬ (f e).name = a := by rw [hf]; exact h2
      simp [h, h2, h4, hab]
    · simp [h]

theorem hasOwn_eq_isSome (m : List AreaEntry) (a : String) :
    hasOwn m a = (getOwn m a).isSome := by
  induction m with
  | nil => rfl
  | cons e m ih =>
    rw [getOwn_cons]
    unfold hasOwn at ih ⊢
    by_cases h : e.name = a
    · simp [h]
    · simp [h, ih]

theorem getOwn_append_singleton (m : List AreaEntry) (a : String) (e : AreaEntry) :
    getOwn (m ++ [e]) a = ((getOwn m a).orElse fun _ => if e.name = a then some e else none) := by
  induction m with
  | nil =>
    rw [List.nil_append, getOwn_cons]
    by_cases h : e.name = a <;> simp [h, getOwn]
  | cons x m ih =>
    rw [List.cons_append, getOwn_cons, getOwn_cons, ih]
    by_cases h : x.name = a <;> simp [h]

theorem getOwn_name (m : List AreaEntry) (a : String) (e : AreaEntry)
    (h : getOwn m a = some e) : e.name = a := by
  unfold getOwn at h
  have := List.find?_some h
  simpa using this

/-- The effect of one callback on the entry read under a key that is not inherited. -/
theorem getOwn_areaStep (m : List AreaEntry) (curr : Report) (a : String)
    (ha : a ∉ objectPrototypeKeys) :
    getOwn (areaStep m curr) a =
      if truthy curr.area = some a then
        some (bump curr ((getOwn m a).getD
          { name := a, reportCount := 0, penalty := 0, resolved := 0 }))
      else getOwn m a := by
  unfold areaStep
  cases hb : truthy curr.area with
  | none => simp
  | some b =>
    by_cases hab : b = a
    · subst hab
      simp only [if_true]
      have hdec : decide (b ∈ objectPrototypeKeys) = false := by simpa using ha
      rw [hdec, Bool.or_false, hasOwn_eq_isSome]
      cases hg : getOwn m b with
      | none =>
        by_cases hr : isResolved curr = true
        · simp [hr, getOwn_modifyOwn_same, getOwn_append_singleton, hg, bump]
        · simp [hr, getOwn_modifyOwn_same, getOwn_append_singleton, hg, bump]
      | some e =>
        have hn := getOwn_name m b e hg
        by_cases hr : isResolved curr = true
        · simp [hr, getOwn_modifyOwn_same, hg, bump]
        · simp [hr, getOwn_modifyOwn_same, hg, bump]
    · have hne : ¬ (some b = some a) := by simpa using hab
      simp only [hne, if_false]
      have happ : getOwn (if (hasOwn m b || decide (b ∈ objectPrototypeKeys)) = true then m
          else m ++ [{ name := b, reportCount := 0, penalty := 0, resolved := 0 }]) a
          = getOwn m a := by
        split
        · rfl
        · rw [getOwn_append_singleton]
          cases getOwn m a <;> simp [hab]
      by_cases hr : isResolved curr = true
      · simpa [hr, getOwn_modifyOwn_other, hab] using happ
      · simpa [hr, getOwn_modifyOwn_other, hab] using happ

theorem getOwn_eq_none_iff (m : List AreaEntry) (a : String) :
    getOwn m a = none ↔ a ∉ keys m := by
  unfold getOwn keys
  simp [List.find?_eq_none]

theorem keys_areaStep (m : List AreaEntry) (curr : Report) :
    keys (areaStep m curr) = keys m ++ newKey m curr := by
  unfold areaStep newKey
  cases hb : truthy curr.area with
  | none => simp
  | some b =>
    have hk : keys (if (hasOwn m b || decide (b ∈ objectPrototypeKeys)) = true then m
          else m ++ [{ name := b, reportCount := 0, penalty := 0, resolved := 0 }])
        = keys m ++ (if (hasOwn m b || decide (b ∈ objectPrototypeKeys)) = true then []
          else [b]) := by
      split <;> simp [keys]
    by_cases hr : isResolved curr = true
    · simp only [hr, if_true]
      rw [keys_modifyOwn, keys_modifyOwn, hk] <;> intro _ <;> rfl
    · simp only [hr, Bool.false_eq_true, if_false]
      rw [keys_modifyOwn, keys_modifyOwn, hk] <;> intro _ <;> rfl

theorem newKey_not_mem (m : List AreaEntry) (curr : Report) (a : String)
    (h : a ∈ newKey m curr) :
    a ∉ keys m ∧ a ∉ objectPrototypeKeys ∧ truthy curr.area = some a := by
  unfold newKey at h
  cases hb : truthy curr.area with
  | none => simp [hb] at h
  | some b =>
    rw [hb] at h
    by_cases hc : (hasOwn m b || decide (b ∈ objectPrototypeKeys)) = true
    · simp [hc] at h
    · simp only [hc, Bool.false_eq_true, if_false, List.mem_singleton] at h
      subst h
      rw [Bool.or_eq_true, not_or] at hc
      refine ⟨?_, ?_, rfl⟩
      · rw [← getOwn_eq_none_iff]
        have h1 := hc.1
        rw [hasOwn_eq_isSome] at h1
        cases hg : getOwn m a with
        | none => rfl
        | some e => simp [hg] at h1
      · simpa using hc.2

theorem nodup_keys_areaStep (m : List AreaEntry) (curr : Report) (h : (keys m).Nodup) :
    (keys (areaStep m curr)).Nodup := by
  rw [keys_areaStep, List.nodup_append]
  refine ⟨h, ?_, ?_⟩
  · unfold newKey
    cases truthy curr.area with
    | none => simp
    | some b =>
      by_cases hc : (hasOwn m b || decide (b ∈ objectPrototypeKeys)) = true
      · simp only [hc, if_true]; exact List.nodup_nil
      · simp only [hc, Bool.false_eq_true, if_false]; exact List.nodup_singleton b
  · intro x hx hx2
    exact (newKey_not_mem m curr x hx2).1 hx

theorem nodup_keys_foldl (rs : List Report) (m : List AreaEntry) (h : (keys m).Nodup) :
    (keys (rs.foldl areaStep m)).Nodup := by
  induction rs generalizing m with
  | nil => exact h
  | cons r rs ih => exact ih _ (nodup_keys_areaStep m r h)

theorem not_inherited_foldl (rs : List Report) (m : List AreaEntry)
    (h : ∀ k ∈ keys m, k ∉ objectPrototypeKeys) :
    ∀ k ∈ keys (rs.foldl areaStep m), k ∉ objectPrototypeKeys := by
  induction rs generalizing m with
  | nil => exact h
  | cons r rs ih =>
    apply ih
    intro k hk
    rw [keys_areaStep, List.mem_append] at hk
    rcases hk with hk | hk
    · exact h k hk
    · exact (newKey_not_mem m r k hk).2.1

theorem bumpAll_name (rs : List Report) (e : AreaEntry) : (bumpAll rs e).name = e.name := by
  induction rs generalizing e with
  | nil => rfl
  | cons r rs ih =>
    show (bumpAll rs (bump r e)).name = e.name
    rw [ih]; rfl

theorem bumpAll_reportCount (rs : List Report) (e : AreaEntry) :
    (bumpAll rs e).reportCount = e.reportCount + rs.length := by
  induction rs generalizing e with
  | nil => rfl
  | cons r rs ih =>
    show (bumpAll rs (bump r e)).reportCount = _
    rw [ih]; simp [bump]; omega

theorem bumpAll_resolved (rs : List Report) (e : AreaEntry) :
    (bumpAll rs e).resolved = e.resolved + rs.countP (fun r => isResolved r) := by
  induction rs generalizing e with
  | nil => rfl
  | cons r rs ih =>
    show (bumpAll rs (bump r e)).resolved = _
    rw [ih, List.countP_cons]
    by_cases hr : isResolved r = true <;> simp [bump, hr]; omega

theorem bumpAll_penalty (rs : List Report) (e : AreaEntry) :
    (bumpAll rs e).penalty = e.penalty +
      ((rs.filter (fun r => !isResolved r)).map (fun r => 10 + severityPenalty r)).sum := by
  induction rs generalizing e with
  | nil => simp [bumpAll]
  | cons r rs ih =>
    show (bumpAll rs (bump r e)).penalty = _
    rw [ih]
    by_cases hr : isResolved r = true
    · simp [bump, hr]
    · simp [bump, hr]; omega

/-- The entry of `areaMap` under a key that is not inherited, after a run of callbacks. -/
theorem getOwn_foldl (rs : List Report) (m : List AreaEntry) (a : String)
    (ha : a ∉ objectPrototypeKeys) :
    getOwn (rs.foldl areaStep m) a =
      if areaReports a rs = [] then getOwn m a
      else some (bumpAll (areaReports a rs) ((getOwn m a).getD
        { name := a, reportCount := 0, penalty := 0, resolved := 0 })) := by
  induction rs generalizing m with
  | nil => simp [areaReports]
  | cons r rs ih =>
    rw [List.foldl_cons, ih, getOwn_areaStep m r a ha]
    by_cases hr : truthy r.area = some a
    · have h1 : areaReports a (r :: rs) = r :: areaReports a rs := by
        simp [areaReports, List.filter_cons, hr]
      rw [h1]
      by_cases h2 : areaReports a rs = []
      · simp [hr, h2, bumpAll]
      · simp [hr, h2, bumpAll]
    · have h1 : areaReports a (r :: rs) = areaReports a rs := by
        simp [areaReports, List.filter_cons, hr]
      rw [h1]
      simp [hr]

/-! ## From the reduction to `sortedAreas` -/

theorem foldl_step_areaMap (rs : List Report) (acc : Acc) :
    (rs.foldl step acc).areaMap = rs.foldl areaStep acc.areaMap := by
  induction rs generalizing acc with
  | nil => rfl
  | cons r rs ih => rw [List.foldl_cons, ih, List.foldl_cons]; rfl

theorem reduce_areaMap (proto : List String) (rs : List Report) :
    (reduce proto rs).areaMap = rs.foldl areaStep [] :=
  foldl_step_areaMap rs (initial proto)

theorem objectValues_perm (m : List AreaEntry) : (objectValues m).Perm m := by
  unfold objectValues
  refine List.Perm.trans (List.Perm.append_right _ (List.perm_insertionSort _ _)) ?_
  exact List.filter_append_perm _ m

theorem sortedAreas_perm (proto : List String) (rs : List Report) :
    (sortedAreas proto rs).Perm ((rs.foldl areaStep []).map withScore) := by
  unfold sortedAreas
  rw [reduce_areaMap]
  exact (List.perm_insertionSort _ _).trans ((objectValues_perm _).map withScore)

theorem find?_name_iff (l : List AreaScore) (h : (l.map (fun x => x.name)).Nodup)
    (a : String) (e : AreaScore) :
    l.find? (fun x => x.name == a) = some e ↔ e ∈ l ∧ e.name = a := by
  induction l with
  | nil => simp
  | cons x l ih =>
    rw [List.map_cons, List.nodup_cons] at h
    rw [List.find?_cons]
    by_cases hx : x.name = a
    · have hb : (x.name == a) = true := by simpa using hx
      rw [hb]
      constructor
      · intro h1
        cases h1
        exact ⟨List.mem_cons_self _ _, hx⟩
      · rintro ⟨h1, h2⟩
        rcases List.mem_cons.1 h1 with h3 | h3
        · rw [h3]
        · exfalso
          apply h.1
          rw [List.mem_map]
          exact ⟨e, h3, h2.trans hx.symm⟩
    · have hb : (x.name == a) = false := by simpa using hx
      rw [hb]
      simp only []
      rw [ih h.2]
      constructor
      · rintro ⟨h1, h2⟩
        exact ⟨List.mem_cons_of_mem _ h1, h2⟩
      · rintro ⟨h1, h2⟩
        rcases List.mem_cons.1 h1 with h3 | h3
        · exact absurd (h3 ▸ h2) hx
        · exact ⟨h3, h2⟩

theorem find?_name_perm (l₁ l₂ : List AreaScore) (hp : l₁.Perm l₂)
    (h : (l₂.map (fun x => x.name)).Nodup) (a : String) :
    l₁.find? (fun x => x.name == a) = l₂.find? (fun x => x.name == a) := by
  have h1 : (l₁.map (fun x => x.name)).Nodup := (hp.map _).nodup_iff.2 h
  cases hf : l₂.find? (fun x => x.name == a) with
  | none =>
    rw [List.find?_eq_none] at hf ⊢
    intro x hx
    exact hf x (hp.mem_iff.1 hx)
  | some e =>
    rw [find?_name_iff l₂ h] at hf
    rw [find?_name_iff l₁ h1]
    exact ⟨hp.mem_iff.2 hf.1, hf.2⟩

theorem map_withScore_name (m : List AreaEntry) :
    (m.map withScore).map (fun x => x.name) = keys m := by
  unfold keys
  rw [List.map_map]
  rfl

theorem nodup_names_sortedAreas (proto : List String) (rs : List Report) :
    ((sortedAreas proto rs).map (fun x => x.name)).Nodup := by
  rw [((sortedAreas_perm proto rs).map _).nodup_iff, map_withScore_name]
  exact nodup_keys_foldl rs [] List.nodup_nil

theorem find?_map_withScore (m : List AreaEntry) (a : String) :
    (m.map withScore).find? (fun x => x.name == a) = (getOwn m a).map withScore := by
  induction m with
  | nil => rfl
  | cons e m ih =>
    rw [List.map_cons, List.find?_cons, getOwn_cons]
    by_cases h : e.name = a
    · have hb : ((withScore e).name == a) = true := by simpa [withScore] using h
      simp [hb, h]
    · have hb : ((withScore e).name == a) = false := by simpa [withScore] using h
      simp [hb, h, ih]

/-- The aggregate of an area is the scored entry of `areaMap` under its name. -/
theorem areaOf_eq_getOwn (proto : List String) (rs : List Report) (a : String) :
    areaOf proto rs a = (getOwn (rs.foldl areaStep []) a).map withScore := by
  unfold areaOf
  rw [find?_name_perm _ _ (sortedAreas_perm proto rs), find?_map_withScore]
  rw [map_withScore_name]
  exact nodup_keys_foldl rs [] List.nodup_nil

/-- Closed form of the aggregate of an area whose name is not inherited. -/
theorem areaOf_closed (proto : List String) (rs : List Report) (a : String)
    (ha : a ∉ objectPrototypeKeys) :
    areaOf proto rs a =
      if areaReports a rs = [] then none
      else some (withScore (bumpAll (areaReports a rs)
        { name := a, reportCount := 0, penalty := 0, resolved := 0 })) := by
  rw [areaOf_eq_getOwn, getOwn_foldl rs [] a ha]
  by_cases h : areaReports a rs = [] <;> simp [h, getOwn]

/-- No aggregate exists under an inherited name. -/
theorem areaOf_inherited (proto : List String) (rs : List Report) (a : String)
    (ha : a ∈ objectPrototypeKeys) : areaOf proto rs a = none := by
  rw [areaOf_eq_getOwn]
  have h : getOwn (rs.foldl areaStep []) a = none := by
    rw [getOwn_eq_none_iff]
    intro hk
    exact not_inherited_foldl rs [] (by simp [keys]) a hk ha
  rw [h]; rfl

theorem mem_sortedAreas_iff (proto : List String) (rs : List Report) (e : AreaScore) :
    e ∈ sortedAreas proto rs ↔ areaOf proto rs e.name = some e := by
  unfold areaOf
  rw [find?_name_iff _ (nodup_names_sortedAreas proto rs)]
  simp

/-- Every element of `sortedAreas` is given by the closed form at its own name. -/
theorem mem_sortedAreas_closed (proto : List String) (rs : List Report) (e : AreaScore)
    (he : e ∈ sortedAreas proto rs) :
    e.name ∉ objectPrototypeKeys ∧ areaReports e.name rs ≠ [] ∧
      e = withScore (bumpAll (areaReports e.name rs)
        { name := e.name, reportCount := 0, penalty := 0, resolved := 0 }) := by
  rw [mem_sortedAreas_iff] at he
  by_cases ha : e.name ∈ objectPrototypeKeys
  · rw [areaOf_inherited proto rs e.name ha] at he
    cases he
  · rw [areaOf_closed proto rs e.name ha] at he
    by_cases h : areaReports e.name rs = []
    · simp [h] at he
    · simp only [h, if_false, Option.some.injEq] at he
      exact ⟨ha, h, he.symm⟩

/-! ## Penalty of an area -/

theorem truthy_eq_some (o : Option String) (a : String) :
    truthy o = some a ↔ o = some a ∧ a ≠ "" := by
  cases o with
  | none => simp [truthy]
  | some s =>
    unfold truthy
    by_cases h : s = ""
    · subst h
      simp only [if_true]
      constructor
      · intro h1; cases h1
      · rintro ⟨h1, h2⟩
        cases h1
        exact absurd rfl h2
    · simp only [h, if_false, Option.some.injEq]
      constructor
      · intro h1; subst h1; exact ⟨rfl, h⟩
      · intro h1; exact h1.1

theorem name_ne_empty_of_areaReports (a : String) (rs : List Report)
    (h : areaReports a rs ≠ []) : a ≠ "" := by
  obtain ⟨r, hr⟩ := List.exists_mem_of_ne_nil _ h
  unfold areaReports at hr
  rw [List.mem_filter] at hr
  have h1 : truthy r.area = some a := by simpa using hr.2
  exact ((truthy_eq_some _ _).1 h1).2

theorem isResolved_iff (r : Report) : isResolved r = true ↔ r.status = some "resolved" := by
  unfold isResolved
  simp

theorem severityPenalty_eq (r : Report) :
    severityPenalty r =
      if r.severity = none ∨ r.severity = some 0 then 2 else r.severity.getD 2 := by
  unfold severityPenalty
  cases h : r.severity with
  | none => simp
  | some s => by_cases h0 : s = 0 <;> simp [h0]

/-- The penalty sum written over the raw fields of the reports. -/
theorem penaltySum_eq (a : String) (rs : List Report) (ha : a ≠ "") :
    penaltySum a rs =
      ((rs.filter (fun r => decide (r.area = some a ∧ r.status ≠ some "resolved"))).map
        (fun r => 10 + (if r.severity = none ∨ r.severity = some 0 then 2
          else r.severity.getD 2))).sum := by
  unfold penaltySum areaReports
  rw [List.filter_filter]
  have h1 : (fun r : Report => (!isResolved r && decide (truthy r.area = some a)))
      = (fun r => decide (r.area = some a ∧ r.status ≠ some "resolved")) := by
    funext r
    have h2 := truthy_eq_some r.area a
    have h3 := isResolved_iff r
    by_cases hr : isResolved r = true
    · have h4 := h3.1 hr
      simp [hr, h4]
    · have h4 : ¬ r.status = some "resolved" := fun h5 => hr (h3.2 h5)
      by_cases h6 : r.area = some a
      · have h7 : truthy r.area = some a := h2.2 ⟨h6, ha⟩
        have h8 : truthy (some a) = some a := h6 ▸ h7
        simp [hr, h4, h6, h8]
      · have h7 : ¬ truthy r.area = some a := fun h8 => h6 (h2.1 h8).1
        simp [hr, h4, h6, h7]
  rw [h1]
  congr 1
  apply List.map_congr_left
  intro r _
  rw [severityPenalty_eq]

theorem penalty_of_mem (proto : List String) (rs : List Report) (e : AreaScore)
    (he : e ∈ sortedAreas proto rs) :
    e.name ≠ "" ∧ e.penalty = penaltySum e.name rs ∧ e.score = max 0 (100 - e.penalty) := by
  obtain ⟨_, h2, h3⟩ := mem_sortedAreas_closed proto rs e he
  refine ⟨name_ne_empty_of_areaReports _ _ h2, ?_, ?_⟩
  · have h4 := congrArg AreaScore.penalty h3
    rw [h4]
    simp only [withScore]
    rw [bumpAll_penalty]
    simp [penaltySum]
  · have h4 := congrArg AreaScore.score h3
    have h5 := congrArg AreaScore.penalty h3
    rw [h4, h5]
    rfl

/-- C1 (amended): for every report sequence and every aggregate `e` the Dashboard
aggregation produces, `e.penalty` is the sum, over the reports of area `e.name` whose
status is not `resolved`, of `10 + s`, where `s` is the severity if it is present and
not zero, and `2` otherwise; and adding a resolved report of any severity anywhere in
the sequence leaves the penalty of every area unchanged. -/
theorem penalty_eq_sum_unresolved (proto : List String) (reportsData : List Report) :
    (∀ e ∈ sortedAreas proto reportsData,
      e.penalty =
        ((reportsData.filter
            (fun r => decide (r.area = some e.name ∧ r.status ≠ some "resolved"))).map
          (fun r => 10 + (if r.severity = none ∨ r.severity = some 0 then 2
            else r.severity.getD 2))).sum) ∧
    (∀ (pre post : List Report) (r : Report), reportsData = pre ++ r :: post →
      r.status = some "resolved" →
      ∀ e ∈ sortedAreas proto reportsData, ∀ e' ∈ sortedAreas proto (pre ++ post),
        e'.name = e.name → e'.penalty = e.penalty) := by
  have key : ∀ (rs : List Report), ∀ e ∈ sortedAreas proto rs,
      e.penalty =
        ((rs.filter
            (fun r => decide (r.area = some e.name ∧ r.status ≠ some "resolved"))).map
          (fun r => 10 + (if r.severity = none ∨ r.severity = some 0 then 2
            else r.severity.getD 2))).sum := by
    intro rs e he
    obtain ⟨h1, h2, _⟩ := penalty_of_mem proto rs e he
    rw [h2, penaltySum_eq _ _ h1]
  refine ⟨key reportsData, ?_⟩
  intro pre post r hrs hres e he e' he' hname
  rw [key reportsData e he, key (pre ++ post) e' he', hname, hrs]
  simp [List.filter_append, List.filter_cons, hres]

/-- C1 (witness): the three `Anna Nagar` reports give one aggregate with reportCount 3,
resolved 1, penalty 28 = (10+3) + (10+5) + 0 and score 72. -/
theorem penalty_eq_sum_unresolved_witness :
    sortedAreas [] annaNagar =
        [{ name := "Anna Nagar", reportCount := 3, penalty := 28, resolved := 1, score := 72 }] ∧
      (28 : Int) =
        ((annaNagar.filter
            (fun r => decide (r.area = some "Anna Nagar" ∧ r.status ≠ some "resolved"))).map
          (fun r => 10 + (if r.severity = none ∨ r.severity = some 0 then 2
            else r.severity.getD 2))).sum :=
  ⟨by decide,
   (penalty_eq_sum_unresolved [] annaNagar).1
     { name := "Anna Nagar", reportCount := 3, penalty := 28, resolved := 1, score := 72 }
     (by decide)⟩

/-- C1 (counterexample): an unresolved report whose severity is present and equal to `0`
gets the default weight: the aggregation computes penalty 12, while `10 + severity`
is 10. -/
theorem penalty_zero_severity_counterexample :
    (sortedAreas [] zeroSeverity).map (fun e => (e.name, e.penalty)) = [("Anna Nagar", 12)] ∧
      ((zeroSeverity.filter
          (fun r => decide (r.area = some "Anna Nagar" ∧ r.status ≠ some "resolved"))).map
        (fun r => 10 + r.severity.getD 2)).sum = 10 := by
  decide

/-! ## Range and order of the scores -/

theorem severityPenalty_pos (r : Report)
    (h : ∀ s, r.severity = some s → 1 ≤ s ∧ s ≤ 5) : 1 ≤ severityPenalty r := by
  unfold severityPenalty
  cases hs : r.severity with
  | none => simp
  | some s =>
    have := h s hs
    by_cases h0 : s = 0
    · simp [h0]
    · simp [h0]; exact this.1

theorem penaltySum_nonneg (a : String) (rs : List Report)
    (h : ∀ r ∈ rs, ∀ s, r.severity = some s → 1 ≤ s ∧ s ≤ 5) : 0 ≤ penaltySum a rs := by
  unfold penaltySum
  apply List.sum_nonneg
  intro x hx
  rw [List.mem_map] at hx
  obtain ⟨r, hr, rfl⟩ := hx
  have hr2 : r ∈ rs := by
    unfold areaReports at hr
    exact List.mem_of_mem_filter (List.mem_of_mem_filter hr)
  have := severityPenalty_pos r (h r hr2)
  omega

/-- C2: when every present severity is an integer in [1,5], every aggregate the Dashboard
aggregation produces has score = max(0, 100 - penalty) with 0 <= score <= 100, and an
aggregate whose penalty exceeds 100 has score exactly 0. -/
theorem score_clamped (proto : List String) (reportsData : List Report)
    (hsev : ∀ r ∈ reportsData, ∀ s, r.severity = some s → 1 ≤ s ∧ s ≤ 5) :
    ∀ e ∈ sortedAreas proto reportsData,
      e.score = max 0 (100 - e.penalty) ∧ 0 ≤ e.score ∧ e.score ≤ 100 ∧
        (100 < e.penalty → e.score = 0) := by
  intro e he
  obtain ⟨_, h2, h3⟩ := penalty_of_mem proto reportsData e he
  have h4 := penaltySum_nonneg e.name reportsData hsev
  rw [← h2] at h4
  refine ⟨h3, ?_, ?_, ?_⟩
  · rw [h3]; exact le_max_left _ _
  · rw [h3]; exact max_le (by norm_num) (by omega)
  · intro h5
    rw [h3]
    exact max_eq_left (by omega)

/-- C2 (witness): ten unresolved severity-5 reports of one area give penalty 150 and the
score is clamped to 0. -/
theorem score_clamped_witness :
    sortedAreas [] overloaded =
        [{ name := "Anna Nagar", reportCount := 10, penalty := 150, resolved := 0, score := 0 }] ∧
      ((0 : Int) = max 0 (100 - 150) ∧ (0 : Int) ≤ 0 ∧ (0 : Int) ≤ 100 ∧
        ((100 : Int) < 150 → (0 : Int) = 0)) :=
  ⟨by decide,
   score_clamped [] overloaded (by decide)
     { name := "Anna Nagar", reportCount := 10, penalty := 150, resolved := 0, score := 0 }
     (by decide)⟩

/-- C3: the area list is ascending by score: each element's score is at most the score of
its successor, and indeed of every later element. -/
theorem sortedAreas_ascending (proto : List String) (reportsData : List Report) :
    List.Chain' (fun x y => x.score ≤ y.score) (sortedAreas proto reportsData) ∧
      List.Pairwise (fun x y => x.score ≤ y.score) (sortedAreas proto reportsData) := by
  haveI : IsTotal AreaScore (fun a b => a.score ≤ b.score) := ⟨fun a b => le_total _ _⟩
  haveI : IsTrans AreaScore (fun a b => a.score ≤ b.score) :=
    ⟨fun a b c hab hbc => le_trans hab hbc⟩
  have h : List.Sorted (fun a b : AreaScore => a.score ≤ b.score)
      (sortedAreas proto reportsData) := by
    unfold sortedAreas
    exact List.sorted_insertionSort _ _
  exact ⟨List.Pairwise.chain' h, h⟩

/-- C7: an aggregate all of whose reports have status `resolved` has penalty 0 and score
exactly 100, whatever the severities. -/
theorem all_resolved_score_100 (proto : List String) (reportsData : List Report)
    (e : AreaScore) (he : e ∈ sortedAreas proto reportsData)
    (hall : ∀ r ∈ reportsData, r.area = some e.name → r.status = some "resolved") :
    e.penalty = 0 ∧ e.score = 100 := by
  obtain ⟨_, h2, h3⟩ := penalty_of_mem proto reportsData e he
  have h4 : penaltySum e.name reportsData = 0 := by
    unfold penaltySum
    have h5 : (areaReports e.name reportsData).filter (fun r => !isResolved r) = [] := by
      rw [List.filter_eq_nil_iff]
      intro r hr
      unfold areaReports at hr
      rw [List.mem_filter] at hr
      have h6 : truthy r.area = some e.name := by simpa using hr.2
      have h7 := hall r hr.1 ((truthy_eq_some _ _).1 h6).1
      simp [(isResolved_iff r).2 h7]
    rw [h5]; rfl
  rw [h4] at h2
  refine ⟨h2, ?_⟩
  rw [h3, h2]; rfl

/-- C7 (witness): the three `Anna Nagar` reports with severities 3, 5, 2, all resolved,
give penalty 0 and score 100. -/
theorem all_resolved_score_100_witness :
    sortedAreas [] annaNagarResolved =
        [{ name := "Anna Nagar", reportCount := 3, penalty := 0, resolved := 3, score := 100 }] ∧
      ((0 : Int) = 0 ∧ (100 : Int) = 100) :=
  ⟨by decide,
   all_resolved_score_100 [] annaNagarResolved
     { name := "Anna Nagar", reportCount := 3, penalty := 0, resolved := 3, score := 100 }
     (by decide) (by decide)⟩

/-! ## Global statistics -/

theorem typesStep_counts (proto : List String) (t : Types) (r : Report) :
    (typesStep proto t r).Wet = t.Wet + (if r.wasteType = some "Wet" then 1 else 0) ∧
    (typesStep proto t r).Dry = t.Dry + (if r.wasteType = some "Dry" then 1 else 0) ∧
    (typesStep proto t r).Hazardous
      = t.Hazardous + (if r.wasteType = some "Hazardous" then 1 else 0) ∧
    (typesStep proto t r).Mixed = t.Mixed + (if r.wasteType = some "Mixed" then 1 else 0) := by
  cases hw : r.wasteType with
  | none => simp [typesStep, truthy, hw]
  | some w =>
    by_cases h0 : w = ""
    · subst h0
      simp [typesStep, truthy, hw]
    · simp only [typesStep, truthy, hw, h0, if_false, Option.some.injEq]
      split_ifs <;> simp_all

theorem foldl_step_stats (rs : List Report) (acc : Acc) :
    (rs.foldl step acc).stats.total = acc.stats.total + rs.length ∧
    (rs.foldl step acc).stats.resolved
      = acc.stats.resolved + rs.countP (fun r => decide (r.status = some "resolved")) ∧
    (rs.foldl step acc).stats.pending
      = acc.stats.pending + rs.countP (fun r => decide (r.status ≠ some "resolved")) ∧
    (rs.foldl step acc).stats.severitySum
      = acc.stats.severitySum + (rs.filterMap (fun r => r.severity)).sum := by
  induction rs generalizing acc with
  | nil => simp
  | cons r rs ih =>
    obtain ⟨h1, h2, h3, h4⟩ := ih (step acc r)
    rw [List.foldl_cons, h1, h2, h3, h4]
    have hres : isResolved r = decide (r.status = some "resolved") := by
      unfold isResolved
      by_cases hr : r.status = some "resolved" <;> simp [hr]
    refine ⟨?_, ?_, ?_, ?_⟩
    · simp [step, statsStep]; omega
    · by_cases hr : r.status = some "resolved"
      · simp [step, statsStep, hres, hr, List.countP_cons]; omega
      · simp [step, statsStep, hres, hr, List.countP_cons]
    · by_cases hr : r.status = some "resolved"
      · simp [step, statsStep, hres, hr, List.countP_cons]
      · simp [step, statsStep, hres, hr, List.countP_cons]; omega
    · cases hs : r.severity with
      | none => simp [step, statsStep, hs, List.filterMap_cons]
      | some s =>
        by_cases h0 : s = 0
        · simp [step, statsStep, hs, h0, List.filterMap_cons]
        · simp [step, statsStep, hs, h0, List.filterMap_cons]; omega

theorem foldl_step_types (rs : List Report) (acc : Acc) :
    (rs.foldl step acc).stats.types.Wet
      = acc.stats.types.Wet + rs.countP (fun r => decide (r.wasteType = some "Wet")) ∧
    (rs.foldl step acc).stats.types.Dry
      = acc.stats.types.Dry + rs.countP (fun r => decide (r.wasteType = some "Dry")) ∧
    (rs.foldl step acc).stats.types.Hazardous
      = acc.stats.types.Hazardous
        + rs.countP (fun r => decide (r.wasteType = some "Hazardous")) ∧
    (rs.foldl step acc).stats.types.Mixed
      = acc.stats.types.Mixed + rs.countP (fun r => decide (r.wasteType = some "Mixed")) := by
  induction rs generalizing acc with
  | nil => simp
  | cons r rs ih =>
    obtain ⟨h1, h2, h3, h4⟩ := ih (step acc r)
    obtain ⟨t1, t2, t3, t4⟩ := typesStep_counts acc.proto acc.stats.types r
    rw [List.foldl_cons, h1, h2, h3, h4]
    simp only [step, statsStep, t1, t2, t3, t4, List.countP_cons]
    refine ⟨?_, ?_, ?_, ?_⟩ <;> split_ifs <;> simp_all <;> omega

theorem foldl_step_types_sum (rs : List Report) (acc : Acc) :
    (rs.foldl step acc).stats.types.sum ≤ acc.stats.types.sum + rs.length := by
  induction rs generalizing acc with
  | nil => simp
  | cons r rs ih =>
    rw [List.foldl_cons]
    refine le_trans (ih (step acc r)) ?_
    obtain ⟨t1, t2, t3, t4⟩ := typesStep_counts acc.proto acc.stats.types r
    simp only [step, statsStep, Types.sum, t1, t2, t3, t4, List.length_cons]
    cases hw : r.wasteType with
    | none => simp
    | some w =>
      simp only [Option.some.injEq]
      split_ifs <;> simp_all <;> omega

/-- C5: the computed stats have total = length of the input, resolved = number of reports
with status `resolved`, pending = number of reports with any other status (or none),
and resolved + pending = total. -/
theorem stats_totals (proto : List String) (reportsData : List Report) :
    (calculated proto reportsData).total = reportsData.length ∧
    (calculated proto reportsData).resolved
      = reportsData.countP (fun r => decide (r.status = some "resolved")) ∧
    (calculated proto reportsData).pending
      = reportsData.countP (fun r => decide (r.status ≠ some "resolved")) ∧
    (calculated proto reportsData).resolved + (calculated proto reportsData).pending
      = (calculated proto reportsData).total := by
  obtain ⟨h1, h2, h3, _⟩ := foldl_step_stats reportsData (initial proto)
  unfold calculated reduce
  rw [h1, h2, h3]
  simp only [initial, Nat.zero_add]
  refine ⟨trivial, trivial, trivial, ?_⟩
  have := List.length_eq_countP_add_countP
    (fun r : Report => decide (r.status = some "resolved")) reportsData
  rw [this]
  simp

/-! ## Keys of `acc.types` -/

theorem mem_typesStep_extra (proto : List String) (t : Types) (r : Report) (w : String)
    (h : w ∈ (typesStep proto t r).extra) :
    w ∈ t.extra ∨ (r.wasteType = some w ∧ w ≠ "__proto__" ∧
      (w ∈ objectPrototypeKeys ∨ w ∈ proto)) := by
  cases hw : r.wasteType with
  | none =>
    left
    simpa [typesStep, truthy, hw] using h
  | some v =>
    by_cases h0 : v = ""
    · subst h0
      left
      simpa [typesStep, truthy, hw] using h
    · simp only [typesStep, truthy, hw, h0, if_false] at h
      split_ifs at h with h1 h2 h3 h4 h5 h6 h7
      · exact Or.inl h
      · exact Or.inl h
      · exact Or.inl h
      · exact Or.inl h
      · exact Or.inl h
      · exact Or.inl h
      · rw [List.mem_append, List.mem_singleton] at h
        rcases h with h | h
        · exact Or.inl h
        · subst h
          exact Or.inr ⟨rfl, h6, h7⟩
      · exact Or.inl h

theorem proto_subset_protoStep (proto : List String) (r : Report) :
    proto ⊆ protoStep proto r := by
  intro x hx
  unfold protoStep
  split_ifs <;> simp [hx]

theorem proto_subset_foldl (rs : List Report) (acc : Acc) :
    acc.proto ⊆ (rs.foldl step acc).proto := by
  induction rs generalizing acc with
  | nil => exact fun _ h => h
  | cons r rs ih =>
    rw [List.foldl_cons]
    exact fun x hx => ih (step acc r) (proto_subset_protoStep acc.proto r hx)

theorem mem_extra_foldl (rs : List Report) (acc : Acc) (w : String)
    (h : w ∈ (rs.foldl step acc).stats.types.extra) :
    w ∈ acc.stats.types.extra ∨ ∃ r ∈ rs, r.wasteType = some w ∧ w ≠ "__proto__" ∧
      (w ∈ objectPrototypeKeys ∨ w ∈ (rs.foldl step acc).proto) := by
  induction rs generalizing acc with
  | nil => exact Or.inl h
  | cons r rs ih =>
    rw [List.foldl_cons] at h ⊢
    rcases ih (step acc r) h with h1 | ⟨r', hr', h2⟩
    · rcases mem_typesStep_extra acc.proto acc.stats.types r w h1 with h3 | ⟨h3, h4, h5⟩
      · exact Or.inl h3
      · right
        refine ⟨r, List.mem_cons_self _ _, h3, h4, ?_⟩
        rcases h5 with h5 | h5
        · exact Or.inl h5
        · right
          exact proto_subset_foldl rs (step acc r) (proto_subset_protoStep acc.proto r h5)
    · exact Or.inr ⟨r', List.mem_cons_of_mem _ hr', h2⟩

/-- The histogram `stats.types` on every input: for each of the four labels L, `types[L]`
is the number of reports whose wasteType is exactly L, whatever the other reports carry,
and the four values sum to at most `total`; and `stats.types` has no key beyond the four
provided no report's wasteType is the name of a property found on `Object.prototype` by
the end of the aggregation (`__proto__` excepted). -/
theorem types_histogram (proto : List String) (reportsData : List Report) :
    (calculated proto reportsData).types.Wet
      = reportsData.countP (fun r => decide (r.wasteType = some "Wet")) ∧
    (calculated proto reportsData).types.Dry
      = reportsData.countP (fun r => decide (r.wasteType = some "Dry")) ∧
    (calculated proto reportsData).types.Hazardous
      = reportsData.countP (fun r => decide (r.wasteType = some "Hazardous")) ∧
    (calculated proto reportsData).types.Mixed
      = reportsData.countP (fun r => decide (r.wasteType = some "Mixed")) ∧
    (calculated proto reportsData).types.Wet + (calculated proto reportsData).types.Dry
        + (calculated proto reportsData).types.Hazardous
        + (calculated proto reportsData).types.Mixed
      ≤ (calculated proto reportsData).total ∧
    ((∀ r ∈ reportsData, ∀ w, r.wasteType = some w →
        (w ∈ objectPrototypeKeys → w = "__proto__") ∧ w ∉ (reduce proto reportsData).proto) →
      (calculated proto reportsData).types.extra = []) := by
  obtain ⟨h1, h2, h3, h4⟩ := foldl_step_types reportsData (initial proto)
  have h5 := foldl_step_types_sum reportsData (initial proto)
  have h6 := (foldl_step_stats reportsData (initial proto)).1
  unfold calculated reduce
  refine ⟨by simpa [initial] using h1, by simpa [initial] using h2,
    by simpa [initial] using h3, by simpa [initial] using h4, ?_, ?_⟩
  · rw [h6]
    simpa [initial, Types.sum] using h5
  · intro H
    rw [List.eq_nil_iff_forall_not_mem]
    intro w hw
    rcases mem_extra_foldl reportsData (initial proto) w hw with h7 | ⟨r, hr, h8, h9, h10⟩
    · simp [initial] at h7
    · obtain ⟨h11, h12⟩ := H r hr w h8
      rcases h10 with h10 | h10
      · exact h9 (h11 h10)
      · exact h12 h10

/-- A `Plastic` report and a report without wasteType change no entry and add no key, yet
count in `total`: one `Wet` among three reports. -/
theorem types_histogram_witness :
    calculated [] unknownTypes =
        { total := 3, resolved := 0, pending := 3, severitySum := 5,
          types := { Wet := 1, Dry := 0, Hazardous := 0, Mixed := 0, extra := [] } } ∧
      (calculated [] unknownTypes).types.extra = [] :=
  ⟨by decide, (types_histogram [] unknownTypes).2.2.2.2.2 (by decide)⟩

/-- C9 (failing input): a report whose wasteType is the string `constructor` adds a fifth
key to `stats.types`, where the claim has exactly the four keys for every input: the
read `acc.types["constructor"]` yields the inherited function, which is not
`undefined`, and the `+= 1` stores an own property under that name. -/
theorem types_constructor_adds_key :
    (calculated [] constructorType).types.extra = ["constructor"] := by
  decide

/-- C10: `severitySum` is the sum of the severities of the reports that have one, every
report counts in `total`, and the average shown is `severitySum / total` when
`total > 0`. -/
theorem severitySum_average (proto : List String) (reportsData : List Report) :
    (calculated proto reportsData).severitySum
      = (reportsData.filterMap (fun r => r.severity)).sum ∧
    (calculated proto reportsData).total = reportsData.length ∧
    (0 < (calculated proto reportsData).total →
      avgSeverity (calculated proto reportsData)
        = (((reportsData.filterMap (fun r => r.severity)).sum : Int) : ℚ)
            / (reportsData.length : ℚ)) := by
  obtain ⟨h1, _, _, h4⟩ := foldl_step_stats reportsData (initial proto)
  have h1' : (calculated proto reportsData).total = reportsData.length := by
    unfold calculated reduce
    rw [h1]; simp [initial]
  have h4' : (calculated proto reportsData).severitySum
      = (reportsData.filterMap (fun r => r.severity)).sum := by
    unfold calculated reduce
    rw [h4]; simp [initial]
  refine ⟨h4', h1', ?_⟩
  intro hpos
  unfold avgSeverity
  rw [if_pos hpos, h4', h1']

/-- C10 (witness): ten reports, 6 Wet and 4 Dry, severities summing to 28, give
severitySum 28, average 28/10 = 2.8 and types Wet 6, Dry 4, Hazardous 0, Mixed 0. -/
theorem severitySum_average_witness :
    calculated [] tenReports =
        { total := 10, resolved := 1, pending := 9, severitySum := 28,
          types := { Wet := 6, Dry := 4, Hazardous := 0, Mixed := 0, extra := [] } } ∧
      avgSeverity (calculated [] tenReports) = 28 / 10 ∧
      (28 / 10 : ℚ) = 2.8 := by
  have h := (severitySum_average [] tenReports).2.2 (by decide)
  have h2 : (tenReports.filterMap (fun r => r.severity)).sum = 28 := by decide
  have h3 : tenReports.length = 10 := by decide
  rw [h2, h3] at h
  refine ⟨by decide, ?_, by norm_num⟩
  rw [h]
  norm_num

/-! ## Adding a report -/

theorem areaOf_some (proto : List String) (rs : List Report) (a : String) (e : AreaScore)
    (h : areaOf proto rs a = some e) :
    e.name = a ∧ a ∉ objectPrototypeKeys ∧ areaReports a rs ≠ [] ∧
      e.penalty = penaltySum a rs ∧ e.score = max 0 (100 - e.penalty) := by
  have hn : e.name = a := by
    unfold areaOf at h
    have := List.find?_some h
    simpa using this
  have hmem : e ∈ sortedAreas proto rs := by
    rw [mem_sortedAreas_iff, hn]; exact h
  obtain ⟨h1, h2, _⟩ := mem_sortedAreas_closed proto rs e hmem
  obtain ⟨_, h4, h5⟩ := penalty_of_mem proto rs e hmem
  rw [hn] at h1 h2 h4
  exact ⟨hn, h1, h2, h4, h5⟩

theorem areaOf_isSome (proto : List String) (rs : List Report) (a : String)
    (ha : a ∉ objectPrototypeKeys) (h : areaReports a rs ≠ []) :
    ∃ e, areaOf proto rs a = some e := by
  rw [areaOf_closed proto rs a ha]
  simp [h]

theorem areaReports_append (a : String) (l₁ l₂ : List Report) :
    areaReports a (l₁ ++ l₂) = areaReports a l₁ ++ areaReports a l₂ := by
  unfold areaReports
  exact List.filter_append _ _

theorem penaltySum_append (a : String) (l₁ l₂ : List Report) :
    penaltySum a (l₁ ++ l₂) = penaltySum a l₁ + penaltySum a l₂ := by
  unfold penaltySum
  rw [areaReports_append, List.filter_append, List.map_append, List.sum_append]

theorem penaltySum_cons_unresolved (a : String) (r : Report) (l : List Report)
    (ha : truthy r.area = some a) (hr : isResolved r = false) :
    penaltySum a (r :: l) = (10 + severityPenalty r) + penaltySum a l := by
  unfold penaltySum areaReports
  simp [List.filter_cons, ha, hr]

/-- C8: adding, anywhere in the sequence, one more unresolved report of area `a` whose
severity is absent or an integer in [1,5] never raises the score of `a`: the aggregate of
`a` still exists, its penalty grows by `10 + severityPenalty` and its score is at most
the score computed without the report. -/
theorem score_antitone_in_unresolved (proto : List String) (pre post : List Report)
    (r : Report) (a : String) (e : AreaScore)
    (harea : r.area = some a) (hstatus : r.status ≠ some "resolved")
    (hsev : r.severity = none ∨ ∃ s, r.severity = some s ∧ 1 ≤ s ∧ s ≤ 5)
    (he : areaOf proto (pre ++ post) a = some e) :
    ∃ e', areaOf proto (pre ++ r :: post) a = some e' ∧
      e'.penalty = e.penalty + (10 + severityPenalty r) ∧ e'.score ≤ e.score := by
  obtain ⟨_, h2, h3, h4, h5⟩ := areaOf_some proto (pre ++ post) a e he
  have hne : a ≠ "" := name_ne_empty_of_areaReports a _ h3
  have htr : truthy r.area = some a := (truthy_eq_some _ _).2 ⟨harea, hne⟩
  have hres : isResolved r = false := by
    cases hq : isResolved r with
    | false => rfl
    | true => exact absurd ((isResolved_iff r).1 hq) hstatus
  have hrep : areaReports a (pre ++ r :: post) ≠ [] := by
    rw [areaReports_append]
    unfold areaReports
    simp [List.filter_cons, htr]
  obtain ⟨e', he'⟩ := areaOf_isSome proto (pre ++ r :: post) a h2 hrep
  obtain ⟨_, _, _, h4', h5'⟩ := areaOf_some proto (pre ++ r :: post) a e' he'
  have hpen : e'.penalty = e.penalty + (10 + severityPenalty r) := by
    rw [h4', h4, penaltySum_append, penaltySum_append,
      penaltySum_cons_unresolved a r post htr hres]
    ring
  have hpos : 1 ≤ severityPenalty r := by
    apply severityPenalty_pos
    intro s hs
    rcases hsev with hn | ⟨s', hs', hb⟩
    · rw [hn] at hs; cases hs
    · rw [hs'] at hs; cases hs; exact hb
  refine ⟨e', he', hpen, ?_⟩
  rw [h5', h5, hpen]
  exact max_le_max (le_refl _) (by omega)

/-- C8 (witness): a fourth, unresolved `Anna Nagar` report without severity raises the
penalty from 28 to 40 and lowers the score from 72 to 60. -/
theorem score_antitone_in_unresolved_witness :
    areaOf [] (annaNagar ++ []) "Anna Nagar" =
        some { name := "Anna Nagar", reportCount := 3, penalty := 28, resolved := 1, score := 72 } ∧
      areaOf [] (annaNagar ++ extraReport :: []) "Anna Nagar" =
        some { name := "Anna Nagar", reportCount := 4, penalty := 40, resolved := 1, score := 60 } ∧
      ∃ e', areaOf [] (annaNagar ++ extraReport :: []) "Anna Nagar" = some e' ∧
        e'.penalty = 28 + (10 + severityPenalty extraReport) ∧ e'.score ≤ 72 :=
  ⟨by decide, by decide,
   score_antitone_in_unresolved [] annaNagar [] extraReport "Anna Nagar"
     { name := "Anna Nagar", reportCount := 3, penalty := 28, resolved := 1, score := 72 }
     (by decide) (by decide) (Or.inl (by decide)) (by decide)⟩

/-! ## Permutations of the input -/

theorem bumpAll_eq (rs : List Report) (e : AreaEntry) :
    bumpAll rs e =
      { name := e.name
        reportCount := e.reportCount + rs.length
        penalty := e.penalty +
          ((rs.filter (fun r => !isResolved r)).map (fun r => 10 + severityPenalty r)).sum
        resolved := e.resolved + rs.countP (fun r => isResolved r) } := by
  have h1 := bumpAll_name rs e
  have h2 := bumpAll_reportCount rs e
  have h3 := bumpAll_penalty rs e
  have h4 := bumpAll_resolved rs e
  cases hb : bumpAll rs e with
  | mk n c p q =>
    rw [hb] at h1 h2 h3 h4
    simp only at h1 h2 h3 h4
    rw [h1, h2, h3, h4]

theorem bumpAll_perm (l₁ l₂ : List Report) (hp : l₁.Perm l₂) (e : AreaEntry) :
    bumpAll l₁ e = bumpAll l₂ e := by
  rw [bumpAll_eq, bumpAll_eq, hp.length_eq, hp.countP_eq,
    ((hp.filter _).map _).sum_eq]

theorem areaOf_perm (proto : List String) (l₁ l₂ : List Report) (hp : l₁.Perm l₂)
    (a : String) : areaOf proto l₁ a = areaOf proto l₂ a := by
  by_cases ha : a ∈ objectPrototypeKeys
  · rw [areaOf_inherited proto l₁ a ha, areaOf_inherited proto l₂ a ha]
  · rw [areaOf_closed proto l₁ a ha, areaOf_closed proto l₂ a ha]
    have hper : (areaReports a l₁).Perm (areaReports a l₂) := hp.filter _
    by_cases h : areaReports a l₁ = []
    · have h' : areaReports a l₂ = [] := by
        rw [h] at hper
        exact List.Perm.nil_eq hper |>.symm
      simp [h, h']
    · have h' : areaReports a l₂ ≠ [] := by
        intro h2
        rw [h2] at hper
        exact h (List.Perm.eq_nil hper)
      simp only [h, h', if_false]
      rw [bumpAll_perm _ _ hper]

theorem nodup_sortedAreas (proto : List String) (rs : List Report) :
    (sortedAreas proto rs).Nodup :=
  List.Nodup.of_map _ (nodup_names_sortedAreas proto rs)

theorem sortedAreas_perm_of_perm (proto : List String) (l₁ l₂ : List Report)
    (hp : l₁.Perm l₂) : (sortedAreas proto l₁).Perm (sortedAreas proto l₂) := by
  rw [List.perm_ext_iff_of_nodup (nodup_sortedAreas proto l₁) (nodup_sortedAreas proto l₂)]
  intro e
  rw [mem_sortedAreas_iff, mem_sortedAreas_iff, areaOf_perm proto l₁ l₂ hp]

theorem sorted_scores (proto : List String) (rs : List Report) :
    List.Sorted (fun a b : Int => a ≤ b) ((sortedAreas proto rs).map (fun e => e.score)) := by
  haveI : IsTotal AreaScore (fun a b => a.score ≤ b.score) := ⟨fun a b => le_total _ _⟩
  haveI : IsTrans AreaScore (fun a b => a.score ≤ b.score) :=
    ⟨fun a b c hab hbc => le_trans hab hbc⟩
  have h : List.Sorted (fun a b : AreaScore => a.score ≤ b.score) (sortedAreas proto rs) := by
    unfold sortedAreas
    exact List.sorted_insertionSort _ _
  unfold List.Sorted
  rw [List.pairwise_map]
  exact h

theorem mem_typesStep_extra_iff (proto : List String) (t : Types) (r : Report) (w : String) :
    w ∈ (typesStep proto t r).extra ↔
      w ∈ t.extra ∨ (r.wasteType = some w ∧ addsKey proto w) := by
  unfold addsKey
  cases hw : r.wasteType with
  | none => simp [typesStep, truthy, hw]
  | some v =>
    by_cases h0 : v = ""
    · subst h0
      simp only [typesStep, truthy, hw, if_true, Option.some.injEq]
      constructor
      · exact fun h => Or.inl h
      · rintro (h | ⟨h1, h2, _⟩)
        · exact h
        · exact absurd h1.symm h2
    · simp only [typesStep, truthy, hw, h0, if_false, Option.some.injEq]
      have hlab : v ∈ ["Wet", "Dry", "Hazardous", "Mixed"] ↔
          (v = "Wet" ∨ v = "Dry" ∨ v = "Hazardous" ∨ v = "Mixed") := by simp
      constructor
      · intro h
        split_ifs at h with h1 h2 h3 h4 h5 h6 h7
        · exact Or.inl h
        · exact Or.inl h
        · exact Or.inl h
        · exact Or.inl h
        · exact Or.inl h
        · exact Or.inl h
        · rw [List.mem_append, List.mem_singleton] at h
          rcases h with h | h
          · exact Or.inl h
          · subst h
            refine Or.inr ⟨rfl, h0, ?_, h6, h7⟩
            rw [hlab]
            tauto
        · exact Or.inl h
      · rintro (h | ⟨rfl, _, hl, hp, hk⟩)
        · split_ifs
          all_goals first
            | exact h
            | exact List.mem_append_left _ h
        · rw [hlab] at hl
          push_neg at hl
          rw [if_neg hl.1, if_neg hl.2.1, if_neg hl.2.2.1, if_neg hl.2.2.2]
          by_cases h5 : v ∈ t.extra
          · rw [if_pos h5]; exact h5
          · rw [if_neg h5, if_neg hp, if_pos hk]
            exact List.mem_append_right _ (List.mem_singleton_self _)

theorem foldl_step_proto_const (rs : List Report) (acc : Acc)
    (h : ∀ r ∈ rs, r.area ≠ some "__proto__") : (rs.foldl step acc).proto = acc.proto := by
  induction rs generalizing acc with
  | nil => rfl
  | cons r rs ih =>
    rw [List.foldl_cons, ih _ (fun r' hr' => h r' (List.mem_cons_of_mem _ hr'))]
    have h1 : ¬ truthy r.area = some "__proto__" :=
      fun h2 => h r (List.mem_cons_self _ _) ((truthy_eq_some _ _).1 h2).1
    simp [step, protoStep, h1]

theorem mem_extra_foldl_iff (rs : List Report) (acc : Acc) (w : String)
    (h : ∀ r ∈ rs, r.area ≠ some "__proto__") :
    w ∈ (rs.foldl step acc).stats.types.extra ↔
      w ∈ acc.stats.types.extra ∨ ∃ r ∈ rs, r.wasteType = some w ∧ addsKey acc.proto w := by
  induction rs generalizing acc with
  | nil => simp
  | cons r rs ih =>
    have hr : r.area ≠ some "__proto__" := h r (List.mem_cons_self _ _)
    have hp : (step acc r).proto = acc.proto :=
      foldl_step_proto_const [r] acc (by simpa using hr)
    rw [List.foldl_cons, ih _ (fun r' hr' => h r' (List.mem_cons_of_mem _ hr')), hp]
    have hs : (step acc r).stats.types.extra = (typesStep acc.proto acc.stats.types r).extra :=
      rfl
    rw [hs, mem_typesStep_extra_iff]
    simp only [List.mem_cons, exists_eq_or_imp]
    tauto

/-- Invariance under permutation of the input, as far as it holds: for every report
sequence (integer severities) and every permutation of it, the aggregation yields the same total, resolved, pending, severitySum and the same
counts for the four labels, and the same aggregate for every area: the two area lists are
permutations of one another and show the same sequence of scores, so only the relative
order of equal-score areas may differ.  The further keys of `stats.types` are the same
too when no report is filed under the area `__proto__`. -/
theorem aggregation_perm_invariant (proto : List String) (reportsData permuted : List Report)
    (hp : reportsData.Perm permuted) :
    (calculated proto reportsData).total = (calculated proto permuted).total ∧
    (calculated proto reportsData).resolved = (calculated proto permuted).resolved ∧
    (calculated proto reportsData).pending = (calculated proto permuted).pending ∧
    (calculated proto reportsData).severitySum = (calculated proto permuted).severitySum ∧
    (calculated proto reportsData).types.Wet = (calculated proto permuted).types.Wet ∧
    (calculated proto reportsData).types.Dry = (calculated proto permuted).types.Dry ∧
    (calculated proto reportsData).types.Hazardous
      = (calculated proto permuted).types.Hazardous ∧
    (calculated proto reportsData).types.Mixed = (calculated proto permuted).types.Mixed ∧
    (∀ a, areaOf proto reportsData a = areaOf proto permuted a) ∧
    (sortedAreas proto reportsData).Perm (sortedAreas proto permuted) ∧
    (sortedAreas proto reportsData).map (fun e => e.score)
      = (sortedAreas proto permuted).map (fun e => e.score) ∧
    ((∀ r ∈ reportsData, r.area ≠ some "__proto__") →
      ∀ w, w ∈ (calculated proto reportsData).types.extra
        ↔ w ∈ (calculated proto permuted).types.extra) := by
  obtain ⟨a1, a2, a3, a4⟩ := foldl_step_stats reportsData (initial proto)
  obtain ⟨b1, b2, b3, b4⟩ := foldl_step_stats permuted (initial proto)
  obtain ⟨c1, c2, c3, c4⟩ := foldl_step_types reportsData (initial proto)
  obtain ⟨d1, d2, d3, d4⟩ := foldl_step_types permuted (initial proto)
  have hperm := sortedAreas_perm_of_perm proto reportsData permuted hp
  unfold calculated reduce
  rw [a1, a2, a3, a4, b1, b2, b3, b4, c1, c2, c3, c4, d1, d2, d3, d4]
  refine ⟨by rw [hp.length_eq], by rw [hp.countP_eq], by rw [hp.countP_eq],
    by rw [(hp.filterMap _).sum_eq], by rw [hp.countP_eq], by rw [hp.countP_eq],
    by rw [hp.countP_eq], by rw [hp.countP_eq], areaOf_perm proto _ _ hp, hperm, ?_, ?_⟩
  · exact List.eq_of_perm_of_sorted (hperm.map _) (sorted_scores proto reportsData)
      (sorted_scores proto permuted)
  · intro hno w
    have hno' : ∀ r ∈ permuted, r.area ≠ some "__proto__" :=
      fun r hr => hno r (hp.mem_iff.2 hr)
    rw [mem_extra_foldl_iff reportsData _ w hno, mem_extra_foldl_iff permuted _ w hno']
    constructor
    · rintro (h | ⟨r, hr, h⟩)
      · exact Or.inl h
      · exact Or.inr ⟨r, hp.mem_iff.1 hr, h⟩
    · rintro (h | ⟨r, hr, h⟩)
      · exact Or.inl h
      · exact Or.inr ⟨r, hp.mem_iff.2 hr, h⟩

/-- A rearrangement of three reports of two areas gives the same statistics and the same
two aggregates. -/
theorem aggregation_perm_invariant_witness :
    twoAreas.Perm twoAreasPermuted ∧
      calculated [] twoAreas = calculated [] twoAreasPermuted ∧
      (sortedAreas [] twoAreas).map (fun e => e.score)
        = (sortedAreas [] twoAreasPermuted).map (fun e => e.score) :=
  ⟨by decide, by decide,
   (aggregation_perm_invariant [] twoAreas twoAreasPermuted (by decide)).2.2.2.2.2.2.2.2.2.2.1⟩

/-- C6 (failing input): two orders of the same two reports give different `stats.types`,
where the claim has the same GlobalStats for every permutation.  After the report of
area `__proto__` has stored `NaN` under `Object.prototype.penalty`, the wasteType
`penalty` no longer reads as `undefined` and becomes a key of `stats.types`; in the
other order it does not. -/
theorem types_depend_on_order :
    protoThenPenalty.Perm penaltyThenProto ∧
      (calculated [] protoThenPenalty).types.extra = ["penalty"] ∧
      (calculated [] penaltyThenProto).types.extra = [] ∧
      calculated [] protoThenPenalty ≠ calculated [] penaltyThenProto := by
  decide

/-! ## Order of the area list -/

theorem firstOccurrence_cons (a : String) (r : Report) (rs : List Report) :
    firstOccurrence a (r :: rs) = if r.area = some a then 0 else firstOccurrence a rs + 1 := by
  unfold firstOccurrence
  rw [List.findIdx_cons]
  by_cases h : r.area = some a
  · simp [h]
  · have hb : (r.area == some a) = false := by simpa using h
    rw [hb, if_neg h]; rfl

theorem position_cons (a : String) (e : AreaScore) (l : List AreaScore) :
    position a (e :: l) = if e.name = a then 0 else position a l + 1 := by
  unfold position
  rw [List.findIdx_cons]
  by_cases h : e.name = a
  · simp [h]
  · have hb : (e.name == a) = false := by simpa using h
    rw [hb, if_neg h]; rfl

theorem mem_keys_iff (m : List AreaEntry) (a : String) :
    a ∈ keys m ↔ ∃ e ∈ m, e.name = a := by
  unfold keys
  rw [List.mem_map]

theorem mem_keys_areaStep_of (m : List AreaEntry) (r : Report) (a : String)
    (hr : truthy r.area = some a) (ha : a ∉ objectPrototypeKeys) :
    a ∈ keys (areaStep m r) := by
  rw [keys_areaStep, List.mem_append]
  by_cases h : a ∈ keys m
  · exact Or.inl h
  · right
    have h1 : hasOwn m a = false := by
      rw [hasOwn_eq_isSome, (getOwn_eq_none_iff m a).2 h]; rfl
    have h2 : decide (a ∈ objectPrototypeKeys) = false := by simpa using ha
    simp [newKey, hr, h1, h2]

theorem mem_keys_foldl (rs : List Report) (m : List AreaEntry) (a : String)
    (h : a ∈ keys (rs.foldl areaStep m)) :
    a ∈ keys m ∨ (a ∉ objectPrototypeKeys ∧ ∃ r ∈ rs, truthy r.area = some a) := by
  induction rs generalizing m with
  | nil => exact Or.inl h
  | cons r rs ih =>
    rw [List.foldl_cons] at h
    rcases ih _ h with h1 | ⟨h1, r', hr', h2⟩
    · rw [keys_areaStep, List.mem_append] at h1
      rcases h1 with h1 | h1
      · exact Or.inl h1
      · obtain ⟨_, h3, h4⟩ := newKey_not_mem m r a h1
        exact Or.inr ⟨h3, r, List.mem_cons_self _ _, h4⟩
    · exact Or.inr ⟨h1, r', List.mem_cons_of_mem _ hr', h2⟩

theorem keys_foldl_extends (rs : List Report) (m : List AreaEntry) :
    ∃ rest, keys (rs.foldl areaStep m) = keys m ++ rest := by
  induction rs generalizing m with
  | nil => exact ⟨[], by simp⟩
  | cons r rs ih =>
    obtain ⟨rest, h⟩ := ih (areaStep m r)
    refine ⟨newKey m r ++ rest, ?_⟩
    rw [List.foldl_cons, h, keys_areaStep, List.append_assoc]

/-- Keys are inserted into `areaMap` in the order of their first occurrence. -/
theorem keys_order_foldl (rs : List Report) (m : List AreaEntry) (a b : String)
    (ha : a ∉ keys m) (hb : b ∉ keys m)
    (ha' : a ∈ keys (rs.foldl areaStep m)) (hb' : b ∈ keys (rs.foldl areaStep m))
    (hlt : firstOccurrence a rs < firstOccurrence b rs) :
    List.Sublist [a, b] (keys (rs.foldl areaStep m)) := by
  induction rs generalizing m with
  | nil => exact absurd ha' ha
  | cons r rs ih =>
    rw [firstOccurrence_cons, firstOccurrence_cons] at hlt
    have hrb : r.area ≠ some b := by
      intro h
      rw [if_pos h] at hlt
      exact Nat.not_lt_zero _ hlt
    have hbm : b ∉ keys (areaStep m r) := by
      rw [keys_areaStep, List.mem_append]
      rintro (h | h)
      · exact hb h
      · exact hrb ((truthy_eq_some _ _).1 (newKey_not_mem m r b h).2.2).1
    by_cases hra : r.area = some a
    · rcases mem_keys_foldl (r :: rs) m a ha' with h | ⟨h1, r', _, h2⟩
      · exact absurd h ha
      · have hne : a ≠ "" := ((truthy_eq_some _ _).1 h2).2
        have htr : truthy r.area = some a := (truthy_eq_some _ _).2 ⟨hra, hne⟩
        have ham : a ∈ keys (areaStep m r) := mem_keys_areaStep_of m r a htr h1
        obtain ⟨rest, hrest⟩ := keys_foldl_extends rs (areaStep m r)
        rw [List.foldl_cons] at hb' ⊢
        rw [hrest] at hb' ⊢
        have hbr : b ∈ rest := by
          rcases List.mem_append.1 hb' with h | h
          · exact absurd h hbm
          · exact h
        exact List.Sublist.append (List.singleton_sublist.2 ham) (List.singleton_sublist.2 hbr)
    · rw [if_neg hra, if_neg hrb] at hlt
      have ham : a ∉ keys (areaStep m r) := by
        rw [keys_areaStep, List.mem_append]
        rintro (h | h)
        · exact ha h
        · exact hra ((truthy_eq_some _ _).1 (newKey_not_mem m r a h).2.2).1
      rw [List.foldl_cons] at ha' hb' ⊢
      exact ih _ ham hbm ha' hb' (by omega)

theorem entry_eq_of_name_eq (m : List AreaEntry) (h : (keys m).Nodup) (u v : AreaEntry)
    (hu : u ∈ m) (hv : v ∈ m) (hn : u.name = v.name) : u = v :=
  List.inj_on_of_nodup_map h hu hv hn

theorem pair_sublist_of_keys (m : List AreaEntry) (h : (keys m).Nodup) (u v : AreaEntry)
    (hu : u ∈ m) (hv : v ∈ m) (hs : List.Sublist [u.name, v.name] (keys m)) : List.Sublist [u, v] m := by
  unfold keys at hs
  obtain ⟨l, hl, hmap⟩ := List.sublist_map_iff.1 hs
  match l, hl, hmap with
  | [], _, hmap => simp at hmap
  | [_], _, hmap => simp at hmap
  | _ :: _ :: _ :: _, _, hmap => simp at hmap
  | [u', v'], hl, hmap =>
    simp only [List.map_cons, List.map_nil, List.cons.injEq, and_true] at hmap
    have hu' : u' ∈ m := hl.subset (by simp)
    have hv' : v' ∈ m := hl.subset (by simp)
    have e1 : u' = u := entry_eq_of_name_eq m h u' u hu' hu hmap.1.symm
    have e2 : v' = v := entry_eq_of_name_eq m h v' v hv' hv hmap.2.symm
    rw [← e1, ← e2]
    exact hl

theorem pair_sublist_of_sorted {α : Type} (R : α → α → Prop) (l : List α)
    (hl : l.Pairwise R) (x y : α) (hx : x ∈ l) (hy : y ∈ l) (hnot : ¬ R y x)
    (hne : x ≠ y) : List.Sublist [x, y] l := by
  induction l with
  | nil => cases hx
  | cons h t ih =>
    rw [List.pairwise_cons] at hl
    rcases List.mem_cons.1 hx with hx | hx
    · rcases List.mem_cons.1 hy with hy | hy
      · exact absurd (hx.trans hy.symm) hne
      · rw [hx]
        exact List.Sublist.cons₂ _ (List.singleton_sublist.2 hy)
    · rcases List.mem_cons.1 hy with hy | hy
      · rw [hy] at hnot
        exact absurd (hl.1 x hx) hnot
      · exact List.Sublist.cons _ (ih hl.2 hx hy)

theorem position_lt_of_pair_sublist (l : List AreaScore)
    (hl : (l.map (fun e => e.name)).Nodup) (x y : AreaScore) (hs : List.Sublist [x, y] l) :
    position x.name l < position y.name l := by
  induction l with
  | nil => cases hs
  | cons h t ih =>
    rw [List.map_cons, List.nodup_cons] at hl
    have hy : y ∈ t := by
      cases hs with
      | cons _ h1 => exact h1.subset (by simp)
      | cons₂ _ h1 => exact h1.subset (by simp)
    have hyn : h.name ≠ y.name := by
      intro h2
      apply hl.1
      rw [h2]
      exact List.mem_map.2 ⟨y, hy, rfl⟩
    rw [position_cons, position_cons, if_neg hyn]
    cases hs with
    | cons _ h1 =>
      have hx : x ∈ t := h1.subset (by simp)
      have hxn : h.name ≠ x.name := by
        intro h2
        apply hl.1
        rw [h2]
        exact List.mem_map.2 ⟨x, hx, rfl⟩
      rw [if_neg hxn]
      exact Nat.succ_lt_succ (ih hl.2 h1)
    | cons₂ _ h1 =>
      rw [if_pos rfl]
      exact Nat.succ_pos _

theorem mem_sortedAreas_entry (proto : List String) (rs : List Report) (e : AreaScore)
    (he : e ∈ sortedAreas proto rs) : ∃ e₀ ∈ rs.foldl areaStep [], withScore e₀ = e := by
  have h := (sortedAreas_perm proto rs).mem_iff.1 he
  rw [List.mem_map] at h
  exact h

/-- Two entries of `areaMap` appear in `Object.values(areaMap)` in the `listedBefore`
order of their names. -/
theorem pair_sublist_objectValues (rs : List Report) (u v : AreaEntry)
    (hu : u ∈ rs.foldl areaStep []) (hv : v ∈ rs.foldl areaStep [])
    (hord : listedBefore rs u.name v.name) :
    List.Sublist [u, v] (objectValues (rs.foldl areaStep [])) := by
  have hnd : (keys (rs.foldl areaStep [])).Nodup := nodup_keys_foldl rs [] List.nodup_nil
  unfold objectValues
  cases hiu : arrayIndex? u.name with
  | none =>
    cases hiv : arrayIndex? v.name with
    | none =>
      simp only [listedBefore, hiu, hiv] at hord
      have hk := keys_order_foldl rs [] u.name v.name (by simp [keys]) (by simp [keys])
        ((mem_keys_iff _ _).2 ⟨u, hu, rfl⟩) ((mem_keys_iff _ _).2 ⟨v, hv, rfl⟩) hord
      have hs := pair_sublist_of_keys _ hnd u v hu hv hk
      have hf := List.Sublist.filter (fun e : AreaEntry => !(arrayIndex? e.name).isSome) hs
      have he : List.filter (fun e : AreaEntry => !(arrayIndex? e.name).isSome) [u, v]
          = [u, v] := by
        simp [List.filter_cons, hiu, hiv]
      rw [he] at hf
      exact List.sublist_append_of_sublist_right hf
    | some j => simp [listedBefore, hiu, hiv] at hord
  | some i =>
    have hu1 : u ∈ (rs.foldl areaStep []).filter (fun e => (arrayIndex? e.name).isSome) := by
      rw [List.mem_filter]; exact ⟨hu, by simp [hiu]⟩
    have hu2 := (List.mem_insertionSort
      (fun a b : AreaEntry => (arrayIndex? a.name).getD 0 ≤ (arrayIndex? b.name).getD 0)).2 hu1
    cases hiv : arrayIndex? v.name with
    | none =>
      have hv1 : v ∈ (rs.foldl areaStep []).filter
          (fun e => !(arrayIndex? e.name).isSome) := by
        rw [List.mem_filter]; exact ⟨hv, by simp [hiv]⟩
      exact List.Sublist.append (List.singleton_sublist.2 hu2) (List.singleton_sublist.2 hv1)
    | some j =>
      simp only [listedBefore, hiu, hiv] at hord
      have hv1 : v ∈ (rs.foldl areaStep []).filter
          (fun e => (arrayIndex? e.name).isSome) := by
        rw [List.mem_filter]; exact ⟨hv, by simp [hiv]⟩
      have hv2 := (List.mem_insertionSort
        (fun a b : AreaEntry => (arrayIndex? a.name).getD 0 ≤ (arrayIndex? b.name).getD 0)).2
        hv1
      haveI : IsTotal AreaEntry
          (fun a b => (arrayIndex? a.name).getD 0 ≤ (arrayIndex? b.name).getD 0) :=
        ⟨fun a b => le_total _ _⟩
      haveI : IsTrans AreaEntry
          (fun a b => (arrayIndex? a.name).getD 0 ≤ (arrayIndex? b.name).getD 0) :=
        ⟨fun a b c hab hbc => le_trans hab hbc⟩
      have hsorted := List.sorted_insertionSort
        (fun a b : AreaEntry => (arrayIndex? a.name).getD 0 ≤ (arrayIndex? b.name).getD 0)
        ((rs.foldl areaStep []).filter (fun e => (arrayIndex? e.name).isSome))
      have hne : u ≠ v := by
        intro h
        rw [h, hiv] at hiu
        cases hiu
        exact Nat.lt_irrefl _ hord
      refine List.sublist_append_of_sublist_left
        (pair_sublist_of_sorted _ _ hsorted u v hu2 hv2 ?_ hne)
      simp only [hiu, hiv, Option.getD_some]
      omega

/-- C4 (amended): two areas with equal score appear in the sorted area list in the order in
which `Object.values(areaMap)` lists them.  For names that are not array indices that
is the order of first occurrence in the input (the earlier-seen area comes first); a
name that is an array index comes before every name that is not, and two array-index
names come in ascending numeric order, whatever their order of occurrence. -/
theorem equal_scores_keep_object_order (proto : List String) (reportsData : List Report)
    (x y : AreaScore)
    (hx : x ∈ sortedAreas proto reportsData) (hy : y ∈ sortedAreas proto reportsData)
    (hscore : x.score = y.score) (hord : listedBefore reportsData x.name y.name) :
    position x.name (sortedAreas proto reportsData)
      < position y.name (sortedAreas proto reportsData) := by
  obtain ⟨u, hu, rfl⟩ := mem_sortedAreas_entry proto reportsData x hx
  obtain ⟨v, hv, rfl⟩ := mem_sortedAreas_entry proto reportsData y hy
  have h1 := pair_sublist_objectValues reportsData u v hu hv hord
  have h2 : List.Sublist [withScore u, withScore v]
      ((objectValues (reportsData.foldl areaStep [])).map withScore) := h1.map withScore
  have h3 : List.Sublist [withScore u, withScore v] (sortedAreas proto reportsData) := by
    unfold sortedAreas
    rw [reduce_areaMap]
    exact List.pair_sublist_insertionSort (le_of_eq hscore) h2
  exact position_lt_of_pair_sublist _ (nodup_names_sortedAreas proto reportsData) _ _ h3

/-- C4 (witness): `KK Nagar` and `Anna Nagar` tie at score 87; `KK Nagar` is seen first in
the input and comes first in the area list. -/
theorem equal_scores_keep_object_order_witness :
    (sortedAreas [] tiedAreas).map (fun e => (e.name, e.score))
        = [("KK Nagar", 87), ("Anna Nagar", 87)] ∧
      firstOccurrence "KK Nagar" tiedAreas < firstOccurrence "Anna Nagar" tiedAreas ∧
      position "KK Nagar" (sortedAreas [] tiedAreas)
        < position "Anna Nagar" (sortedAreas [] tiedAreas) :=
  ⟨by decide, by decide,
   equal_scores_keep_object_order [] tiedAreas
     { name := "KK Nagar", reportCount := 1, penalty := 13, resolved := 0, score := 87 }
     { name := "Anna Nagar", reportCount := 1, penalty := 13, resolved := 0, score := 87 }
     (by decide) (by decide) rfl (by decide)⟩

/-- C4 (counterexample): the areas `5` and `3` tie at score 87 and `5` is seen first in the
input, yet `3` comes first in the area list. -/
theorem numeric_area_order_counterexample :
    (sortedAreas [] numericAreas).map (fun e => (e.name, e.score)) = [("3", 87), ("5", 87)] ∧
      firstOccurrence "5" numericAreas < firstOccurrence "3" numericAreas ∧
      position "3" (sortedAreas [] numericAreas) < position "5" (sortedAreas [] numericAreas) := by
  decide

/-! ## Which areas have an aggregate -/

theorem areaReports_length (a : String) (rs : List Report) (ha : a ≠ "") :
    (areaReports a rs).length = rs.countP (fun r => decide (r.area = some a)) := by
  unfold areaReports
  rw [List.countP_eq_length_filter]
  congr 2
  funext r
  have h := truthy_eq_some r.area a
  by_cases h1 : r.area = some a
  · have h2 : truthy r.area = some a := h.2 ⟨h1, ha⟩
    have h3 : truthy (some a) = some a := h1 ▸ h2
    simp [h1, h3]
  · have h2 : ¬ truthy r.area = some a := fun h3 => h1 (h.1 h3).1
    simp [h1, h2]

theorem areaReports_countP_resolved (a : String) (rs : List Report) (ha : a ≠ "") :
    (areaReports a rs).countP (fun r => isResolved r)
      = rs.countP (fun r => decide (r.area = some a ∧ r.status = some "resolved")) := by
  unfold areaReports
  rw [List.countP_filter]
  congr 1
  funext r
  have h := truthy_eq_some r.area a
  have h0 := isResolved_iff r
  by_cases h1 : r.area = some a
  · have h2 : truthy r.area = some a := h.2 ⟨h1, ha⟩
    have h3 : truthy (some a) = some a := h1 ▸ h2
    by_cases h4 : r.status = some "resolved"
    · simp [h1, h3, h4, h0.2 h4]
    · have h5 : isResolved r = false := by
        cases hq : isResolved r with
        | false => rfl
        | true => exact absurd (h0.1 hq) h4
      simp [h1, h3, h4, h5]
  · have h2 : ¬ truthy r.area = some a := fun h3 => h1 (h.1 h3).1
    simp [h1, h2]

theorem areaReports_ne_nil_iff (a : String) (rs : List Report) :
    areaReports a rs ≠ [] ↔ a ≠ "" ∧ ∃ r ∈ rs, r.area = some a := by
  constructor
  · intro h
    refine ⟨name_ne_empty_of_areaReports a rs h, ?_⟩
    obtain ⟨r, hr⟩ := List.exists_mem_of_ne_nil _ h
    unfold areaReports at hr
    rw [List.mem_filter] at hr
    have h1 : truthy r.area = some a := by simpa using hr.2
    exact ⟨r, hr.1, ((truthy_eq_some _ _).1 h1).1⟩
  · rintro ⟨ha, r, hr, h1⟩
    have h2 : truthy r.area = some a := (truthy_eq_some _ _).2 ⟨h1, ha⟩
    have h3 : r ∈ areaReports a rs := by
      unfold areaReports
      rw [List.mem_filter]
      exact ⟨hr, by simpa using h2⟩
    exact List.ne_nil_of_mem h3

/-- The grouping of the area list, as far as it holds: every non-empty area string of the
input that is not the name of a property inherited from `Object.prototype` has exactly
one aggregate, whose name is the string, whose reportCount is the number of reports with
that area and whose resolved count is the number of those with status `resolved`; and
every aggregate of the list belongs to a non-empty area string of the input. -/
theorem area_list_grouping (proto : List String) (reportsData : List Report) :
    (∀ a, a ≠ "" → a ∉ objectPrototypeKeys → (∃ r ∈ reportsData, r.area = some a) →
      ∃ e ∈ sortedAreas proto reportsData,
        e.name = a ∧
        e.reportCount = reportsData.countP (fun r => decide (r.area = some a)) ∧
        e.resolved = reportsData.countP
          (fun r => decide (r.area = some a ∧ r.status = some "resolved")) ∧
        ∀ e' ∈ sortedAreas proto reportsData, e'.name = a → e' = e) ∧
    (∀ e ∈ sortedAreas proto reportsData,
      e.name ≠ "" ∧ e.name ∉ objectPrototypeKeys ∧ ∃ r ∈ reportsData, r.area = some e.name) ∧
    ((sortedAreas proto reportsData).map (fun e => e.name)).Nodup := by
  refine ⟨?_, ?_, nodup_names_sortedAreas proto reportsData⟩
  · intro a ha hin hocc
    have hne : areaReports a reportsData ≠ [] := (areaReports_ne_nil_iff _ _).2 ⟨ha, hocc⟩
    have hcl := areaOf_closed proto reportsData a hin
    rw [if_neg hne] at hcl
    have hname : (withScore (bumpAll (areaReports a reportsData)
        { name := a, reportCount := 0, penalty := 0, resolved := 0 })).name = a := by
      simp only [withScore, bumpAll_name]
    have hmem : withScore (bumpAll (areaReports a reportsData)
        { name := a, reportCount := 0, penalty := 0, resolved := 0 })
        ∈ sortedAreas proto reportsData := by
      rw [mem_sortedAreas_iff, hname]
      exact hcl
    refine ⟨_, hmem, ?_, ?_, ?_, ?_⟩
    · simp only [withScore, bumpAll_name]
    · simp only [withScore, bumpAll_reportCount, Nat.zero_add]
      exact areaReports_length a reportsData ha
    · simp only [withScore, bumpAll_resolved, Nat.zero_add]
      exact areaReports_countP_resolved a reportsData ha
    · intro e' he' hn
      rw [mem_sortedAreas_iff, hn, hcl] at he'
      exact (Option.some.inj he').symm
  · intro e he
    obtain ⟨h1, h2, _⟩ := mem_sortedAreas_closed proto reportsData e he
    obtain ⟨h3, h4⟩ := (areaReports_ne_nil_iff _ _).1 h2
    exact ⟨h3, h1, h4⟩

/-- The two `Anna Nagar` and `KK Nagar` groups of `tenReports`: five reports each, one of
them resolved. -/
theorem area_list_grouping_witness :
    (sortedAreas [] tenReports).map (fun e => (e.name, e.reportCount, e.resolved))
        = [("Anna Nagar", 5, 0), ("KK Nagar", 5, 1)] ∧
      ∃ e ∈ sortedAreas [] tenReports,
        e.name = "KK Nagar" ∧
        e.reportCount = tenReports.countP (fun r => decide (r.area = some "KK Nagar")) ∧
        e.resolved = tenReports.countP
          (fun r => decide (r.area = some "KK Nagar" ∧ r.status = some "resolved")) ∧
        ∀ e' ∈ sortedAreas [] tenReports, e'.name = "KK Nagar" → e' = e :=
  ⟨by decide,
   (area_list_grouping [] tenReports).1 "KK Nagar" (by decide) (by decide) (by decide)⟩

/-- C11 (failing input): a report filed under the area `constructor` gets no aggregate:
the area list is empty, where the claim has one aggregate for every non-empty area
string.  The read `areaMap["constructor"]` yields the inherited function, which is
truthy, so no entry is created and the counters land on that function. -/
theorem constructor_area_has_no_aggregate :
    sortedAreas [] constructorArea = [] ∧
      ∃ r ∈ constructorArea, r.area = some "constructor" := by
  decide

/-! ## Home's area map as a Dashboard map of unresolved reports -/

theorem home_hasOwn_map (m : List AreaEntry) (a : String) :
    Home.hasOwn (m.map toFocus) a = hasOwn m a := by
  unfold Home.hasOwn hasOwn
  induction m with
  | nil => rfl
  | cons e m ih => simp only [List.map_cons, List.any_cons, ih]; rfl

theorem home_modifyOwn_map (m : List AreaEntry) (a : String) (f : AreaEntry → AreaEntry)
    (g : FocusEntry → FocusEntry) (h : ∀ e, toFocus (f e) = g (toFocus e)) :
    Home.modifyOwn (m.map toFocus) a g = (modifyOwn m a f).map toFocus := by
  unfold Home.modifyOwn modifyOwn
  rw [List.map_map, List.map_map]
  apply List.map_congr_left
  intro e _
  have hn : (toFocus e).name = e.name := rfl
  by_cases he : e.name = a
  · simp only [Function.comp, hn, he, if_true]
    exact (h e).symm
  · simp only [Function.comp, hn, he, if_false]

theorem map_toFocus_modifyOwn (m : List AreaEntry) (a : String) (f : AreaEntry → AreaEntry)
    (h : ∀ e, toFocus (f e) = toFocus e) :
    (modifyOwn m a f).map toFocus = m.map toFocus := by
  unfold modifyOwn
  rw [List.map_map]
  apply List.map_congr_left
  intro e _
  by_cases he : e.name = a
  · simp [he, h]
  · simp [he]

theorem isResolved_unresolve (r : Report) : isResolved (unresolve r) = false := by
  simp [isResolved, unresolve]

theorem severityPenalty_unresolve (r : Report) :
    severityPenalty (unresolve r) = severityPenalty r := rfl

theorem home_areaStep_map (m : List AreaEntry) (r : Report) :
    Home.areaStep (m.map toFocus) r = (areaStep m (unresolve r)).map toFocus := by
  unfold Home.areaStep areaStep
  have ha : (unresolve r).area = r.area := rfl
  rw [ha]
  cases hb : truthy r.area with
  | none => rfl
  | some a =>
    simp only [isResolved_unresolve, Bool.false_eq_true, if_false, severityPenalty_unresolve]
    rw [home_hasOwn_map]
    have hm : (if (hasOwn m a || decide (a ∈ objectPrototypeKeys)) = true then
          List.map toFocus m
        else List.map toFocus m ++ [{ name := a, penalty := 0 }])
        = (if (hasOwn m a || decide (a ∈ objectPrototypeKeys)) = true then m
          else m ++ [{ name := a, reportCount := 0, penalty := 0, resolved := 0 }]).map
            toFocus := by
      split
      · rfl
      · rw [List.map_append]; rfl
    rw [hm, ← map_toFocus_modifyOwn _ a
      (fun e => { e with reportCount := e.reportCount + 1 }) (fun _ => rfl)]
    exact home_modifyOwn_map _ a _ _ (fun _ => rfl)

theorem home_foldl_map (rs : List Report) (m : List AreaEntry) :
    rs.foldl Home.areaStep (m.map toFocus)
      = ((rs.map unresolve).foldl areaStep m).map toFocus := by
  induction rs generalizing m with
  | nil => rfl
  | cons r rs ih =>
    rw [List.foldl_cons, home_areaStep_map, ih, List.map_cons, List.foldl_cons]

/-- Home's map is the Dashboard map of the same reports with their statuses removed. -/
theorem home_areaMap_eq (rs : List Report) :
    Home.areaMap rs = ((rs.map unresolve).foldl areaStep []).map toFocus :=
  home_foldl_map rs []

theorem home_objectValues_map (m : List AreaEntry) :
    Home.objectValues (m.map toFocus) = (objectValues m).map toFocus := by
  unfold Home.objectValues objectValues
  rw [List.map_append, List.filter_map, List.filter_map]
  congr 1
  exact (List.map_insertionSort
    (fun a b : AreaEntry => (arrayIndex? a.name).getD 0 ≤ (arrayIndex? b.name).getD 0)
    (fun a b : FocusEntry => (arrayIndex? a.name).getD 0 ≤ (arrayIndex? b.name).getD 0)
    toFocus _ (fun _ _ _ _ => Iff.rfl)).symm

/-! ## The running maximum -/

theorem worstStep_foldl_spec (l : List FocusEntry) (w₀ : Option FocusArea) (mx : Int) :
    ((∀ x ∈ l, x.penalty ≤ mx) ∧ l.foldl Home.worstStep (w₀, mx) = (w₀, mx)) ∨
    (∃ pre e post, l = pre ++ e :: post ∧ mx < e.penalty ∧
      (∀ x ∈ pre, x.penalty < e.penalty) ∧ (∀ x ∈ post, x.penalty ≤ e.penalty) ∧
      l.foldl Home.worstStep (w₀, mx) = (some (Home.withScore e), e.penalty)) := by
  induction l generalizing w₀ mx with
  | nil => exact Or.inl ⟨by simp, rfl⟩
  | cons x l ih =>
    rw [List.foldl_cons]
    by_cases hx : x.penalty > mx
    · have hs : Home.worstStep (w₀, mx) x = (some (Home.withScore x), x.penalty) := by
        simp [Home.worstStep, hx]
      rw [hs]
      rcases ih (some (Home.withScore x)) x.penalty with ⟨h1, h2⟩ | ⟨pre, e, post, h1, h2, h3, h4, h5⟩
      · right
        exact ⟨[], x, l, rfl, hx, by simp, h1, h2⟩
      · right
        refine ⟨x :: pre, e, post, by rw [h1]; rfl, by omega, ?_, h4, h5⟩
        intro y hy
        rcases List.mem_cons.1 hy with hy | hy
        · rw [hy]; exact h2
        · exact h3 y hy
    · have hs : Home.worstStep (w₀, mx) x = (w₀, mx) := by
        simp [Home.worstStep, hx]
      rw [hs]
      rcases ih w₀ mx with ⟨h1, h2⟩ | ⟨pre, e, post, h1, h2, h3, h4, h5⟩
      · left
        refine ⟨?_, h2⟩
        intro y hy
        rcases List.mem_cons.1 hy with hy | hy
        · rw [hy]; omega
        · exact h1 y hy
      · right
        refine ⟨x :: pre, e, post, by rw [h1]; rfl, h2, ?_, h4, h5⟩
        intro y hy
        rcases List.mem_cons.1 hy with hy | hy
        · rw [hy]; omega
        · exact h3 y hy

/-- The loop selects nothing when no penalty is positive, and otherwise the first entry of
the list that carries the maximum penalty. -/
theorem worstArea_spec (l : List FocusEntry) :
    ((∀ x ∈ l, x.penalty ≤ 0) ∧ Home.worstArea l = none) ∨
    (∃ pre e post, l = pre ++ e :: post ∧ 0 < e.penalty ∧
      (∀ x ∈ pre, x.penalty < e.penalty) ∧ (∀ x ∈ post, x.penalty ≤ e.penalty) ∧
      Home.worstArea l = some (Home.withScore e)) := by
  unfold Home.worstArea
  rcases worstStep_foldl_spec l none 0 with ⟨h1, h2⟩ | ⟨pre, e, post, h1, h2, h3, h4, h5⟩
  · exact Or.inl ⟨h1, by rw [h2]⟩
  · exact Or.inr ⟨pre, e, post, h1, h2, h3, h4, by rw [h5]⟩

/-! ## Penalties of Home's area map -/

theorem firstOccurrence_unresolve (a : String) (rs : List Report) :
    firstOccurrence a (rs.map unresolve) = firstOccurrence a rs := by
  induction rs with
  | nil => rfl
  | cons r rs ih =>
    rw [List.map_cons, firstOccurrence_cons, firstOccurrence_cons, ih]
    rfl

theorem listedBefore_unresolve (rs : List Report) (a b : String) :
    listedBefore (rs.map unresolve) a b ↔ listedBefore rs a b := by
  unfold listedBefore
  rw [firstOccurrence_unresolve, firstOccurrence_unresolve]

theorem mem_home_areaMap (rs : List Report) (e : FocusEntry) (he : e ∈ Home.areaMap rs) :
    ∃ u ∈ (rs.map unresolve).foldl areaStep [], toFocus u = e := by
  rw [home_areaMap_eq, List.mem_map] at he
  exact he

theorem penaltySum_unresolve (a : String) (rs : List Report) (ha : a ≠ "") :
    penaltySum a (rs.map unresolve)
      = ((rs.filter (fun r => decide (r.area = some a))).map
          (fun r => 10 + severityPenalty r)).sum := by
  rw [penaltySum_eq a _ ha]
  induction rs with
  | nil => rfl
  | cons r rs ih =>
    have h1 : (unresolve r).area = r.area := rfl
    have h2 : (unresolve r).status = none := rfl
    have h3 : (unresolve r).severity = r.severity := rfl
    rw [List.map_cons, List.filter_cons, List.filter_cons]
    by_cases h : r.area = some a
    · simp only [h1, h2, h3, h, true_and, decide_True, if_true, List.map_cons, List.sum_cons,
        ne_eq, not_false_eq_true, reduceCtorEq]
      rw [ih, severityPenalty_eq]
    · simp only [h1, h, false_and, decide_False, Bool.false_eq_true, if_false]
      exact ih

/-- Every entry of Home's map carries `10 + severityPenalty` for each report of its area,
resolved or not. -/
theorem home_penalty_eq (rs : List Report) (e : FocusEntry) (he : e ∈ Home.areaMap rs) :
    e.name ≠ "" ∧ e.name ∉ objectPrototypeKeys ∧
      e.penalty = ((rs.filter (fun r => decide (r.area = some e.name))).map
        (fun r => 10 + severityPenalty r)).sum := by
  obtain ⟨u, hu, rfl⟩ := mem_home_areaMap rs e he
  have hmem : withScore u ∈ sortedAreas [] (rs.map unresolve) :=
    (sortedAreas_perm [] (rs.map unresolve)).mem_iff.2 (List.mem_map.2 ⟨u, hu, rfl⟩)
  obtain ⟨h1, h2, _⟩ := penalty_of_mem [] (rs.map unresolve) (withScore u) hmem
  obtain ⟨h3, _, _⟩ := mem_sortedAreas_closed [] (rs.map unresolve) (withScore u) hmem
  refine ⟨h1, h3, ?_⟩
  have h4 : (toFocus u).penalty = (withScore u).penalty := rfl
  have h5 : (toFocus u).name = (withScore u).name := rfl
  rw [h4, h5, h2, penaltySum_unresolve _ _ h1]

theorem nodup_home_values (rs : List Report) :
    (Home.objectValues (Home.areaMap rs)).Nodup := by
  rw [home_areaMap_eq, home_objectValues_map]
  apply List.Nodup.of_map (fun e : FocusEntry => e.name)
  rw [List.map_map]
  have h : (objectValues ((rs.map unresolve).foldl areaStep [])).map
      ((fun e : FocusEntry => e.name) ∘ toFocus)
      = keys (objectValues ((rs.map unresolve).foldl areaStep [])) := rfl
  rw [h]
  unfold keys
  rw [((objectValues_perm _).map _).nodup_iff]
  exact nodup_keys_foldl _ [] List.nodup_nil

theorem mem_home_values (rs : List Report) (e : FocusEntry) :
    e ∈ Home.objectValues (Home.areaMap rs) ↔ e ∈ Home.areaMap rs := by
  rw [home_areaMap_eq, home_objectValues_map]
  exact ((objectValues_perm _).map toFocus).mem_iff

theorem mem_pre_of_pair_sublist {α : Type} (pre post : List α) (e x : α)
    (hnd : (pre ++ e :: post).Nodup) (hs : List.Sublist [x, e] (pre ++ e :: post)) :
    x ∈ pre := by
  induction pre with
  | nil =>
    rw [List.nil_append] at hnd hs
    rw [List.nodup_cons] at hnd
    cases hs with
    | cons _ h => exact absurd (h.subset (by simp)) hnd.1
    | cons₂ _ h => exact absurd (h.subset (by simp)) hnd.1
  | cons h pre ih =>
    rw [List.cons_append] at hnd hs
    rw [List.nodup_cons] at hnd
    cases hs with
    | cons _ h1 => exact List.mem_cons_of_mem _ (ih hnd.2 h1)
    | cons₂ _ h1 => exact List.mem_cons_self _ _

theorem not_listedBefore_self (rs : List Report) (a : String) : ¬ listedBefore rs a a := by
  unfold listedBefore
  cases arrayIndex? a <;> simp

/-- An entry of Home's map that `Object.values` lists before another one comes before it
in the list the selection loop runs over. -/
theorem home_pair_sublist (rs : List Report) (x e : FocusEntry)
    (hx : x ∈ Home.areaMap rs) (he : e ∈ Home.areaMap rs)
    (hord : listedBefore rs x.name e.name) :
    List.Sublist [x, e] (Home.objectValues (Home.areaMap rs)) := by
  obtain ⟨u, hu, rfl⟩ := mem_home_areaMap rs x hx
  obtain ⟨v, hv, rfl⟩ := mem_home_areaMap rs e he
  have h1 := pair_sublist_objectValues (rs.map unresolve) u v hu hv
    ((listedBefore_unresolve rs _ _).2 hord)
  rw [home_areaMap_eq, home_objectValues_map]
  exact h1.map toFocus

/-! ## The focus area -/

/-- C12 (amended): among the entries of Home's area map the selection picks one exactly
when some penalty is positive; the entry picked has the maximum penalty, and no other
entry with that penalty is listed before it by `Object.values(areaMap)`.  For names that
are not array indices this is the first-seen tie-break: the picked name first occurs in
the input no later than any other name with the same penalty. -/
theorem worst_area_first_listed_maximum (reports : List Report) :
    ((∃ w, Home.worstArea (Home.objectValues (Home.areaMap reports)) = some w)
      ↔ ∃ x ∈ Home.areaMap reports, 0 < x.penalty) ∧
    (∀ w, Home.worstArea (Home.objectValues (Home.areaMap reports)) = some w →
      (∃ e ∈ Home.areaMap reports, w = Home.withScore e) ∧
      (∀ x ∈ Home.areaMap reports, x.penalty ≤ w.penalty) ∧
      (∀ x ∈ Home.areaMap reports, x.penalty = w.penalty →
        ¬ listedBefore reports x.name w.name) ∧
      (∀ x ∈ Home.areaMap reports, x.penalty = w.penalty →
        arrayIndex? x.name = none → arrayIndex? w.name = none →
        firstOccurrence w.name reports ≤ firstOccurrence x.name reports)) := by
  have key : ∀ w, Home.worstArea (Home.objectValues (Home.areaMap reports)) = some w →
      (∃ e ∈ Home.areaMap reports, w = Home.withScore e) ∧
      (∀ x ∈ Home.areaMap reports, x.penalty ≤ w.penalty) ∧
      (∀ x ∈ Home.areaMap reports, x.penalty = w.penalty →
        ¬ listedBefore reports x.name w.name) := by
    intro w hw
    rcases worstArea_spec (Home.objectValues (Home.areaMap reports)) with
      ⟨_, h2⟩ | ⟨pre, e, post, h1, _, h3, h4, h5⟩
    · rw [h2] at hw; cases hw
    · rw [h5] at hw
      have hwe : w = Home.withScore e := (Option.some.inj hw).symm
      have hel : e ∈ Home.objectValues (Home.areaMap reports) := by rw [h1]; simp
      have hem : e ∈ Home.areaMap reports := (mem_home_values reports e).1 hel
      have hpen : w.penalty = e.penalty := by rw [hwe]; rfl
      have hname : w.name = e.name := by rw [hwe]; rfl
      refine ⟨⟨e, hem, hwe⟩, ?_, ?_⟩
      · intro x hx
        have hxl := (mem_home_values reports x).2 hx
        rw [h1, List.mem_append, List.mem_cons] at hxl
        rw [hpen]
        rcases hxl with hxl | hxl | hxl
        · exact le_of_lt (h3 x hxl)
        · rw [hxl]
        · exact h4 x hxl
      · intro x hx hxp hord
        rw [hname] at hord
        have hs := home_pair_sublist reports x e hx hem hord
        have hnd := nodup_home_values reports
        rw [h1] at hs hnd
        have hxpre := mem_pre_of_pair_sublist pre post e x hnd hs
        have := h3 x hxpre
        rw [hpen] at hxp
        omega
  refine ⟨?_, ?_⟩
  · constructor
    · rintro ⟨w, hw⟩
      rcases worstArea_spec (Home.objectValues (Home.areaMap reports)) with
        ⟨_, h2⟩ | ⟨pre, e, post, h1, h0, _, _, _⟩
      · rw [h2] at hw; cases hw
      · have hel : e ∈ Home.objectValues (Home.areaMap reports) := by rw [h1]; simp
        exact ⟨e, (mem_home_values reports e).1 hel, h0⟩
    · rintro ⟨x, hx, hpos⟩
      rcases worstArea_spec (Home.objectValues (Home.areaMap reports)) with
        ⟨h1, _⟩ | ⟨pre, e, post, _, _, _, _, h5⟩
      · have := h1 x ((mem_home_values reports x).2 hx)
        omega
      · exact ⟨_, h5⟩
  · intro w hw
    obtain ⟨k1, k2, k3⟩ := key w hw
    refine ⟨k1, k2, k3, ?_⟩
    intro x hx hxp hix hiw
    have h := k3 x hx hxp
    simp only [listedBefore, hix, hiw] at h
    omega

/-- C12 (witness): in `tiedAreas` both areas carry penalty 13; `KK Nagar` is seen first
and is the one picked. -/
theorem worst_area_first_listed_maximum_witness :
    Home.areaMap tiedAreas
        = [{ name := "KK Nagar", penalty := 13 }, { name := "Anna Nagar", penalty := 13 }] ∧
      Home.worstArea (Home.objectValues (Home.areaMap tiedAreas))
        = some { name := "KK Nagar", penalty := 13, score := 87 } ∧
      firstOccurrence "KK Nagar" tiedAreas ≤ firstOccurrence "Anna Nagar" tiedAreas :=
  ⟨by decide, by decide,
   ((worst_area_first_listed_maximum tiedAreas).2
      { name := "KK Nagar", penalty := 13, score := 87 } (by decide)).2.2.2
      { name := "Anna Nagar", penalty := 13 } (by decide) rfl (by decide) (by decide)⟩

/-- C12 (counterexample): the areas `5` and `3` both carry penalty 13 and `5` occurs first
in the input, yet the selection picks `3`. -/
theorem worst_area_numeric_counterexample :
    Home.areaMap numericAreas
        = [{ name := "5", penalty := 13 }, { name := "3", penalty := 13 }] ∧
      firstOccurrence "5" numericAreas < firstOccurrence "3" numericAreas ∧
      Home.worstArea (Home.objectValues (Home.areaMap numericAreas))
        = some { name := "3", penalty := 13, score := 87 } := by
  decide

/-- Home's penalty for an area, as coded: `10 + severityPenalty` for every report of the
area, whatever its status. -/
theorem home_penalty_counts_every_report (reports : List Report) :
    ∀ e ∈ Home.areaMap reports,
      e.penalty = ((reports.filter (fun r => decide (r.area = some e.name))).map
        (fun r => 10 + (if r.severity = none ∨ r.severity = some 0 then 2
          else r.severity.getD 2))).sum := by
  intro e he
  rw [(home_penalty_eq reports e he).2.2]
  congr 1
  apply List.map_congr_left
  intro r _
  rw [severityPenalty_eq]

/-- C13 (failing input): on the three `Anna Nagar` reports, one of them resolved, Home's
penalty map holds 40 where the Dashboard's holds 28; and when all three are resolved
Home still holds 40 and raises the area as focus area with score 60, where the Dashboard
has penalty 0 and score 100. -/
theorem home_penalty_counts_resolved :
    Home.areaMap annaNagar = [{ name := "Anna Nagar", penalty := 40 }] ∧
      (sortedAreas [] annaNagar).map (fun e => (e.name, e.penalty)) = [("Anna Nagar", 28)] ∧
      Home.surfaced annaNagarResolved
        = some { name := "Anna Nagar", penalty := 40, score := 60 } ∧
      (sortedAreas [] annaNagarResolved).map (fun e => (e.name, e.penalty, e.score))
        = [("Anna Nagar", 0, 100)] := by
  decide

/-- C14: Home passes a focus area to `setFocusArea` exactly when its area map has an entry
of maximum penalty whose score `max(0, 100 - penalty)` is below 85, and the record
passed is such an entry together with that score. -/
theorem focus_surfaced_iff (reports : List Report) :
    ((∃ w, Home.surfaced reports = some w) ↔
      ∃ e ∈ Home.areaMap reports,
        (∀ x ∈ Home.areaMap reports, x.penalty ≤ e.penalty) ∧
          max 0 (100 - e.penalty) < 85) ∧
    (∀ w, Home.surfaced reports = some w →
      ∃ e ∈ Home.areaMap reports,
        (∀ x ∈ Home.areaMap reports, x.penalty ≤ e.penalty) ∧
          w = { name := e.name, penalty := e.penalty, score := max 0 (100 - e.penalty) } ∧
          w.score < 85) := by
  have key : ∀ w, Home.surfaced reports = some w →
      ∃ e ∈ Home.areaMap reports,
        (∀ x ∈ Home.areaMap reports, x.penalty ≤ e.penalty) ∧
          w = { name := e.name, penalty := e.penalty, score := max 0 (100 - e.penalty) } ∧
          w.score < 85 := by
    intro w hw
    unfold Home.surfaced at hw
    rcases worstArea_spec (Home.objectValues (Home.areaMap reports)) with
      ⟨_, h2⟩ | ⟨pre, e, post, h1, _, h3, h4, h5⟩
    · rw [h2] at hw; cases hw
    · rw [h5] at hw
      simp only at hw
      by_cases hsc : (Home.withScore e).score < 85
      · rw [if_pos hsc] at hw
        have hwe : w = Home.withScore e := (Option.some.inj hw).symm
        have hel : e ∈ Home.objectValues (Home.areaMap reports) := by rw [h1]; simp
        refine ⟨e, (mem_home_values reports e).1 hel, ?_, hwe, by rw [hwe]; exact hsc⟩
        intro x hx
        have hxl := (mem_home_values reports x).2 hx
        rw [h1, List.mem_append, List.mem_cons] at hxl
        rcases hxl with hxl | hxl | hxl
        · exact le_of_lt (h3 x hxl)
        · rw [hxl]
        · exact h4 x hxl
      · rw [if_neg hsc] at hw; cases hw
  refine ⟨⟨?_, ?_⟩, key⟩
  · rintro ⟨w, hw⟩
    obtain ⟨e, he, hmax, hwe, hsc⟩ := key w hw
    refine ⟨e, he, hmax, ?_⟩
    rw [hwe] at hsc
    exact hsc
  · rintro ⟨e, he, hmax, hsc⟩
    have hpos : 0 < e.penalty := by
      by_contra hneg
      have h100 : (100 : Int) ≤ 100 - e.penalty := by omega
      have := le_trans h100 (le_max_right 0 (100 - e.penalty))
      omega
    unfold Home.surfaced
    rcases worstArea_spec (Home.objectValues (Home.areaMap reports)) with
      ⟨h1, _⟩ | ⟨pre, e', post, h1, _, h3, h4, h5⟩
    · have := h1 e ((mem_home_values reports e).2 he)
      omega
    · rw [h5]
      have hel : e' ∈ Home.objectValues (Home.areaMap reports) := by rw [h1]; simp
      have hem := (mem_home_values reports e').1 hel
      have hle : e'.penalty ≤ e.penalty := hmax e' hem
      have hge : e.penalty ≤ e'.penalty := by
        have hxl := (mem_home_values reports e).2 he
        rw [h1, List.mem_append, List.mem_cons] at hxl
        rcases hxl with hxl | hxl | hxl
        · exact le_of_lt (h3 e hxl)
        · rw [hxl]
        · exact h4 e hxl
      have heq : e'.penalty = e.penalty := le_antisymm hle hge
      have hsc' : (Home.withScore e').score < 85 := by
        simp only [Home.withScore, heq]
        exact hsc
      simp only [hsc', if_true]
      exact ⟨_, rfl⟩

/-- C14 (witness): area `A` with penalty 40 (score 60) and area `B` with penalty 90
(score 10): `B` is selected and passed to `setFocusArea`, since 10 < 85. -/
theorem focus_surfaced_iff_witness :
    Home.areaMap focusScenario
        = [{ name := "A", penalty := 40 }, { name := "B", penalty := 90 }] ∧
      Home.surfaced focusScenario = some { name := "B", penalty := 90, score := 10 } ∧
      ∃ e ∈ Home.areaMap focusScenario,
        (∀ x ∈ Home.areaMap focusScenario, x.penalty ≤ e.penalty) ∧
          ({ name := "B", penalty := 90, score := 10 } : FocusArea)
            = { name := e.name, penalty := e.penalty, score := max 0 (100 - e.penalty) } ∧
          ({ name := "B", penalty := 90, score := 10 } : FocusArea).score < 85 :=
  ⟨by decide, by decide,
   (focus_surfaced_iff focusScenario).2 { name := "B", penalty := 90, score := 10 }
     (by decide)⟩

/-- The state after a snapshot that yields a focus area is that focus area, whatever the
state was before. -/
theorem onSnapshot_of_surfaced (focusArea : Option FocusArea) (reports : List Report)
    (w : FocusArea) (h : Home.surfaced reports = some w) :
    Home.onSnapshot focusArea reports = some w := by
  unfold Home.onSnapshot
  rw [h]

/-- C15 (failing input): after a snapshot that sets `Anna Nagar` (penalty 40, score 60) as
focus area, an empty snapshot, or one whose only area has score 88, leaves that record
in place, where the claim has no focus area set; processed alone, either snapshot yields
none. -/
theorem stale_focus_area :
    Home.onSnapshot none annaNagar
        = some { name := "Anna Nagar", penalty := 40, score := 60 } ∧
      Home.onSnapshot (Home.onSnapshot none annaNagar) []
        = some { name := "Anna Nagar", penalty := 40, score := 60 } ∧
      Home.onSnapshot (Home.onSnapshot none annaNagar) zeroSeverity
        = some { name := "Anna Nagar", penalty := 40, score := 60 } ∧
      Home.onSnapshot none [] = none ∧
      Home.onSnapshot none zeroSeverity = none := by
  decide

/-! ## Maximum penalty against minimum score -/

theorem insertionSort_append_cons {α : Type} (r : α → α → Prop) [DecidableRel r]
    (pre post : List α) (e : α) (hpre : ∀ x ∈ pre, ¬ r x e) (hpost : ∀ x ∈ post, r e x) :
    (pre ++ e :: post).insertionSort r = e :: (pre ++ post).insertionSort r := by
  induction pre with
  | nil =>
    rw [List.nil_append, List.nil_append]
    apply List.insertionSort_cons
    intro b hb
    exact hpost b hb
  | cons x pre ih =>
    rw [List.cons_append, List.insertionSort,
      ih (fun y hy => hpre y (List.mem_cons_of_mem _ hy))]
    rw [List.cons_append, List.insertionSort, List.orderedInsert,
      if_neg (hpre x (List.mem_cons_self _ _))]

/-- C16: on every penalty map in which every penalty is at most 100 and at least one is
positive, the selection by maximum penalty (running `>`, first reached wins) returns the
first element of the list sorted ascending by score with a stable sort; and on the map
with penalties 110 and 150 the two differ, both scores being 0. -/
theorem max_penalty_eq_min_score :
    (∀ values : List FocusEntry, (∀ e ∈ values, e.penalty ≤ 100) →
      (∃ e ∈ values, 0 < e.penalty) →
      Home.worstArea values = Home.minScoreFirst values) ∧
    (∃ a b : FocusEntry, a.penalty ≠ b.penalty ∧ 100 < a.penalty ∧ 100 < b.penalty ∧
      (Home.withScore a).score = 0 ∧ (Home.withScore b).score = 0 ∧
      Home.worstArea [a, b] = some (Home.withScore b) ∧
      Home.minScoreFirst [a, b] = some (Home.withScore a) ∧
      Home.worstArea [a, b] ≠ Home.minScoreFirst [a, b]) := by
  refine ⟨?_, ⟨{ name := "A", penalty := 110 }, { name := "B", penalty := 150 }, by decide⟩⟩
  intro values hle hpos
  rcases worstArea_spec values with ⟨h1, _⟩ | ⟨pre, e, post, h1, _, h3, h4, h5⟩
  · obtain ⟨x, hx, hx0⟩ := hpos
    have := h1 x hx
    omega
  · rw [h5]
    unfold Home.minScoreFirst
    have he100 : e.penalty ≤ 100 := hle e (by rw [h1]; simp)
    have hse : (Home.withScore e).score = 100 - e.penalty := by
      simp only [Home.withScore]
      exact max_eq_right (by omega)
    rw [h1, List.map_append, List.map_cons,
      insertionSort_append_cons (fun a b : FocusArea => a.score ≤ b.score)]
    · rfl
    · intro y hy
      rw [List.mem_map] at hy
      obtain ⟨x, hx, rfl⟩ := hy
      have hlt := h3 x hx
      have hsx : 100 - x.penalty ≤ (Home.withScore x).score := le_max_right _ _
      rw [hse]
      omega
    · intro y hy
      rw [List.mem_map] at hy
      obtain ⟨x, hx, rfl⟩ := hy
      have hle' := h4 x hx
      have hsx : 100 - x.penalty ≤ (Home.withScore x).score := le_max_right _ _
      rw [hse]
      omega

/-- C16 (witness): on a map without clamping, with the maximum penalty 90 carried by `A`
and by `C`, both selections return `A` with score 10; on the clamped map they return
`B` and `A`. -/
theorem max_penalty_eq_min_score_witness :
    Home.worstArea unclampedMap = some { name := "A", penalty := 90, score := 10 } ∧
      Home.worstArea unclampedMap = Home.minScoreFirst unclampedMap ∧
      Home.worstArea clampedMap = some { name := "B", penalty := 150, score := 0 } ∧
      Home.minScoreFirst clampedMap = some { name := "A", penalty := 110, score := 0 } :=
  ⟨by decide, max_penalty_eq_min_score.1 unclampedMap (by decide) (by decide),
   by decide, by decide⟩

/-- C18: for the empty report sequence the Dashboard aggregation yields total 0, resolved 0,
pending 0, severitySum 0, all four types counts 0 (and no further key) and an empty area
list, and Home's focus-area computation selects nothing and passes nothing to
`setFocusArea`. -/
theorem empty_snapshot (proto : List String) :
    calculated proto [] =
        { total := 0, resolved := 0, pending := 0, severitySum := 0,
          types := { Wet := 0, Dry := 0, Hazardous := 0, Mixed := 0, extra := [] } } ∧
      sortedAreas proto [] = [] ∧
      Home.areaMap [] = [] ∧
      Home.worstArea (Home.objectValues (Home.areaMap [])) = none ∧
      Home.surfaced [] = none := by
  refine ⟨rfl, rfl, rfl, ?_, ?_⟩ <;> decide

/-! ## Malformed fields -/

theorem areaStep_of_missing_area (m : List AreaEntry) (r : Report)
    (h : r.area = none ∨ r.area = some "") : areaStep m r = m := by
  unfold areaStep
  rcases h with h | h <;> simp [h, truthy]

theorem foldl_areaStep_skip (pre post : List Report) (r : Report)
    (h : r.area = none ∨ r.area = some "") :
    (pre ++ r :: post).foldl areaStep [] = (pre ++ post).foldl areaStep [] := by
  rw [List.foldl_append, List.foldl_cons, areaStep_of_missing_area _ r h, List.foldl_append]

theorem severitySumOf_numbers (proto : List String) (rs : List Report) :
    severitySumOf (rs.map (fun r => r.severity.map JsValue.number))
      = JsValue.number (calculated proto rs).severitySum := by
  have h4 := (foldl_step_stats rs (initial proto)).2.2.2
  have key : ∀ (l : List Report) (n : Int),
      (l.map (fun r => r.severity.map JsValue.number)).foldl severitySumStep (.number n)
        = .number (n + (l.filterMap (fun r => r.severity)).sum) := by
    intro l
    induction l with
    | nil => intro n; simp
    | cons r l ih =>
      intro n
      rw [List.map_cons, List.foldl_cons]
      cases hs : r.severity with
      | none => simp [severitySumStep, hs, List.filterMap_cons, ih]
      | some v =>
        by_cases h0 : v = 0
        · simp [severitySumStep, hs, h0, JsValue.truthy, List.filterMap_cons, ih]
        · simp [severitySumStep, hs, h0, JsValue.truthy, JsValue.add, List.filterMap_cons, ih,
            add_assoc]
  unfold severitySumOf calculated reduce
  rw [key rs 0, h4]
  simp [initial]

/-- C17 (amended): on reports whose severity is absent or an integer, a report with a
malformed field is left out of the aggregate the field would feed, wherever it stands in
the sequence: an absent severity adds nothing to severitySum, a wasteType that is none
of the four labels changes none of the four histogram entries, a missing or empty area
leaves the area list as it is; the report still counts in total.  On such reports the
field `severitySum` is the number the reduction computes. -/
theorem malformed_fields_omitted (proto : List String) (pre post : List Report) (r : Report) :
    (r.severity = none →
      (calculated proto (pre ++ r :: post)).severitySum
        = (calculated proto (pre ++ post)).severitySum) ∧
    ((∀ L ∈ ["Wet", "Dry", "Hazardous", "Mixed"], r.wasteType ≠ some L) →
      (calculated proto (pre ++ r :: post)).types.Wet
          = (calculated proto (pre ++ post)).types.Wet ∧
        (calculated proto (pre ++ r :: post)).types.Dry
          = (calculated proto (pre ++ post)).types.Dry ∧
        (calculated proto (pre ++ r :: post)).types.Hazardous
          = (calculated proto (pre ++ post)).types.Hazardous ∧
        (calculated proto (pre ++ r :: post)).types.Mixed
          = (calculated proto (pre ++ post)).types.Mixed) ∧
    ((r.area = none ∨ r.area = some "") →
      sortedAreas proto (pre ++ r :: post) = sortedAreas proto (pre ++ post)) ∧
    (calculated proto (pre ++ r :: post)).total = (calculated proto (pre ++ post)).total + 1 ∧
    severitySumOf ((pre ++ r :: post).map (fun x => x.severity.map JsValue.number))
      = JsValue.number (calculated proto (pre ++ r :: post)).severitySum := by
  obtain ⟨a1, _, _, a4⟩ := foldl_step_stats (pre ++ r :: post) (initial proto)
  obtain ⟨b1, _, _, b4⟩ := foldl_step_stats (pre ++ post) (initial proto)
  obtain ⟨c1, c2, c3, c4⟩ := foldl_step_types (pre ++ r :: post) (initial proto)
  obtain ⟨d1, d2, d3, d4⟩ := foldl_step_types (pre ++ post) (initial proto)
  refine ⟨?_, ?_, ?_, ?_, severitySumOf_numbers proto _⟩
  · intro hs
    unfold calculated reduce
    rw [a4, b4]
    simp [List.filterMap_append, List.filterMap_cons, hs]
  · intro hw
    have hWet : r.wasteType ≠ some "Wet" := hw _ (by simp)
    have hDry : r.wasteType ≠ some "Dry" := hw _ (by simp)
    have hHaz : r.wasteType ≠ some "Hazardous" := hw _ (by simp)
    have hMix : r.wasteType ≠ some "Mixed" := hw _ (by simp)
    unfold calculated reduce
    rw [c1, c2, c3, c4, d1, d2, d3, d4]
    simp [List.countP_append, List.countP_cons, hWet, hDry, hHaz, hMix]
  · intro ha
    unfold sortedAreas
    rw [reduce_areaMap, reduce_areaMap, foldl_areaStep_skip pre post r ha]
  · unfold calculated reduce
    rw [a1, b1]
    simp only [initial, List.length_append, List.length_cons]
    omega

/-- C17 (witness): a report without severity, with wasteType `Plastic` and without area,
put after the three `Anna Nagar` reports, changes only total and pending. -/
theorem malformed_fields_omitted_witness :
    calculated [] (annaNagar ++ malformedReport :: [])
        = { calculated [] (annaNagar ++ []) with total := 4, pending := 3 } ∧
      sortedAreas [] (annaNagar ++ malformedReport :: []) = sortedAreas [] (annaNagar ++ []) :=
  ⟨by decide,
   (malformed_fields_omitted [] annaNagar [] malformedReport).2.2.1 (Or.inl rfl)⟩

/-- C17 (counterexample): a severity that is a non-empty string is not left out: after a
report of severity 3, the severity `"high"` turns `severitySum` into the string
`"3high"`, and a later severity 2 into `"3high2"`. -/
theorem string_severity_counterexample :
    severitySumOf [some (.number 3), some (.string "high")] = .string "3high" ∧
      severitySumOf [some (.number 3), some (.string "high"), some (.number 2)]
        = .string "3high2" ∧
      severitySumOf [some (.number 3), none, some (.number 2)] = .number 5 := by
  decide

/-! ## The retry loop -/

theorem body_eq_of_serialisable (x y : Body) (hx : x.stringifyError = none)
    (hy : y.stringifyError = none) : x = y := by
  cases x
  cases y
  simp only at hx hy
  rw [hx, hy]

/-- The seven ways one pass of the loop can go. -/
theorem fetchLoop_succ (replies : Nat → Reply) (maxRetries : Int)
    (onRetry : Option Callback) (fuel attempt : Nat) (body : Body) :
    (¬ (attempt : Int) ≤ maxRetries ∧
      fetchLoop replies maxRetries onRetry (fuel + 1) attempt body
        = { outcome := .undefined, requests := 0, waits := [], calls := [], events := [] }) ∨
    ((attempt : Int) ≤ maxRetries ∧ ∃ message, body.stringifyError = some message ∧
      fetchLoop replies maxRetries onRetry (fuel + 1) attempt body
        = { outcome := .stringifyThrew message, requests := 0, waits := [], calls := [],
            events := [] }) ∨
    ((attempt : Int) ≤ maxRetries ∧ body.stringifyError = none ∧
      ∃ reason, replies attempt = .rejected reason ∧
      fetchLoop replies maxRetries onRetry (fuel + 1) attempt body
        = { outcome := .rejected reason, requests := 1, waits := [], calls := [],
            events := [.request] }) ∨
    ((attempt : Int) ≤ maxRetries ∧ body.stringifyError = none ∧
      ∃ answer, replies attempt = .data answer none ∧
      fetchLoop replies maxRetries onRetry (fuel + 1) attempt body
        = { outcome := .returned answer, requests := 1, waits := [], calls := [],
            events := [.request] }) ∨
    ((attempt : Int) ≤ maxRetries ∧ body.stringifyError = none ∧
      ∃ answer error, replies attempt = .data answer (some error) ∧
      ¬ (error.code = some 429 ∧ (attempt : Int) < maxRetries) ∧
      fetchLoop replies maxRetries onRetry (fuel + 1) attempt body
        = { outcome := .threw error, requests := 1, waits := [], calls := [],
            events := [.request] }) ∨
    ((attempt : Int) < maxRetries ∧ body.stringifyError = none ∧
      ∃ answer error f reason,
      replies attempt = .data answer (some error) ∧ error.code = some 429 ∧
      onRetry = some f ∧ f (roundSeconds (waitMs attempt)) (attempt + 1) body = .raised reason ∧
      fetchLoop replies maxRetries onRetry (fuel + 1) attempt body
        = { outcome := .callbackThrew reason, requests := 1, waits := [],
            calls := [(roundSeconds (waitMs attempt), attempt + 1)],
            events := [.request, .callback (roundSeconds (waitMs attempt)) (attempt + 1)] }) ∨
    ((attempt : Int) < maxRetries ∧ body.stringifyError = none ∧
      ∃ answer error next,
      replies attempt = .data answer (some error) ∧ error.code = some 429 ∧
      ((onRetry = none ∧ next = body) ∨
        ∃ f, onRetry = some f ∧
          f (roundSeconds (waitMs attempt)) (attempt + 1) body = .returned next) ∧
      fetchLoop replies maxRetries onRetry (fuel + 1) attempt body
        = { outcome := (fetchLoop replies maxRetries onRetry fuel (attempt + 1) next).outcome
            requests :=
              (fetchLoop replies maxRetries onRetry fuel (attempt + 1) next).requests + 1
            waits := waitMs attempt
              :: (fetchLoop replies maxRetries onRetry fuel (attempt + 1) next).waits
            calls :=
              if onRetry.isSome then
                (roundSeconds (waitMs attempt), attempt + 1)
                  :: (fetchLoop replies maxRetries onRetry fuel (attempt + 1) next).calls
              else (fetchLoop replies maxRetries onRetry fuel (attempt + 1) next).calls
            events :=
              if onRetry.isSome then
                .request :: .callback (roundSeconds (waitMs attempt)) (attempt + 1)
                  :: .sleep (waitMs attempt)
                  :: (fetchLoop replies maxRetries onRetry fuel (attempt + 1) next).events
              else
                .request :: .sleep (waitMs attempt)
                  :: (fetchLoop replies maxRetries onRetry fuel (attempt + 1) next).events }) := by
  by_cases hle : (attempt : Int) ≤ maxRetries
  · right
    cases hs : body.stringifyError with
    | some message =>
      left
      exact ⟨hle, message, rfl, by simp [fetchLoop, hle, hs]⟩
    | none =>
      right
      cases hr : replies attempt with
      | rejected reason =>
        left
        exact ⟨hle, rfl, reason, rfl, by simp [fetchLoop, hle, hs, hr]⟩
      | data answer error =>
        right
        cases error with
        | none =>
          left
          exact ⟨hle, rfl, answer, rfl, by simp [fetchLoop, hle, hs, hr]⟩
        | some err =>
          right
          by_cases hc : err.code = some 429 ∧ (attempt : Int) < maxRetries
          · right
            cases ho : onRetry with
            | none =>
              right
              refine ⟨hc.2, rfl, answer, err, body, rfl, hc.1, Or.inl ⟨rfl, rfl⟩, ?_⟩
              simp [fetchLoop, hle, hs, hr, hc]
            | some f =>
              cases hf : f (roundSeconds (waitMs attempt)) (attempt + 1) body with
              | raised reason =>
                left
                refine ⟨hc.2, rfl, answer, err, f, reason, rfl, hc.1, rfl, hf, ?_⟩
                simp [fetchLoop, hle, hs, hr, hc, hf]
              | returned next =>
                right
                refine ⟨hc.2, rfl, answer, err, next, rfl, hc.1, Or.inr ⟨f, rfl, hf⟩, ?_⟩
                simp [fetchLoop, hle, hs, hr, hc, hf]
          · left
            exact ⟨hle, rfl, answer, err, rfl, hc, by simp [fetchLoop, hle, hs, hr, hc]⟩
  · left
    exact ⟨hle, by simp [fetchLoop, hle]⟩

theorem fetchLoop_requests (replies : Nat → Reply) (maxRetries : Int)
    (onRetry : Option Callback) (fuel attempt : Nat) (body : Body)
    (hfuel : (maxRetries + 1 - attempt).toNat < fuel) :
    (fetchLoop replies maxRetries onRetry fuel attempt body).outcome ≠ .outOfFuel ∧
    (fetchLoop replies maxRetries onRetry fuel attempt body).requests
      ≤ (maxRetries + 1 - attempt).toNat ∧
    ((attempt : Int) ≤ maxRetries →
      (body.stringifyError = none ∨
        ∀ m, (fetchLoop replies maxRetries onRetry fuel attempt body).outcome
          ≠ .stringifyThrew m) →
      1 ≤ (fetchLoop replies maxRetries onRetry fuel attempt body).requests) ∧
    (∀ i, i + 1 < (fetchLoop replies maxRetries onRetry fuel attempt body).requests →
      ∃ answer error,
        replies (attempt + i) = .data answer (some error) ∧ error.code = some 429) ∧
    (∀ i, i < (fetchLoop replies maxRetries onRetry fuel attempt body).requests →
      ∀ answer error, replies (attempt + i) = .data answer (some error) →
      error.code ≠ some 429 →
      (fetchLoop replies maxRetries onRetry fuel attempt body).requests = i + 1 ∧
        (fetchLoop replies maxRetries onRetry fuel attempt body).outcome = .threw error) := by
  induction fuel generalizing attempt body with
  | zero => omega
  | succ fuel ih =>
    rcases fetchLoop_succ replies maxRetries onRetry fuel attempt body with
      ⟨h1, h2⟩ | ⟨h1, message, h2, h3⟩ | ⟨h1, _, reason, h2, h3⟩ | ⟨h1, _, answer, h2, h3⟩ |
      ⟨h1, _, answer, err, h2, h3, h4⟩ |
      ⟨h1, _, answer, err, f, reason, h2, h3, h4, h5, h6⟩ |
      ⟨h1, _, answer, err, next, h2, h3, h4, h5⟩
    · rw [h2]
      refine ⟨by simp, by simp, fun h => absurd h h1, by simp, by simp⟩
    · rw [h3]
      refine ⟨by simp, by simp, ?_, by simp, by simp⟩
      intro _ hor
      rcases hor with hor | hor
      · rw [h2] at hor; cases hor
      · exact absurd rfl (hor message)
    · rw [h3]
      refine ⟨by simp, by simp only []; omega, by simp, by simp, ?_⟩
      intro i hi answer error hb
      have hi0 : i = 0 := by simp only [] at hi; omega
      subst hi0
      rw [Nat.add_zero, h2] at hb
      cases hb
    · rw [h3]
      refine ⟨by simp, by simp only []; omega, by simp, by simp, ?_⟩
      intro i hi answer' error hb
      have hi0 : i = 0 := by simp only [] at hi; omega
      subst hi0
      rw [Nat.add_zero, h2] at hb
      cases hb
    · rw [h4]
      refine ⟨by simp, by simp only []; omega, by simp, by simp, ?_⟩
      intro i hi answer' error hb _
      have hi0 : i = 0 := by simp only [] at hi; omega
      subst hi0
      rw [Nat.add_zero, h2] at hb
      cases hb
      exact ⟨rfl, rfl⟩
    · rw [h6]
      refine ⟨by simp, by simp only []; omega, by simp, by simp, ?_⟩
      intro i hi answer' error hb hne
      have hi0 : i = 0 := by simp only [] at hi; omega
      subst hi0
      rw [Nat.add_zero, h2] at hb
      cases hb
      exact absurd h3 hne
    · obtain ⟨i1, i2, _, i4, i5⟩ := ih (attempt + 1) next (by push_cast; omega)
      rw [h5]
      simp only []
      refine ⟨i1, by push_cast at i2; omega, fun _ _ => by omega, ?_, ?_⟩
      · intro i hi
        cases i with
        | zero => exact ⟨answer, err, h2, h3⟩
        | succ k =>
          obtain ⟨b, e, hb, he⟩ := i4 k (by omega)
          refine ⟨b, e, ?_, he⟩
          rw [← hb]
          congr 1
          omega
      · intro i hi answer' error hb hne
        cases i with
        | zero =>
          rw [Nat.add_zero, h2] at hb
          cases hb
          exact absurd h3 hne
        | succ k =>
          have hb' : replies (attempt + 1 + k) = .data answer' (some error) := by
            rw [← hb]
            congr 1
            omega
          obtain ⟨j1, j2⟩ := i5 k (by omega) answer' error hb' hne
          exact ⟨by omega, j2⟩

theorem waitMs_values :
    waitMs 0 = 3000 ∧ waitMs 1 = 6000 ∧ waitMs 2 = 10000 ∧ ∀ i, 3 ≤ i → waitMs i = 10000 := by
  refine ⟨rfl, rfl, rfl, ?_⟩
  intro i hi
  unfold waitMs delays
  match i, hi with
  | n + 3, _ => rfl

theorem roundSeconds_waitMs (i : Nat) : roundSeconds (waitMs i) * 1000 = waitMs i := by
  match i with
  | 0 => rfl
  | 1 => rfl
  | 2 => rfl
  | n + 3 => rw [waitMs_values.2.2.2 (n + 3) (by omega)]; rfl

theorem range_map_shift {β : Type} (g : Nat → β) (attempt n : Nat) :
    (List.range (n + 1)).map (fun i => g (attempt + i))
      = g attempt :: (List.range n).map (fun i => g (attempt + 1 + i)) := by
  rw [List.range_succ_eq_map, List.map_cons, List.map_map]
  congr 1
  apply List.map_congr_left
  intro i _
  show g (attempt + (i + 1)) = g (attempt + 1 + i)
  congr 1
  omega

theorem fetchLoop_schedule (replies : Nat → Reply) (maxRetries : Int)
    (onRetry : Option Callback) (fuel attempt : Nat) (body : Body)
    (hfuel : (maxRetries + 1 - attempt).toNat < fuel) :
    (fetchLoop replies maxRetries onRetry fuel attempt body).waits
      = (List.range (fetchLoop replies maxRetries onRetry fuel attempt body).waits.length).map
          (fun i => waitMs (attempt + i)) ∧
    (fetchLoop replies maxRetries onRetry fuel attempt body).calls
      = (List.range (fetchLoop replies maxRetries onRetry fuel attempt body).calls.length).map
          (fun i => (roundSeconds (waitMs (attempt + i)), attempt + i + 1)) ∧
    ((∀ m, (fetchLoop replies maxRetries onRetry fuel attempt body).outcome
        ≠ .stringifyThrew m) →
      (fetchLoop replies maxRetries onRetry fuel attempt body).waits.length
        = (fetchLoop replies maxRetries onRetry fuel attempt body).requests - 1) ∧
    (∀ m, (fetchLoop replies maxRetries onRetry fuel attempt body).outcome
        = .stringifyThrew m →
      (fetchLoop replies maxRetries onRetry fuel attempt body).waits.length
        = (fetchLoop replies maxRetries onRetry fuel attempt body).requests) ∧
    (onRetry = none → (fetchLoop replies maxRetries onRetry fuel attempt body).calls = []) ∧
    (onRetry.isSome = true →
      (fetchLoop replies maxRetries onRetry fuel attempt body).waits.length
          ≤ (fetchLoop replies maxRetries onRetry fuel attempt body).calls.length ∧
        (fetchLoop replies maxRetries onRetry fuel attempt body).calls.length
          ≤ (fetchLoop replies maxRetries onRetry fuel attempt body).waits.length + 1) ∧
    (∀ f, onRetry = some f → (∀ a b x reason, f a b x ≠ .raised reason) →
      (fetchLoop replies maxRetries onRetry fuel attempt body).calls.length
        = (fetchLoop replies maxRetries onRetry fuel attempt body).waits.length) := by
  induction fuel generalizing attempt body with
  | zero => omega
  | succ fuel ih =>
    rcases fetchLoop_succ replies maxRetries onRetry fuel attempt body with
      ⟨h1, h2⟩ | ⟨h1, message, h2, h3⟩ | ⟨h1, _, reason, h2, h3⟩ | ⟨h1, _, answer, h2, h3⟩ |
      ⟨h1, _, answer, err, h2, h3, h4⟩ |
      ⟨h1, _, answer, err, f, reason, h2, h3, h4, h5, h6⟩ |
      ⟨h1, _, answer, err, next, h2, h3, h4, h5⟩
    · rw [h2]; simp
    · rw [h3]; simp
    · rw [h3]; simp
    · rw [h3]; simp
    · rw [h4]; simp
    · rw [h6]
      refine ⟨by simp, rfl, by simp, by simp, ?_, by simp, ?_⟩
      · intro hn
        rw [hn] at h4
        cases h4
      · intro f' hf' hall
        rw [h4] at hf'
        cases hf'
        exact absurd h5 (hall _ _ _ _)
    · have hf' : (maxRetries + 1 - ((attempt + 1 : Nat) : Int)).toNat < fuel := by
        push_cast; omega
      obtain ⟨i1, i2, i3, i3', i4, i5, i6⟩ := ih (attempt + 1) next hf'
      have hone := (fetchLoop_requests replies maxRetries onRetry fuel (attempt + 1) next
        hf').2.2.1 (by push_cast; omega)
      rw [h5]
      refine ⟨?_, ?_, ?_, ?_, ?_, ?_, ?_⟩
      · simp only []
        rw [List.length_cons, range_map_shift waitMs]
        congr 1
      · cases ho : onRetry.isSome with
        | false =>
          simp only [Bool.false_eq_true, if_false]
          have hn : onRetry = none := by
            cases onRetry with
            | none => rfl
            | some _ => cases ho
          rw [i4 hn]
          rfl
        | true =>
          simp only [if_true]
          rw [List.length_cons,
            range_map_shift (fun k => (roundSeconds (waitMs k), k + 1))]
          congr 1
      · intro hno
        simp only [] at hno ⊢
        have h1' := hone (Or.inr hno)
        rw [List.length_cons, i3 hno]
        omega
      · intro m hm
        simp only [] at hm ⊢
        rw [List.length_cons, i3' m hm]
      · intro hn
        subst hn
        simp only [Option.isSome_none, Bool.false_eq_true, if_false]
        exact i4 rfl
      · intro hsome
        have := i5 hsome
        simp only [hsome, if_true, List.length_cons]
        omega
      · intro f' hf' hall
        subst hf'
        simp only [Option.isSome_some, if_true, List.length_cons]
        rw [i6 f' rfl hall]

theorem fetchLoop_events (replies : Nat → Reply) (maxRetries : Int)
    (onRetry : Option Callback) (fuel attempt : Nat) (body : Body) :
    (fetchLoop replies maxRetries onRetry fuel attempt body).events
      = retryEvents onRetry.isSome attempt
          (fetchLoop replies maxRetries onRetry fuel attempt body).waits.length
        ++ lastEvents
          (attempt + (fetchLoop replies maxRetries onRetry fuel attempt body).waits.length)
          (fetchLoop replies maxRetries onRetry fuel attempt body).outcome := by
  induction fuel generalizing attempt body with
  | zero => rfl
  | succ fuel ih =>
    rcases fetchLoop_succ replies maxRetries onRetry fuel attempt body with
      ⟨h1, h2⟩ | ⟨h1, message, h2, h3⟩ | ⟨h1, _, reason, h2, h3⟩ | ⟨h1, _, answer, h2, h3⟩ |
      ⟨h1, _, answer, err, h2, h3, h4⟩ |
      ⟨h1, _, answer, err, f, reason, h2, h3, h4, h5, h6⟩ |
      ⟨h1, _, answer, err, next, h2, h3, h4, h5⟩
    · rw [h2]; rfl
    · rw [h3]; rfl
    · rw [h3]; rfl
    · rw [h3]; rfl
    · rw [h4]; rfl
    · rw [h6]; rfl
    · have hrest := ih (attempt + 1) next
      rw [h5]
      simp only [List.length_cons]
      have hidx : attempt
          + ((fetchLoop replies maxRetries onRetry fuel (attempt + 1) next).waits.length + 1)
          = attempt + 1
            + (fetchLoop replies maxRetries onRetry fuel (attempt + 1) next).waits.length := by
        omega
      rw [hidx]
      cases ho : onRetry.isSome with
      | true =>
        simp only [if_true, retryEvents]
        rw [ho] at hrest
        rw [hrest]
        simp
      | false =>
        simp only [Bool.false_eq_true, if_false, retryEvents]
        rw [ho] at hrest
        rw [hrest]
        simp

/-- A call from iteration `attempt` on waits, and calls the callback, at most
`maxRetries - attempt` times. -/
theorem fetchLoop_retries_bounded (replies : Nat → Reply) (maxRetries : Int)
    (onRetry : Option Callback) (fuel attempt : Nat) (body : Body) :
    (fetchLoop replies maxRetries onRetry fuel attempt body).waits.length
        ≤ (maxRetries - attempt).toNat ∧
      (fetchLoop replies maxRetries onRetry fuel attempt body).calls.length
        ≤ (maxRetries - attempt).toNat := by
  induction fuel generalizing attempt body with
  | zero => simp [fetchLoop]
  | succ fuel ih =>
    rcases fetchLoop_succ replies maxRetries onRetry fuel attempt body with
      ⟨h1, h2⟩ | ⟨h1, message, h2, h3⟩ | ⟨h1, _, reason, h2, h3⟩ | ⟨h1, _, answer, h2, h3⟩ |
      ⟨h1, _, answer, err, h2, h3, h4⟩ |
      ⟨h1, _, answer, err, f, reason, h2, h3, h4, h5, h6⟩ |
      ⟨h1, _, answer, err, next, h2, h3, h4, h5⟩
    · rw [h2]; simp
    · rw [h3]; simp
    · rw [h3]; simp
    · rw [h3]; simp
    · rw [h4]; simp
    · rw [h6]
      simp only [List.length_nil, List.length_singleton]
      omega
    · obtain ⟨i1, i2⟩ := ih (attempt + 1) next
      rw [h5]
      push_cast at i1 i2
      refine ⟨?_, ?_⟩
      · simp only [List.length_cons]
        omega
      · cases ho : onRetry.isSome with
        | false =>
          simp only [Bool.false_eq_true, if_false]
          omega
        | true =>
          simp only [if_true, List.length_cons]
          omega

theorem roundSeconds_waitMs_div (i : Nat) : roundSeconds (waitMs i) = waitMs i / 1000 := by
  match i with
  | 0 => rfl
  | 1 => rfl
  | 2 => rfl
  | n + 3 => rw [waitMs_values.2.2.2 (n + 3) (by omega)]; rfl

/-- C19: `fetchGemini` always ends, having issued at most `maxRetries + 1` requests (at
most 4 with the default of 3 retries, at least one when `maxRetries >= 0` and `body` can
be serialised); every request but the last was answered by an error of code 429; and an
answer whose error has another code ends the call at once by throwing that error. -/
theorem fetchGemini_requests_bounded (replies : Nat → Reply) (body : Body) (maxRetries : Int)
    (onRetry : Option Callback) :
    (fetchGemini replies body maxRetries onRetry).outcome ≠ .outOfFuel ∧
    (fetchGemini replies body maxRetries onRetry).requests ≤ (maxRetries + 1).toNat ∧
    (0 ≤ maxRetries → body.stringifyError = none →
      1 ≤ (fetchGemini replies body maxRetries onRetry).requests) ∧
    (maxRetries = defaultMaxRetries →
      (fetchGemini replies body maxRetries onRetry).requests ≤ 4) ∧
    (∀ i, i + 1 < (fetchGemini replies body maxRetries onRetry).requests →
      ∃ answer error, replies i = .data answer (some error) ∧ error.code = some 429) ∧
    (∀ i, i < (fetchGemini replies body maxRetries onRetry).requests →
      ∀ answer error, replies i = .data answer (some error) → error.code ≠ some 429 →
      (fetchGemini replies body maxRetries onRetry).requests = i + 1 ∧
        (fetchGemini replies body maxRetries onRetry).outcome = .threw error) := by
  have hfuel : (maxRetries + 1 - ((0 : Nat) : Int)).toNat < (maxRetries + 1).toNat + 1 := by
    simp
  obtain ⟨h1, h2, h3, h4, h5⟩ :=
    fetchLoop_requests replies maxRetries onRetry ((maxRetries + 1).toNat + 1) 0 body hfuel
  unfold fetchGemini
  refine ⟨h1, by simpa using h2, fun h hb => h3 (by simpa using h) (Or.inl hb), ?_, ?_, ?_⟩
  · intro hd
    have h2' : (fetchLoop replies maxRetries onRetry ((maxRetries + 1).toNat + 1) 0
        body).requests ≤ (maxRetries + 1).toNat := by simpa using h2
    rw [hd] at h2' ⊢
    exact h2'
  · intro i hi
    simpa using h4 i hi
  · intro i hi answer error hb hne
    exact h5 i hi answer error (by simpa using hb) hne

/-- C19 (witness): with the default of 3 retries, a rate-limit answer followed by an error
of code 500 gives two requests, one wait, and the second error thrown. -/
theorem fetchGemini_requests_bounded_witness :
    fetchGemini rateLimitedThenFailed plainBody defaultMaxRetries none
        = { outcome := .threw { code := some 500, message := "internal" },
            requests := 2, waits := [3000], calls := [],
            events := [.request, .sleep 3000, .request] } ∧
      (fetchGemini rateLimitedThenFailed plainBody defaultMaxRetries none).requests = 1 + 1 ∧
      (fetchGemini rateLimitedThenFailed plainBody defaultMaxRetries none).outcome
        = .threw { code := some 500, message := "internal" } :=
  ⟨by decide,
   (fetchGemini_requests_bounded rateLimitedThenFailed plainBody defaultMaxRetries
      none).2.2.2.2.2
     1 (by decide) "" { code := some 500, message := "internal" } (by decide) (by decide)⟩

/-- C20: the wait before the k-th retry is 3000, 6000, 10000 ms for k = 1, 2, 3 and 10000
ms for every k >= 4; the waits of a call are exactly those of its retries, one per
request after the first (one per request when the call ends because `body` can no longer
be serialised); a supplied callback is called once before each wait, directly before it,
with the wait in whole seconds and k (and at most once more, when that call raises); so
a call with the default 3 retries that issues its four requests has called it with
(3,1), (6,2), (10,3) and no more, whatever the callback does; and four rate-limit
answers lead to such a call when `body` stays serialisable. -/
theorem retry_schedule (replies : Nat → Reply) (body : Body) (maxRetries : Int)
    (onRetry : Option Callback) :
    (waitMs 0 = 3000 ∧ waitMs 1 = 6000 ∧ waitMs 2 = 10000 ∧ ∀ i, 3 ≤ i → waitMs i = 10000) ∧
    (fetchGemini replies body maxRetries onRetry).waits
      = (List.range (fetchGemini replies body maxRetries onRetry).waits.length).map waitMs ∧
    ((∀ m, (fetchGemini replies body maxRetries onRetry).outcome ≠ .stringifyThrew m) →
      (fetchGemini replies body maxRetries onRetry).waits.length
        = (fetchGemini replies body maxRetries onRetry).requests - 1) ∧
    (∀ m, (fetchGemini replies body maxRetries onRetry).outcome = .stringifyThrew m →
      (fetchGemini replies body maxRetries onRetry).waits.length
        = (fetchGemini replies body maxRetries onRetry).requests) ∧
    (∀ f, onRetry = some f →
      (fetchGemini replies body maxRetries onRetry).calls
        = (List.range (fetchGemini replies body maxRetries onRetry).calls.length).map
            (fun i => (waitMs i / 1000, i + 1)) ∧
      (fetchGemini replies body maxRetries onRetry).waits.length
        ≤ (fetchGemini replies body maxRetries onRetry).calls.length ∧
      (fetchGemini replies body maxRetries onRetry).calls.length
        ≤ (fetchGemini replies body maxRetries onRetry).waits.length + 1 ∧
      ((∀ a b x reason, f a b x ≠ .raised reason) →
        (fetchGemini replies body maxRetries onRetry).calls.length
          = (fetchGemini replies body maxRetries onRetry).waits.length)) ∧
    (fetchGemini replies body maxRetries onRetry).events
      = retryEvents onRetry.isSome 0 (fetchGemini replies body maxRetries onRetry).waits.length
        ++ lastEvents (fetchGemini replies body maxRetries onRetry).waits.length
          (fetchGemini replies body maxRetries onRetry).outcome ∧
    (∀ f : Callback, (fetchGemini replies body defaultMaxRetries (some f)).requests = 4 →
      (fetchGemini replies body defaultMaxRetries (some f)).calls = [(3, 1), (6, 2), (10, 3)] ∧
        (fetchGemini replies body defaultMaxRetries (some f)).waits = [3000, 6000, 10000]) ∧
    (∀ f : Callback, body.stringifyError = none →
      (∀ a b x, x.stringifyError = none →
        ∃ next, f a b x = .returned next ∧ next.stringifyError = none) →
      (∀ i, i ≤ 3 → ∃ answer error,
        replies i = .data answer (some error) ∧ error.code = some 429) →
      (fetchGemini replies body defaultMaxRetries (some f)).calls = [(3, 1), (6, 2), (10, 3)] ∧
        (fetchGemini replies body defaultMaxRetries (some f)).waits = [3000, 6000, 10000] ∧
        (fetchGemini replies body defaultMaxRetries (some f)).requests = 4 ∧
        (fetchGemini replies body defaultMaxRetries (some f)).events
          = [.request, .callback 3 1, .sleep 3000, .request, .callback 6 2, .sleep 6000,
              .request, .callback 10 3, .sleep 10000, .request]) := by
  have hfuel : (maxRetries + 1 - ((0 : Nat) : Int)).toNat < (maxRetries + 1).toNat + 1 := by
    simp
  obtain ⟨h1, h2, h3, h3', _, h5, h6⟩ :=
    fetchLoop_schedule replies maxRetries onRetry ((maxRetries + 1).toNat + 1) 0 body hfuel
  have hev := fetchLoop_events replies maxRetries onRetry ((maxRetries + 1).toNat + 1) 0 body
  refine ⟨waitMs_values, ?_, h3, h3', ?_, ?_, ?_, ?_⟩
  · unfold fetchGemini
    simpa using h1
  · intro f hf
    refine ⟨?_, (h5 (by simp [hf])).1, (h5 (by simp [hf])).2, h6 f hf⟩
    unfold fetchGemini
    have h2' := h2
    simp only [Nat.zero_add, roundSeconds_waitMs_div] at h2'
    exact h2'
  · unfold fetchGemini
    simpa using hev
  · intro f h4
    have hfuel' : (defaultMaxRetries + 1 - ((0 : Nat) : Int)).toNat
        < (defaultMaxRetries + 1).toNat + 1 := by simp
    obtain ⟨k1, k2, k3, k3', _, k5, _⟩ := fetchLoop_schedule replies defaultMaxRetries
      (some f) ((defaultMaxRetries + 1).toNat + 1) 0 body hfuel'
    obtain ⟨b1, b2⟩ := fetchLoop_retries_bounded replies defaultMaxRetries (some f)
      ((defaultMaxRetries + 1).toNat + 1) 0 body
    unfold fetchGemini at h4 ⊢
    have hb1 : (fetchLoop replies defaultMaxRetries (some f)
        ((defaultMaxRetries + 1).toNat + 1) 0 body).waits.length ≤ 3 := by
      simpa [defaultMaxRetries] using b1
    have hb2 : (fetchLoop replies defaultMaxRetries (some f)
        ((defaultMaxRetries + 1).toNat + 1) 0 body).calls.length ≤ 3 := by
      simpa [defaultMaxRetries] using b2
    have hwl : (fetchLoop replies defaultMaxRetries (some f)
        ((defaultMaxRetries + 1).toNat + 1) 0 body).waits.length = 3 := by
      by_cases hs : ∃ m, (fetchLoop replies defaultMaxRetries (some f)
          ((defaultMaxRetries + 1).toNat + 1) 0 body).outcome = .stringifyThrew m
      · obtain ⟨m, hm⟩ := hs
        have := k3' m hm
        omega
      · have := k3 (fun m hm => hs ⟨m, hm⟩)
        omega
    have hcl : (fetchLoop replies defaultMaxRetries (some f)
        ((defaultMaxRetries + 1).toNat + 1) 0 body).calls.length = 3 := by
      have := (k5 rfl).1
      omega
    rw [hwl] at k1
    rw [hcl] at k2
    exact ⟨k2.trans (by decide), k1.trans (by decide)⟩
  · intro f hbody hf hall
    have hkeep : ∀ a b, f a b body = .returned body := by
      intro a b
      obtain ⟨next, hn, hs⟩ := hf a b body hbody
      rw [hn, body_eq_of_serialisable next body hs hbody]
    obtain ⟨b0, e0, r0, c0⟩ := hall 0 (by omega)
    obtain ⟨b1, e1, r1, c1⟩ := hall 1 (by omega)
    obtain ⟨b2, e2, r2, c2⟩ := hall 2 (by omega)
    obtain ⟨b3, e3, r3, c3⟩ := hall 3 (by omega)
    simp [fetchGemini, defaultMaxRetries, fetchLoop, r0, r1, r2, r3, c0, c1, c2, c3, hkeep,
      hbody, waitMs, delays, roundSeconds]

/-- C20 (witness): a service that is always rate limited, called with the default 3
retries and a callback that never raises and leaves `body` alone. -/
theorem retry_schedule_witness :
    fetchGemini alwaysRateLimited plainBody defaultMaxRetries (some quietCallback)
        = { outcome := .threw { code := some 429, message := "quota 3" },
            requests := 4, waits := [3000, 6000, 10000],
            calls := [(3, 1), (6, 2), (10, 3)],
            events := [.request, .callback 3 1, .sleep 3000, .request, .callback 6 2,
              .sleep 6000, .request, .callback 10 3, .sleep 10000, .request] } ∧
      (fetchGemini alwaysRateLimited plainBody defaultMaxRetries (some quietCallback)).calls
        = [(3, 1), (6, 2), (10, 3)] ∧
      (fetchGemini alwaysRateLimited plainBody defaultMaxRetries (some quietCallback)).waits
        = [3000, 6000, 10000] ∧
      (fetchGemini alwaysRateLimited plainBody defaultMaxRetries (some quietCallback)).requests
        = 4 ∧
      (fetchGemini alwaysRateLimited plainBody defaultMaxRetries (some quietCallback)).events
        = [.request, .callback 3 1, .sleep 3000, .request, .callback 6 2, .sleep 6000,
            .request, .callback 10 3, .sleep 10000, .request] :=
  ⟨by decide,
   (retry_schedule alwaysRateLimited plainBody defaultMaxRetries
      (some quietCallback)).2.2.2.2.2.2.2
     quietCallback rfl (fun _ _ x hx => ⟨x, rfl, hx⟩)
     (fun i _ => ⟨"", { code := some 429, message := s!"quota {i}" }, rfl, rfl⟩)⟩

/-! ## What the retry wrapper returns and throws -/

/-- With a callback that returns normally and leaves `body` serialisable (or none), a pass
that meets a rate-limit answer while retries are left continues with the next pass. -/
theorem fetchLoop_retry (replies : Nat → Reply) (maxRetries : Int)
    (onRetry : Option Callback)
    (hq : ∀ f, onRetry = some f → ∀ a b x, x.stringifyError = none →
      ∃ next, f a b x = .returned next ∧ next.stringifyError = none)
    (fuel attempt : Nat) (body : Body) (hbody : body.stringifyError = none)
    (hlt : (attempt : Int) < maxRetries)
    (h429 : ∃ answer error,
      replies attempt = .data answer (some error) ∧ error.code = some 429) :
    (fetchLoop replies maxRetries onRetry (fuel + 1) attempt body).outcome
        = (fetchLoop replies maxRetries onRetry fuel (attempt + 1) body).outcome ∧
      (fetchLoop replies maxRetries onRetry (fuel + 1) attempt body).requests
        = (fetchLoop replies maxRetries onRetry fuel (attempt + 1) body).requests + 1 ∧
      (fetchLoop replies maxRetries onRetry (fuel + 1) attempt body).waits
        = waitMs attempt
          :: (fetchLoop replies maxRetries onRetry fuel (attempt + 1) body).waits := by
  obtain ⟨answer, error, hr, hc⟩ := h429
  rcases fetchLoop_succ replies maxRetries onRetry fuel attempt body with
    ⟨h1, _⟩ | ⟨_, message, h2, _⟩ | ⟨_, _, reason, h2, _⟩ | ⟨_, _, b, h2, _⟩ |
    ⟨_, _, b, e, h2, h3, _⟩ | ⟨_, _, b, e, f, reason, _, _, h4, h5, _⟩ |
    ⟨_, _, b, e, next, _, _, h4, h5⟩
  · exact absurd (le_of_lt hlt) h1
  · rw [hbody] at h2; cases h2
  · rw [hr] at h2; cases h2
  · rw [hr] at h2; cases h2
  · rw [hr] at h2
    cases h2
    exact absurd ⟨hc, hlt⟩ h3
  · obtain ⟨next, hn, _⟩ := hq f h4 _ _ body hbody
    rw [hn] at h5
    cases h5
  · have hnext : next = body := by
      rcases h4 with ⟨_, h4⟩ | ⟨f, ho, hf⟩
      · exact h4
      · obtain ⟨next', hn, hs⟩ := hq f ho _ _ body hbody
        rw [hn] at hf
        cases hf
        exact body_eq_of_serialisable _ _ hs hbody
    subst hnext
    rw [h5]
    exact ⟨rfl, rfl, rfl⟩

theorem fetchLoop_after_retries (replies : Nat → Reply) (maxRetries : Int)
    (onRetry : Option Callback)
    (hq : ∀ f, onRetry = some f → ∀ a b x, x.stringifyError = none →
      ∃ next, f a b x = .returned next ∧ next.stringifyError = none)
    (body : Body) (hbody : body.stringifyError = none) (n : Nat) :
    ∀ fuel attempt : Nat, ((attempt + n : Nat) : Int) ≤ maxRetries →
      (∀ i, i < n → ∃ answer error,
        replies (attempt + i) = .data answer (some error) ∧ error.code = some 429) →
      (fetchLoop replies maxRetries onRetry (fuel + n) attempt body).outcome
          = (fetchLoop replies maxRetries onRetry fuel (attempt + n) body).outcome ∧
        (fetchLoop replies maxRetries onRetry (fuel + n) attempt body).requests
          = (fetchLoop replies maxRetries onRetry fuel (attempt + n) body).requests + n := by
  induction n with
  | zero => intro fuel attempt _ _; exact ⟨rfl, rfl⟩
  | succ n ih =>
    intro fuel attempt hle h429
    have hlt : (attempt : Int) < maxRetries := by push_cast at hle; omega
    obtain ⟨h1, h2, _⟩ := fetchLoop_retry replies maxRetries onRetry hq (fuel + n) attempt
      body hbody hlt (by simpa using h429 0 (by omega))
    have hle' : ((attempt + 1 + n : Nat) : Int) ≤ maxRetries := by push_cast at hle ⊢; omega
    obtain ⟨h3, h4⟩ := ih fuel (attempt + 1) hle' (by
      intro i hi
      have := h429 (i + 1) (by omega)
      rw [show attempt + (i + 1) = attempt + 1 + i by omega] at this
      exact this)
    have e1 : fuel + (n + 1) = fuel + n + 1 := rfl
    have e2 : attempt + (n + 1) = attempt + 1 + n := by omega
    rw [e1, e2, h1, h2, h3, h4]
    exact ⟨rfl, by omega⟩

/-- C21 (amended): for every `maxRetries >= 0`, every `body` that `JSON.stringify`
serialises and every callback that returns normally and leaves `body` serialisable (or
no callback), `fetchGemini` returns the first answer that carries no error, provided
every earlier answer was a 429 error and fewer than `maxRetries + 1` requests preceded
it; and when `maxRetries + 1` consecutive answers are 429 errors it throws the error of
the last of them. -/
theorem fetchGemini_returns_first_ok (replies : Nat → Reply) (body : Body) (maxRetries : Int)
    (onRetry : Option Callback) (hbody : body.stringifyError = none)
    (hq : ∀ f, onRetry = some f → ∀ a b x, x.stringifyError = none →
      ∃ next, f a b x = .returned next ∧ next.stringifyError = none) :
    (∀ (n : Nat) (answer : String), (n : Int) ≤ maxRetries →
      (∀ i, i < n → ∃ b error, replies i = .data b (some error) ∧ error.code = some 429) →
      replies n = .data answer none →
      (fetchGemini replies body maxRetries onRetry).outcome = .returned answer ∧
        (fetchGemini replies body maxRetries onRetry).requests = n + 1) ∧
    (∀ (n : Nat) (answer : String) (last : GeminiError), (n : Int) = maxRetries →
      (∀ i, i < n → ∃ b error, replies i = .data b (some error) ∧ error.code = some 429) →
      replies n = .data answer (some last) →
      (fetchGemini replies body maxRetries onRetry).outcome = .threw last ∧
        (fetchGemini replies body maxRetries onRetry).requests = n + 1) := by
  have hfuel : ∀ n : Nat, (n : Int) ≤ maxRetries →
      ∃ k, (maxRetries + 1).toNat + 1 = k + 1 + n := by
    intro n hn
    exact ⟨(maxRetries + 1).toNat - n, by omega⟩
  refine ⟨?_, ?_⟩
  · intro n answer hn h429 hok
    obtain ⟨k, hk⟩ := hfuel n hn
    obtain ⟨h1, h2⟩ := fetchLoop_after_retries replies maxRetries onRetry hq body hbody n
      (k + 1) 0 (by simpa using hn) (by simpa using h429)
    simp only [Nat.zero_add] at h1 h2
    unfold fetchGemini
    rw [hk, h1, h2]
    have hpass : fetchLoop replies maxRetries onRetry (k + 1) n body
        = { outcome := .returned answer, requests := 1, waits := [], calls := [],
            events := [.request] } := by
      simp [fetchLoop, hn, hok, hbody]
    rw [hpass]
    exact ⟨rfl, Nat.add_comm 1 n⟩
  · intro n answer last hn h429 hlast
    obtain ⟨k, hk⟩ := hfuel n (le_of_eq hn)
    obtain ⟨h1, h2⟩ := fetchLoop_after_retries replies maxRetries onRetry hq body hbody n
      (k + 1) 0 (by simpa using le_of_eq hn) (by simpa using h429)
    simp only [Nat.zero_add] at h1 h2
    unfold fetchGemini
    rw [hk, h1, h2]
    have hpass : fetchLoop replies maxRetries onRetry (k + 1) n body
        = { outcome := .threw last, requests := 1, waits := [], calls := [],
            events := [.request] } := by
      simp [fetchLoop, hn, hlast, hbody]
    rw [hpass]
    exact ⟨rfl, Nat.add_comm 1 n⟩

/-- C21 (witness): a rate-limit answer followed by an answer without error is returned
after two requests; four rate-limit answers with 3 retries throw the fourth error. -/
theorem fetchGemini_returns_first_ok_witness :
    ((fetchGemini rateLimitedThenOk plainBody defaultMaxRetries (some quietCallback)).outcome
          = .returned "answer" ∧
        (fetchGemini rateLimitedThenOk plainBody defaultMaxRetries (some quietCallback)).requests
          = 1 + 1) ∧
      ((fetchGemini alwaysRateLimited plainBody defaultMaxRetries none).outcome
          = .threw { code := some 429, message := "quota 3" } ∧
        (fetchGemini alwaysRateLimited plainBody defaultMaxRetries none).requests = 3 + 1) :=
  ⟨(fetchGemini_returns_first_ok rateLimitedThenOk plainBody defaultMaxRetries
      (some quietCallback) rfl
      (fun f hf a b x hx => by cases hf; exact ⟨x, rfl, hx⟩)).1 1 "answer" (by decide)
      (fun i hi => by
        have : i = 0 := by omega
        subst this
        exact ⟨"", _, rfl, rfl⟩) rfl,
   (fetchGemini_returns_first_ok alwaysRateLimited plainBody defaultMaxRetries none rfl
      (fun f hf => by cases hf)).2 3 "" { code := some 429, message := "quota 3" } rfl
      (fun i _ => ⟨"", _, rfl, rfl⟩) (by decide)⟩

/-- C21 (counterexample): with a callback that raises, the answer without error that
follows one rate-limit answer is never returned, and four rate-limit answers do not end
in the error of the last of them: both calls end after one request with the exception
of the callback.  With a callback that returns normally after making `body` refer to
itself, the second request is never issued either: the call ends with the exception of
`JSON.stringify`. -/
theorem raising_callback_counterexample :
    fetchGemini rateLimitedThenOk plainBody defaultMaxRetries (some raisingCallback)
        = { outcome := .callbackThrew "callback failed", requests := 1, waits := [],
            calls := [(3, 1)], events := [.request, .callback 3 1] } ∧
      fetchGemini alwaysRateLimited plainBody defaultMaxRetries (some raisingCallback)
        = { outcome := .callbackThrew "callback failed", requests := 1, waits := [],
            calls := [(3, 1)], events := [.request, .callback 3 1] } ∧
      fetchGemini rateLimitedThenOk plainBody defaultMaxRetries (some circularCallback)
        = { outcome := .stringifyThrew "Converting circular structure to JSON",
            requests := 1, waits := [3000], calls := [(3, 1)],
            events := [.request, .callback 3 1, .sleep 3000] } := by
  decide

/-! ## The callback and the course of a call -/

theorem fetchLoop_terminal (replies : Nat → Reply) (maxRetries : Int)
    (onRetry : Option Callback) (fuel attempt : Nat) (body : Body)
    (h : ¬ ((attempt : Int) < maxRetries ∧ body.stringifyError = none ∧ ∃ answer error,
      replies attempt = .data answer (some error) ∧ error.code = some 429)) :
    fetchLoop replies maxRetries onRetry (fuel + 1) attempt body
      = fetchLoop replies maxRetries none (fuel + 1) attempt body := by
  by_cases hle : (attempt : Int) ≤ maxRetries
  · cases hs : body.stringifyError with
    | some message => simp [fetchLoop, hle, hs]
    | none =>
      cases hr : replies attempt with
      | rejected reason => simp [fetchLoop, hle, hs, hr]
      | data answer error =>
        cases error with
        | none => simp [fetchLoop, hle, hs, hr]
        | some err =>
          have hc : ¬ (err.code = some 429 ∧ (attempt : Int) < maxRetries) :=
            fun hc => h ⟨hc.2, hs, answer, err, hr, hc.1⟩
          simp [fetchLoop, hle, hs, hr, hc]
  · simp [fetchLoop, hle]

theorem fetchLoop_quiet (replies : Nat → Reply) (maxRetries : Int)
    (onRetry : Option Callback)
    (hq : ∀ f, onRetry = some f → ∀ a b x, x.stringifyError = none →
      ∃ next, f a b x = .returned next ∧ next.stringifyError = none)
    (fuel attempt : Nat) (body : Body) :
    (fetchLoop replies maxRetries onRetry fuel attempt body).outcome
        = (fetchLoop replies maxRetries none fuel attempt body).outcome ∧
      (fetchLoop replies maxRetries onRetry fuel attempt body).requests
        = (fetchLoop replies maxRetries none fuel attempt body).requests ∧
      (fetchLoop replies maxRetries onRetry fuel attempt body).waits
        = (fetchLoop replies maxRetries none fuel attempt body).waits := by
  induction fuel generalizing attempt with
  | zero => exact ⟨rfl, rfl, rfl⟩
  | succ fuel ih =>
    by_cases h : (attempt : Int) < maxRetries ∧ body.stringifyError = none ∧ ∃ answer error,
        replies attempt = .data answer (some error) ∧ error.code = some 429
    · obtain ⟨a1, a2, a3⟩ := fetchLoop_retry replies maxRetries onRetry hq fuel attempt body
        h.2.1 h.1 h.2.2
      obtain ⟨b1, b2, b3⟩ := fetchLoop_retry replies maxRetries none
        (fun f hf => by cases hf) fuel attempt body h.2.1 h.1 h.2.2
      obtain ⟨i1, i2, i3⟩ := ih (attempt + 1)
      rw [a1, a2, a3, b1, b2, b3, i1, i2, i3]
      exact ⟨rfl, rfl, rfl⟩
    · rw [fetchLoop_terminal replies maxRetries onRetry fuel attempt body h]
      exact ⟨rfl, rfl, rfl⟩

/-- C22 (amended): for every sequence of answers, every `body` and every two callbacks
that return normally and leave a serialisable `body` serialisable (including no callback
at all), the two calls issue the same number of requests, wait the same durations and
end with the same returned answer or the same thrown error. -/
theorem callbacks_do_not_steer (replies : Nat → Reply) (body : Body) (maxRetries : Int)
    (onRetry₁ onRetry₂ : Option Callback)
    (h₁ : ∀ f, onRetry₁ = some f → ∀ a b x, x.stringifyError = none →
      ∃ next, f a b x = .returned next ∧ next.stringifyError = none)
    (h₂ : ∀ f, onRetry₂ = some f → ∀ a b x, x.stringifyError = none →
      ∃ next, f a b x = .returned next ∧ next.stringifyError = none) :
    (fetchGemini replies body maxRetries onRetry₁).outcome
        = (fetchGemini replies body maxRetries onRetry₂).outcome ∧
      (fetchGemini replies body maxRetries onRetry₁).requests
        = (fetchGemini replies body maxRetries onRetry₂).requests ∧
      (fetchGemini replies body maxRetries onRetry₁).waits
        = (fetchGemini replies body maxRetries onRetry₂).waits := by
  obtain ⟨a1, a2, a3⟩ :=
    fetchLoop_quiet replies maxRetries onRetry₁ h₁ ((maxRetries + 1).toNat + 1) 0 body
  obtain ⟨b1, b2, b3⟩ :=
    fetchLoop_quiet replies maxRetries onRetry₂ h₂ ((maxRetries + 1).toNat + 1) 0 body
  unfold fetchGemini
  rw [a1, a2, a3, b1, b2, b3]
  exact ⟨rfl, rfl, rfl⟩

/-- C22 (witness): with and without a callback that never raises and leaves `body` alone,
four rate-limit answers give four requests, the waits 3000, 6000, 10000 and the fourth
error thrown. -/
theorem callbacks_do_not_steer_witness :
    fetchGemini alwaysRateLimited plainBody defaultMaxRetries none
        = { outcome := .threw { code := some 429, message := "quota 3" },
            requests := 4, waits := [3000, 6000, 10000], calls := [],
            events := [.request, .sleep 3000, .request, .sleep 6000, .request,
              .sleep 10000, .request] } ∧
      ((fetchGemini alwaysRateLimited plainBody defaultMaxRetries (some statusCallback)).outcome
          = (fetchGemini alwaysRateLimited plainBody defaultMaxRetries none).outcome ∧
        (fetchGemini alwaysRateLimited plainBody defaultMaxRetries (some statusCallback)).requests
          = (fetchGemini alwaysRateLimited plainBody defaultMaxRetries none).requests ∧
        (fetchGemini alwaysRateLimited plainBody defaultMaxRetries (some statusCallback)).waits
          = (fetchGemini alwaysRateLimited plainBody defaultMaxRetries none).waits) :=
  ⟨by decide,
   callbacks_do_not_steer alwaysRateLimited plainBody defaultMaxRetries (some statusCallback)
     none (fun f hf a b x hx => by cases hf; exact ⟨x, rfl, hx⟩) (fun f hf => by cases hf)⟩

/-- C22 (counterexample): on four rate-limit answers a callback that raises ends the call
after one request, without any wait, with its own exception, and a callback that returns
normally after making `body` refer to itself ends it after one request and one wait with
the exception of `JSON.stringify`; without callback the call issues four requests,
waits three times and throws the fourth error. -/
theorem callback_steers_counterexample :
    ((fetchGemini alwaysRateLimited plainBody defaultMaxRetries (some raisingCallback)).requests
        = 1 ∧
      (fetchGemini alwaysRateLimited plainBody defaultMaxRetries (some raisingCallback)).waits
        = [] ∧
      (fetchGemini alwaysRateLimited plainBody defaultMaxRetries (some raisingCallback)).outcome
        = .callbackThrew "callback failed") ∧
    ((fetchGemini alwaysRateLimited plainBody defaultMaxRetries (some circularCallback)).requests
        = 1 ∧
      (fetchGemini alwaysRateLimited plainBody defaultMaxRetries (some circularCallback)).waits
        = [3000] ∧
      (fetchGemini alwaysRateLimited plainBody defaultMaxRetries (some circularCallback)).outcome
        = .stringifyThrew "Converting circular structure to JSON") ∧
    ((fetchGemini alwaysRateLimited plainBody defaultMaxRetries none).requests = 4 ∧
      (fetchGemini alwaysRateLimited plainBody defaultMaxRetries none).waits
        = [3000, 6000, 10000] ∧
      (fetchGemini alwaysRateLimited plainBody defaultMaxRetries none).outcome
        = .threw { code := some 429, message := "quota 3" }) := by
  decide

theorem fetchLoop_ends (replies : Nat → Reply) (maxRetries : Int)
    (onRetry : Option Callback) (fuel attempt : Nat) (body : Body)
    (hfuel : (maxRetries + 1 - attempt).toNat < fuel) (hle : (attempt : Int) ≤ maxRetries) :
    (fetchLoop replies maxRetries onRetry fuel attempt body).outcome ≠ .undefined ∧
    (fetchLoop replies maxRetries onRetry fuel attempt body).outcome ≠ .outOfFuel ∧
    (∀ answer,
      (fetchLoop replies maxRetries onRetry fuel attempt body).outcome = .returned answer →
      ∃ i, replies (attempt + i) = .data answer none ∧
        (fetchLoop replies maxRetries onRetry fuel attempt body).requests = i + 1) := by
  induction fuel generalizing attempt body with
  | zero => omega
  | succ fuel ih =>
    rcases fetchLoop_succ replies maxRetries onRetry fuel attempt body with
      ⟨h1, _⟩ | ⟨_, message, _, h3⟩ | ⟨_, _, reason, _, h3⟩ | ⟨_, _, answer, h2, h3⟩ |
      ⟨_, _, answer, err, _, _, h4⟩ | ⟨_, _, answer, err, f, reason, _, _, _, _, h6⟩ |
      ⟨h1, _, answer, err, next, _, _, _, h5⟩
    · exact absurd hle h1
    · rw [h3]
      refine ⟨by simp, by simp, ?_⟩
      intro b hb
      cases hb
    · rw [h3]
      refine ⟨by simp, by simp, ?_⟩
      intro b hb
      cases hb
    · rw [h3]
      refine ⟨by simp, by simp, ?_⟩
      intro b hb
      cases hb
      exact ⟨0, h2, rfl⟩
    · rw [h4]
      refine ⟨by simp, by simp, ?_⟩
      intro b hb
      cases hb
    · rw [h6]
      refine ⟨by simp, by simp, ?_⟩
      intro b hb
      cases hb
    · obtain ⟨i1, i2, i3⟩ := ih (attempt + 1) next (by push_cast; omega) (by push_cast; omega)
      rw [h5]
      refine ⟨i1, i2, ?_⟩
      intro b hb
      obtain ⟨i, hi1, hi2⟩ := i3 b hb
      refine ⟨i + 1, ?_, ?_⟩
      · rw [show attempt + (i + 1) = attempt + 1 + i by omega]
        exact hi1
      · simp only []
        omega

/-- C30: for every `maxRetries >= 0` and every sequence of answers `fetchGemini` ends by
returning an answer that carries no error, or by throwing: the error of an answer, the
rejection of a request, the exception of the callback, or the exception of
`JSON.stringify(body)`; it never ends without a value.  For a negative `maxRetries` it
issues no request and ends without a value and without throwing. -/
theorem fetchGemini_ends (replies : Nat → Reply) (body : Body) (maxRetries : Int)
    (onRetry : Option Callback) :
    (0 ≤ maxRetries →
      (fetchGemini replies body maxRetries onRetry).outcome ≠ .undefined ∧
      (fetchGemini replies body maxRetries onRetry).outcome ≠ .outOfFuel ∧
      ((∃ answer i, (fetchGemini replies body maxRetries onRetry).outcome = .returned answer ∧
            replies i = .data answer none ∧
            (fetchGemini replies body maxRetries onRetry).requests = i + 1) ∨
        (∃ error, (fetchGemini replies body maxRetries onRetry).outcome = .threw error) ∨
        (∃ reason, (fetchGemini replies body maxRetries onRetry).outcome = .rejected reason) ∨
        (∃ reason,
          (fetchGemini replies body maxRetries onRetry).outcome = .callbackThrew reason) ∨
        (∃ message,
          (fetchGemini replies body maxRetries onRetry).outcome = .stringifyThrew message))) ∧
    (maxRetries < 0 →
      fetchGemini replies body maxRetries onRetry
        = { outcome := .undefined, requests := 0, waits := [], calls := [], events := [] }) := by
  refine ⟨?_, ?_⟩
  · intro h0
    have hfuel : (maxRetries + 1 - ((0 : Nat) : Int)).toNat < (maxRetries + 1).toNat + 1 := by
      simp
    obtain ⟨h1, h2, h3⟩ := fetchLoop_ends replies maxRetries onRetry
      ((maxRetries + 1).toNat + 1) 0 body hfuel (by simpa using h0)
    unfold fetchGemini
    refine ⟨h1, h2, ?_⟩
    cases ho : (fetchLoop replies maxRetries onRetry ((maxRetries + 1).toNat + 1) 0
        body).outcome with
    | returned answer =>
      left
      obtain ⟨i, hi1, hi2⟩ := h3 answer ho
      exact ⟨answer, i, rfl, by simpa using hi1, hi2⟩
    | threw error => exact Or.inr (Or.inl ⟨error, rfl⟩)
    | rejected reason => exact Or.inr (Or.inr (Or.inl ⟨reason, rfl⟩))
    | callbackThrew reason => exact Or.inr (Or.inr (Or.inr (Or.inl ⟨reason, rfl⟩)))
    | stringifyThrew message => exact Or.inr (Or.inr (Or.inr (Or.inr ⟨message, rfl⟩)))
    | undefined => exact absurd ho h1
    | outOfFuel => exact absurd ho h2
  · intro hneg
    unfold fetchGemini
    rcases fetchLoop_succ replies maxRetries onRetry (maxRetries + 1).toNat 0 body with
      ⟨_, h2⟩ | ⟨h1, _⟩ | ⟨h1, _⟩ | ⟨h1, _⟩ | ⟨h1, _⟩ | ⟨h1, _⟩ | ⟨h1, _⟩
    · exact h2
    all_goals
      exfalso
      push_cast at h1
      omega

/-- C30 (witness): with `maxRetries = 3` a rate-limit answer followed by an answer without
error ends by returning that answer; with `maxRetries = -1` no request is issued and the
call ends without a value. -/
theorem fetchGemini_ends_witness :
    fetchGemini rateLimitedThenOk plainBody defaultMaxRetries none
        = { outcome := .returned "answer", requests := 2, waits := [3000], calls := [],
            events := [.request, .sleep 3000, .request] } ∧
      (fetchGemini rateLimitedThenOk plainBody defaultMaxRetries none).outcome ≠ .undefined ∧
      fetchGemini alwaysRateLimited plainBody (-1) none
        = { outcome := .undefined, requests := 0, waits := [], calls := [], events := [] } :=
  ⟨by decide,
   ((fetchGemini_ends rateLimitedThenOk plainBody defaultMaxRetries none).1 (by decide)).1,
   (fetchGemini_ends alwaysRateLimited plainBody (-1) none).2 (by decide)⟩

/-! ## Classification failures and argument checks -/

theorem truthy_eq_none (o : Option String) : truthy o = none ↔ o = none ∨ o = some "" := by
  cases o with
  | none => simp [truthy]
  | some v =>
    by_cases h : v = ""
    · simp [truthy, h]
    · simp [truthy, h]

theorem classifyFields_invalid (imageUrl reportId apiKey : Option String) (ext : Externals)
    (h : truthy imageUrl = none ∨ truthy reportId = none) :
    classifyFields imageUrl reportId apiKey ext
      = (.error (.https
           { code := "invalid-argument", message := "imageUrl and reportId are required." }), []) := by
  unfold classifyFields
  cases hu : truthy imageUrl with
  | none => rfl
  | some url =>
    cases hi : truthy reportId with
    | none => rfl
    | some id =>
      rw [hu, hi] at h
      rcases h with h | h <;> cases h

/-- Once its arguments and the key have passed the checks, `classifyWaste` either writes the
classification and returns it, or ends in the `catch` block: it answers with the
`internal` error and its last effect is the update to `ai_failed` with the message of
the error raised; when that update goes through, the report holds status `ai_failed`
and the message, and its other fields, wasteType and severity among them, are as they
were. -/
theorem classifyFields_failure_writes_ai_failed (imageUrl reportId apiKey : Option String)
    (ext : Externals) (url id key : String) (doc : ReportDoc)
    (hu : truthy imageUrl = some url) (hi : truthy reportId = some id)
    (hk : truthy apiKey = some key) :
    (∃ c, classifyFields imageUrl reportId apiKey ext
        = (.ok c, [.download url, .modelCall, .update id (.classified c) true])) ∨
    (∃ message done,
      classifyFields imageUrl reportId apiKey ext
        = (.error (.https
             { code := "internal", message := "Classification failed: " ++ message }),
           done ++ [.update id (.aiFailed message)
             (ext.update id (.aiFailed message)).isNone]) ∧
      (∀ e ∈ done, ∀ i u, e ≠ .update i u true) ∧
      (ext.update id (.aiFailed message) = none →
        applyEffects id doc (classifyFields imageUrl reportId apiKey ext).2
          = { doc with status := some "ai_failed", error := some message })) := by
  have hdone : ∀ (message : String) (done : List Effect),
      (∀ e ∈ done, ∀ i u, e ≠ .update i u true) →
      classifyFields imageUrl reportId apiKey ext = catchBlock ext id message done →
      ∃ message done,
        classifyFields imageUrl reportId apiKey ext
          = (.error (.https
             { code := "internal", message := "Classification failed: " ++ message }),
             done ++ [.update id (.aiFailed message)
               (ext.update id (.aiFailed message)).isNone]) ∧
        (∀ e ∈ done, ∀ i u, e ≠ .update i u true) ∧
        (ext.update id (.aiFailed message) = none →
          applyEffects id doc (classifyFields imageUrl reportId apiKey ext).2
            = { doc with status := some "ai_failed", error := some message }) := by
    intro message done hnone heq
    refine ⟨message, done, heq, hnone, ?_⟩
    intro hok
    rw [heq]
    unfold catchBlock applyEffects
    simp only [List.foldl_append, List.foldl_cons, List.foldl_nil, hok, Option.isNone_none,
      if_true]
    have hskip : ∀ (l : List Effect) (d : ReportDoc), (∀ e ∈ l, ∀ i u, e ≠ .update i u true) →
        l.foldl (fun d e =>
          match e with
          | .update i fields true => if i = id then fields.apply d else d
          | _ => d) d = d := by
      intro l
      induction l with
      | nil => intro d _; rfl
      | cons e l ih =>
        intro d hl
        rw [List.foldl_cons]
        have he := hl e (List.mem_cons_self _ _)
        have hl' := fun e' he' => hl e' (List.mem_cons_of_mem _ he')
        cases e with
        | download _ => exact ih d hl'
        | modelCall => exact ih d hl'
        | update i u applied =>
          cases applied with
          | false => exact ih d hl'
          | true => exact absurd rfl (he i u)
    rw [hskip done doc hnone]
    rfl
  cases hd : ext.download with
  | some message =>
    right
    apply hdone message [.download url]
    · intro e he i u
      simp only [List.mem_singleton] at he
      rw [he]
      simp
    · simp [classifyFields, hu, hi, hk, hd]
  | none =>
    cases hc : ext.candidate with
    | error message =>
      right
      apply hdone message [.download url, .modelCall]
      · intro e he i u
        simp only [List.mem_cons, List.mem_singleton, List.mem_nil_iff, or_false] at he
        rcases he with he | he <;> rw [he] <;> simp
      · simp [classifyFields, hu, hi, hk, hd, hc]
    | ok text =>
      cases hp : ext.parse text with
      | error message =>
        right
        apply hdone message [.download url, .modelCall]
        · intro e he i u
          simp only [List.mem_cons, List.mem_singleton, List.mem_nil_iff, or_false] at he
          rcases he with he | he <;> rw [he] <;> simp
        · simp [classifyFields, hu, hi, hk, hd, hc, hp]
      | ok c =>
        cases hw : ext.update id (.classified c) with
        | some message =>
          right
          apply hdone message [.download url, .modelCall, .update id (.classified c) false]
          · intro e he i u
            simp only [List.mem_cons, List.mem_singleton, List.mem_nil_iff, or_false] at he
            rcases he with he | he | he <;> rw [he] <;> simp
          · simp [classifyFields, hu, hi, hk, hd, hc, hp, hw]
        | none =>
          left
          exact ⟨c, by simp [classifyFields, hu, hi, hk, hd, hc, hp, hw]⟩

/-- C23 (failing input): when the model answers with text that is not JSON, the in-page
flow of `handleSubmit` writes nothing: the report keeps status `pending_ai` and gets no
error message, where the claim has status `ai_failed` and a message for both flows.  On
the same failure `classifyWaste` does write status `ai_failed` with the message and
leaves wasteType and severity unset. -/
theorem handleSubmit_leaves_pending :
    handleSubmitClassify "r1" (.error "Unexpected token") (fun _ _ => none) = [] ∧
      applyEffects "r1" pendingDoc
          (handleSubmitClassify "r1" (.error "Unexpected token") (fun _ _ => none))
        = pendingDoc ∧
      pendingDoc.status = some "pending_ai" ∧ pendingDoc.error = none ∧
      applyEffects "r1" pendingDoc
          (classifyWaste (some { imageUrl := some "https://img", reportId := some "r1" })
            (some "key") notJson).2
        = { status := some "ai_failed", wasteType := none, confidence := none,
            severity := none, aiReason := none, error := some "Unexpected token" } := by
  decide

/-- C24 (amended): `classifyWaste` answers with the `invalid-argument` error exactly when
the request carries a data object in which imageUrl or reportId is missing or empty, and
then has no effect at all: no download, no model call, no write; a request without data
object ends with the `TypeError` of the destructuring, before the checks and without
any effect; when both fields are present and the API key is missing or empty it answers
with `failed-precondition`, again without any effect. -/
theorem classifyWaste_argument_checks (data : Option RequestData) (apiKey : Option String)
    (ext : Externals) :
    ((∃ m, (classifyWaste data apiKey ext).1
          = .error (.https { code := "invalid-argument", message := m })) ↔
      ∃ d, data = some d ∧
        (d.imageUrl = none ∨ d.imageUrl = some "" ∨ d.reportId = none ∨ d.reportId = some "")) ∧
    (∀ d, data = some d →
      (d.imageUrl = none ∨ d.imageUrl = some "" ∨ d.reportId = none ∨ d.reportId = some "") →
      (classifyWaste data apiKey ext).2 = []) ∧
    (data = none →
      (∃ m, (classifyWaste data apiKey ext).1 = .error (.typeError m)) ∧
        (classifyWaste data apiKey ext).2 = []) ∧
    (∀ d, data = some d →
      ¬ (d.imageUrl = none ∨ d.imageUrl = some "" ∨ d.reportId = none ∨ d.reportId = some "") →
      (apiKey = none ∨ apiKey = some "") →
      classifyWaste data apiKey ext
        = (.error (.https
             { code := "failed-precondition", message := "AI Service not configured." }), [])) := by
  have hargs : ∀ d : RequestData,
      (d.imageUrl = none ∨ d.imageUrl = some "" ∨ d.reportId = none ∨ d.reportId = some "")
      ↔ (truthy d.imageUrl = none ∨ truthy d.reportId = none) := by
    intro d
    rw [truthy_eq_none, truthy_eq_none]
    tauto
  refine ⟨⟨?_, ?_⟩, ?_, ?_, ?_⟩
  · rintro ⟨m, hm⟩
    cases data with
    | none => simp [classifyWaste] at hm
    | some d =>
      refine ⟨d, rfl, ?_⟩
      by_contra hn
      rw [hargs, not_or] at hn
      obtain ⟨url, hu⟩ := Option.ne_none_iff_exists'.1 hn.1
      obtain ⟨id, hi⟩ := Option.ne_none_iff_exists'.1 hn.2
      have hw : classifyWaste (some d) apiKey ext
          = classifyFields d.imageUrl d.reportId apiKey ext := rfl
      rw [hw] at hm
      cases hk : truthy apiKey with
      | none =>
        have heq : classifyFields d.imageUrl d.reportId apiKey ext
            = (.error (.https
                 { code := "failed-precondition", message := "AI Service not configured." }), []) := by
          simp [classifyFields, hu, hi, hk]
        rw [heq] at hm
        simp at hm
      | some key =>
        rcases classifyFields_failure_writes_ai_failed d.imageUrl d.reportId apiKey ext url id
          key pendingDoc hu hi hk with ⟨c, hc⟩ | ⟨message, done, hc, _, _⟩
        · rw [hc] at hm
          cases hm
        · rw [hc] at hm
          simp at hm
  · rintro ⟨d, rfl, h⟩
    have hw : classifyWaste (some d) apiKey ext
        = classifyFields d.imageUrl d.reportId apiKey ext := rfl
    rw [hw, classifyFields_invalid d.imageUrl d.reportId apiKey ext ((hargs d).1 h)]
    exact ⟨_, rfl⟩
  · rintro d rfl h
    have hw : classifyWaste (some d) apiKey ext
        = classifyFields d.imageUrl d.reportId apiKey ext := rfl
    rw [hw, classifyFields_invalid d.imageUrl d.reportId apiKey ext ((hargs d).1 h)]
  · rintro rfl
    exact ⟨⟨_, rfl⟩, rfl⟩
  · rintro d rfl h hkey
    rw [hargs, not_or] at h
    obtain ⟨url, hu⟩ := Option.ne_none_iff_exists'.1 h.1
    obtain ⟨id, hi⟩ := Option.ne_none_iff_exists'.1 h.2
    have hk : truthy apiKey = none := (truthy_eq_none apiKey).2 hkey
    simp [classifyWaste, classifyFields, hu, hi, hk]

/-- C24 (witness): a request whose data object lacks reportId is answered with
`invalid-argument`, and a request without API key with `failed-precondition`, both
without any effect. -/
theorem classifyWaste_argument_checks_witness :
    (classifyWaste (some { imageUrl := some "https://img", reportId := none }) (some "key")
        notJson).2 = [] ∧
      classifyWaste (some { imageUrl := some "https://img", reportId := some "r1" }) none
          notJson
        = (.error (.https
             { code := "failed-precondition", message := "AI Service not configured." }), []) :=
  ⟨(classifyWaste_argument_checks
      (some { imageUrl := some "https://img", reportId := none }) (some "key") notJson).2.1
      { imageUrl := some "https://img", reportId := none } rfl (Or.inr (Or.inr (Or.inl rfl))),
   (classifyWaste_argument_checks
      (some { imageUrl := some "https://img", reportId := some "r1" }) none notJson).2.2.2
      { imageUrl := some "https://img", reportId := some "r1" } rfl (by decide) (Or.inl rfl)⟩

/-- C24 (counterexample): a call without argument, whose `request.data` is `null`: imageUrl
and reportId are missing, yet the call does not fail with `invalid-argument`; line 12
raises a `TypeError` before the checks are reached. -/
theorem classifyWaste_without_data_counterexample :
    classifyWaste none (some "key") notJson
        = (.error
            (.typeError "Cannot destructure property imageUrl of request.data as it is null."),
           []) ∧
      ¬ ∃ m, (classifyWaste none (some "key") notJson).1
          = .error (.https { code := "invalid-argument", message := m }) := by
  refine ⟨rfl, ?_⟩
  rintro ⟨m, hm⟩
  simp [classifyWaste] at hm

/-- The points the application computes: ten per report of the user, on the home page and
on the profile page alike; they agree with the printed rule exactly when no report of
the user has been analysed or resolved. -/
theorem impact_points_count_reports (reports : List Report) :
    Home.userImpact reports = 10 * reports.length ∧
      Profile.impactPoints reports = 10 * reports.length ∧
      (Leaderboard.pointsRule reports = Home.userImpact reports ↔
        reports.countP (fun r => r.wasteType.isSome) = 0 ∧
          reports.countP (fun r => isResolved r) = 0) := by
  unfold Home.userImpact Profile.impactPoints Leaderboard.pointsRule
  refine ⟨by omega, by omega, ?_⟩
  constructor
  · intro h
    constructor <;> omega
  · rintro ⟨h1, h2⟩
    rw [h1, h2]
    omega

/-- C25 (failing input): for a user with one report that was analysed and resolved the home
page and the profile page show 10 points, where the rule the application prints gives
10 + 20 + 50 = 80. -/
theorem impact_points_ignore_analysis_and_resolution :
    Home.userImpact oneResolvedReport = 10 ∧
      Profile.impactPoints oneResolvedReport = 10 ∧
      Leaderboard.pointsRule oneResolvedReport = 80 := by
  decide

/-! ## Bounds on the penalty of an area -/

theorem severityPenalty_le (r : Report)
    (h : ∀ s, r.severity = some s → 1 ≤ s ∧ s ≤ 5) : severityPenalty r ≤ 5 := by
  unfold severityPenalty
  cases hs : r.severity with
  | none => simp
  | some s =>
    have := h s hs
    by_cases h0 : s = 0
    · simp [h0]
    · simp [h0]; exact this.2

theorem sum_map_bounds (l : List Report) (f : Report → Int) (lo hi : Int)
    (h : ∀ r ∈ l, lo ≤ f r ∧ f r ≤ hi) :
    lo * (l.length : Int) ≤ (l.map f).sum ∧ (l.map f).sum ≤ hi * (l.length : Int) := by
  induction l with
  | nil => simp
  | cons r l ih =>
    have h1 := h r (List.mem_cons_self _ _)
    have h2 := ih (fun x hx => h x (List.mem_cons_of_mem _ hx))
    simp only [List.map_cons, List.sum_cons, List.length_cons]
    push_cast
    constructor
    · linarith [h1.1, h2.1]
    · linarith [h1.2, h2.2]

/-- C28: when every present severity is an integer in [1,5], an aggregate of the Dashboard
aggregation whose area has u unresolved reports has penalty between 11*u and 15*u;
its score is at least 100 - 15*u, and is 0 whenever u >= 10. -/
theorem penalty_bounds (proto : List String) (reportsData : List Report)
    (hsev : ∀ r ∈ reportsData, ∀ s, r.severity = some s → 1 ≤ s ∧ s ≤ 5) :
    ∀ e ∈ sortedAreas proto reportsData, ∀ u : Nat,
      u = reportsData.countP
        (fun r => decide (r.area = some e.name ∧ r.status ≠ some "resolved")) →
      11 * (u : Int) ≤ e.penalty ∧ e.penalty ≤ 15 * (u : Int) ∧
        100 - 15 * (u : Int) ≤ e.score ∧ (10 ≤ u → e.score = 0) := by
  intro e he u hu
  obtain ⟨h1, h2, h3⟩ := penalty_of_mem proto reportsData e he
  rw [penaltySum_eq _ _ h1] at h2
  rw [List.countP_eq_length_filter] at hu
  have hb := sum_map_bounds
    (reportsData.filter (fun r => decide (r.area = some e.name ∧ r.status ≠ some "resolved")))
    (fun r => 10 + (if r.severity = none ∨ r.severity = some 0 then 2 else r.severity.getD 2))
    11 15 (by
      intro r hr
      have hr2 : r ∈ reportsData := List.mem_of_mem_filter hr
      have hlo := severityPenalty_pos r (hsev r hr2)
      have hhi := severityPenalty_le r (hsev r hr2)
      rw [severityPenalty_eq] at hlo hhi
      beta_reduce
      constructor <;> omega)
  rw [← h2, ← hu] at hb
  refine ⟨hb.1, hb.2, ?_, ?_⟩
  · rw [h3]
    exact le_trans (by omega) (le_max_right 0 (100 - e.penalty))
  · intro h10
    rw [h3]
    exact max_eq_left (by omega)

/-- C28 (witness): the three `Anna Nagar` reports, two of them unresolved, give penalty 28:
22 <= 28 <= 30, and the score 72 is at least 100 - 30. -/
theorem penalty_bounds_witness :
    sortedAreas [] annaNagar =
        [{ name := "Anna Nagar", reportCount := 3, penalty := 28, resolved := 1, score := 72 }] ∧
      (11 * ((2 : Nat) : Int) ≤ 28 ∧ (28 : Int) ≤ 15 * ((2 : Nat) : Int) ∧
        100 - 15 * ((2 : Nat) : Int) ≤ 72 ∧ (10 ≤ 2 → (72 : Int) = 0)) :=
  ⟨by decide,
   penalty_bounds [] annaNagar (by decide)
     { name := "Anna Nagar", reportCount := 3, penalty := 28, resolved := 1, score := 72 }
     (by decide) 2 (by decide)⟩

/-- C29: every aggregate the Dashboard aggregation produces has reportCount >= 1 and
resolved <= reportCount (both are counts, hence not negative), so the quotient of the
bar width has a non-zero denominator, and the width is (resolved / reportCount) * 100
and lies in [0, 100]. -/
theorem bar_width_in_range (proto : List String) (reportsData : List Report) :
    ∀ e ∈ sortedAreas proto reportsData,
      1 ≤ e.reportCount ∧ e.resolved ≤ e.reportCount ∧
        barWidth e = (e.resolved : ℚ) / (e.reportCount : ℚ) * 100 ∧
        0 ≤ barWidth e ∧ barWidth e ≤ 100 := by
  intro e he
  obtain ⟨_, h2, h3⟩ := mem_sortedAreas_closed proto reportsData e he
  have hc : e.reportCount = (areaReports e.name reportsData).length := by
    have h4 := congrArg AreaScore.reportCount h3
    rw [h4]
    simp only [withScore, bumpAll_reportCount, Nat.zero_add]
  have hr : e.resolved = (areaReports e.name reportsData).countP (fun r => isResolved r) := by
    have h4 := congrArg AreaScore.resolved h3
    rw [h4]
    simp only [withScore, bumpAll_resolved, Nat.zero_add]
  have hpos : 1 ≤ e.reportCount := by
    rw [hc]
    exact List.length_pos.2 h2
  have hle : e.resolved ≤ e.reportCount := by
    rw [hc, hr]
    exact List.countP_le_length _
  have hq : (0 : ℚ) < (e.reportCount : ℚ) := by exact_mod_cast hpos
  have hq2 : (e.resolved : ℚ) ≤ (e.reportCount : ℚ) := by exact_mod_cast hle
  have hq0 : (0 : ℚ) ≤ (e.resolved : ℚ) := Nat.cast_nonneg _
  have hdiv1 : (e.resolved : ℚ) / (e.reportCount : ℚ) ≤ 1 := (div_le_one hq).2 hq2
  have hdiv0 : 0 ≤ (e.resolved : ℚ) / (e.reportCount : ℚ) := div_nonneg hq0 (le_of_lt hq)
  have hw : barWidth e = (e.resolved : ℚ) / (e.reportCount : ℚ) * 100 := by
    unfold barWidth
    exact min_eq_right (by linarith)
  refine ⟨hpos, hle, hw, ?_, ?_⟩
  · rw [hw]; linarith
  · rw [hw]; linarith

/-- C29 (witness): the aggregate of the three `Anna Nagar` reports, one of them resolved,
has reportCount 3 and resolved 1, and its bar is (1 / 3) * 100 percent wide. -/
theorem bar_width_in_range_witness :
    sortedAreas [] annaNagar =
        [{ name := "Anna Nagar", reportCount := 3, penalty := 28, resolved := 1, score := 72 }] ∧
      (1 ≤ 3 ∧ 1 ≤ 3 ∧
        barWidth
            { name := "Anna Nagar", reportCount := 3, penalty := 28, resolved := 1, score := 72 }
          = ((1 : Nat) : ℚ) / ((3 : Nat) : ℚ) * 100 ∧
        0 ≤ barWidth
            { name := "Anna Nagar", reportCount := 3, penalty := 28, resolved := 1, score := 72 } ∧
        barWidth
            { name := "Anna Nagar", reportCount := 3, penalty := 28, resolved := 1, score := 72 }
          ≤ 100) :=
  ⟨by decide,
   bar_width_in_range [] annaNagar
     { name := "Anna Nagar", reportCount := 3, penalty := 28, resolved := 1, score := 72 }
     (by decide)⟩

/-! ## Home's penalties against the Dashboard's -/

theorem home_entry_iff (rs : List Report) (a : String) :
    (∃ h ∈ Home.areaMap rs, h.name = a) ↔
      a ≠ "" ∧ a ∉ objectPrototypeKeys ∧ ∃ r ∈ rs, r.area = some a := by
  constructor
  · rintro ⟨h, hh, rfl⟩
    obtain ⟨h1, h2, _⟩ := home_penalty_eq rs h hh
    refine ⟨h1, h2, ?_⟩
    obtain ⟨u, hu, hue⟩ := mem_home_areaMap rs h hh
    have hmem : withScore u ∈ sortedAreas [] (rs.map unresolve) :=
      (sortedAreas_perm [] (rs.map unresolve)).mem_iff.2 (List.mem_map.2 ⟨u, hu, rfl⟩)
    obtain ⟨_, h3, _⟩ := mem_sortedAreas_closed [] (rs.map unresolve) (withScore u) hmem
    obtain ⟨_, r, hr, hra⟩ := (areaReports_ne_nil_iff _ _).1 h3
    obtain ⟨r', hr', rfl⟩ := List.mem_map.1 hr
    refine ⟨r', hr', ?_⟩
    have hn : (withScore u).name = h.name := by rw [← hue]; rfl
    rw [← hn]
    exact hra
  · rintro ⟨ha, hin, r, hr, hra⟩
    have hocc : ∃ r' ∈ rs.map unresolve, r'.area = some a :=
      ⟨unresolve r, List.mem_map.2 ⟨r, hr, rfl⟩, hra⟩
    have hne : areaReports a (rs.map unresolve) ≠ [] := (areaReports_ne_nil_iff _ _).2 ⟨ha, hocc⟩
    have hcl := areaOf_closed [] (rs.map unresolve) a hin
    rw [if_neg hne] at hcl
    have hname : (withScore (bumpAll (areaReports a (rs.map unresolve))
        { name := a, reportCount := 0, penalty := 0, resolved := 0 })).name = a := by
      simp only [withScore, bumpAll_name]
    have hmem : withScore (bumpAll (areaReports a (rs.map unresolve))
        { name := a, reportCount := 0, penalty := 0, resolved := 0 })
        ∈ sortedAreas [] (rs.map unresolve) := by
      rw [mem_sortedAreas_iff, hname]
      exact hcl
    obtain ⟨u, hu, hue⟩ := List.mem_map.1
      ((sortedAreas_perm [] (rs.map unresolve)).mem_iff.1 hmem)
    refine ⟨toFocus u, ?_, ?_⟩
    · rw [home_areaMap_eq]
      exact List.mem_map.2 ⟨u, hu, rfl⟩
    · have hn : (toFocus u).name = (withScore u).name := rfl
      rw [hn, hue, hname]

theorem dashboard_entry_iff (proto : List String) (rs : List Report) (a : String) :
    (∃ d ∈ sortedAreas proto rs, d.name = a) ↔
      a ≠ "" ∧ a ∉ objectPrototypeKeys ∧ ∃ r ∈ rs, r.area = some a := by
  constructor
  · rintro ⟨d, hd, rfl⟩
    obtain ⟨h1, h2, _⟩ := mem_sortedAreas_closed proto rs d hd
    obtain ⟨h3, h4⟩ := (areaReports_ne_nil_iff _ _).1 h2
    exact ⟨h3, h1, h4⟩
  · rintro ⟨ha, hin, hocc⟩
    have hne : areaReports a rs ≠ [] := (areaReports_ne_nil_iff _ _).2 ⟨ha, hocc⟩
    have hcl := areaOf_closed proto rs a hin
    rw [if_neg hne] at hcl
    have hname : (withScore (bumpAll (areaReports a rs)
        { name := a, reportCount := 0, penalty := 0, resolved := 0 })).name = a := by
      simp only [withScore, bumpAll_name]
    refine ⟨_, ?_, hname⟩
    rw [mem_sortedAreas_iff, hname]
    exact hcl

theorem sum_filter_split (l : List Report) (q p : Report → Bool) (f : Report → Int) :
    ((l.filter q).map f).sum
      = ((l.filter (fun r => q r && p r)).map f).sum
        + ((l.filter (fun r => q r && !p r)).map f).sum := by
  induction l with
  | nil => rfl
  | cons r l ih =>
    cases hq : q r <;> cases hp : p r <;>
      simp only [List.filter_cons, hq, hp, Bool.and_true, Bool.and_false, Bool.false_and,
        Bool.not_true, Bool.not_false, Bool.false_eq_true, if_true, if_false,
        List.map_cons, List.sum_cons, ih] <;> omega

/-- The penalty of a Dashboard aggregate, written with `severityPenalty`. -/
theorem dashboard_penalty_eq (proto : List String) (rs : List Report) (d : AreaScore)
    (hd : d ∈ sortedAreas proto rs) :
    d.penalty = ((rs.filter (fun r => decide (r.area = some d.name)
        && decide (r.status ≠ some "resolved"))).map (fun r => 10 + severityPenalty r)).sum := by
  obtain ⟨h1, h2, _⟩ := penalty_of_mem proto rs d hd
  rw [h2, penaltySum_eq _ _ h1]
  have hf : (fun r : Report => decide (r.area = some d.name ∧ r.status ≠ some "resolved"))
      = (fun r => decide (r.area = some d.name) && decide (r.status ≠ some "resolved")) := by
    funext r
    exact Bool.decide_and _ _
  rw [hf]
  congr 1
  apply List.map_congr_left
  intro r _
  rw [severityPenalty_eq]

/-- C27: when every present severity is an integer in [1,5], Home and the Dashboard hold an
entry for the same area names, and for every such area Home's penalty is at least the
Dashboard's, with equality exactly when no report of the area has status `resolved`;
hence Home's score for the area is at most the Dashboard's. -/
theorem home_penalty_ge_dashboard (proto : List String) (reportsData : List Report)
    (hsev : ∀ r ∈ reportsData, ∀ s, r.severity = some s → 1 ≤ s ∧ s ≤ 5) :
    (∀ a, (∃ h ∈ Home.areaMap reportsData, h.name = a) ↔
        (∃ d ∈ sortedAreas proto reportsData, d.name = a)) ∧
    ∀ h ∈ Home.areaMap reportsData, ∀ d ∈ sortedAreas proto reportsData, h.name = d.name →
      d.penalty ≤ h.penalty ∧
        (h.penalty = d.penalty ↔
          ∀ r ∈ reportsData, r.area = some d.name → r.status ≠ some "resolved") ∧
        (Home.withScore h).score ≤ d.score := by
  refine ⟨fun a => by rw [home_entry_iff, dashboard_entry_iff], ?_⟩
  intro h hh d hd hname
  obtain ⟨_, _, hhp⟩ := home_penalty_eq reportsData h hh
  have hdp := dashboard_penalty_eq proto reportsData d hd
  obtain ⟨_, _, hds⟩ := penalty_of_mem proto reportsData d hd
  rw [hname, sum_filter_split reportsData (fun r => decide (r.area = some d.name))
    (fun r => decide (r.status ≠ some "resolved")) (fun r => 10 + severityPenalty r),
    ← hdp] at hhp
  have hb := sum_map_bounds
    (reportsData.filter (fun r => decide (r.area = some d.name)
      && !decide (r.status ≠ some "resolved")))
    (fun r => 10 + severityPenalty r) 11 15 (by
      intro r hr
      have hr2 : r ∈ reportsData := List.mem_of_mem_filter hr
      have hlo := severityPenalty_pos r (hsev r hr2)
      have hhi := severityPenalty_le r (hsev r hr2)
      beta_reduce
      constructor <;> omega)
  have hlen : (0 : Int) ≤ ((reportsData.filter (fun r => decide (r.area = some d.name)
      && !decide (r.status ≠ some "resolved"))).length : Int) := Int.natCast_nonneg _
  have hle : d.penalty ≤ h.penalty := by omega
  refine ⟨hle, ?_, ?_⟩
  · constructor
    · intro heq r hr hra hres
      have hmem : r ∈ reportsData.filter (fun r => decide (r.area = some d.name)
          && !decide (r.status ≠ some "resolved")) := by
        rw [List.mem_filter]
        refine ⟨hr, ?_⟩
        simp [hra, hres]
      have hpos : 0 < (reportsData.filter (fun r => decide (r.area = some d.name)
          && !decide (r.status ≠ some "resolved"))).length := List.length_pos_of_mem hmem
      omega
    · intro hall
      have hnil : reportsData.filter (fun r => decide (r.area = some d.name)
          && !decide (r.status ≠ some "resolved")) = [] := by
        rw [List.filter_eq_nil_iff]
        intro r hr hq
        simp only [Bool.and_eq_true, decide_eq_true_eq, Bool.not_eq_true',
          decide_eq_false_iff_not] at hq
        exact hq.2 (hall r hr hq.1)
      rw [hnil] at hhp
      simpa using hhp
  · rw [hds]
    show max 0 (100 - h.penalty) ≤ max 0 (100 - d.penalty)
    exact max_le_max (le_refl 0) (by omega)

/-- C27 (witness): on the three `Anna Nagar` reports, one of them resolved, Home holds
penalty 40 and the Dashboard 28: 28 <= 40, the two differ, and Home's score 60 is at
most the Dashboard's 72. -/
theorem home_penalty_ge_dashboard_witness :
    Home.areaMap annaNagar = [{ name := "Anna Nagar", penalty := 40 }] ∧
      ((28 : Int) ≤ 40 ∧
        ((40 : Int) = 28 ↔
          ∀ r ∈ annaNagar, r.area = some "Anna Nagar" → r.status ≠ some "resolved") ∧
        (Home.withScore { name := "Anna Nagar", penalty := 40 }).score ≤ 72) :=
  ⟨by decide,
   (home_penalty_ge_dashboard [] annaNagar (by decide)).2
     { name := "Anna Nagar", penalty := 40 } (by decide)
     { name := "Anna Nagar", reportCount := 3, penalty := 28, resolved := 1, score := 72 }
     (by decide) rfl⟩

/-! ## When a focus area is surfaced -/

/-- When every present severity is an integer in [1,5], Home surfaces a focus area exactly
when some area name that is not empty and not a name inherited from `Object.prototype`
occurs on at least two reports of the snapshot. -/
theorem surfaced_iff_two_reports (reports : List Report)
    (hsev : ∀ r ∈ reports, ∀ s, r.severity = some s → 1 ≤ s ∧ s ≤ 5) :
    (∃ w, Home.surfaced reports = some w) ↔
      ∃ a, a ≠ "" ∧ a ∉ objectPrototypeKeys ∧
        2 ≤ reports.countP (fun r => decide (r.area = some a)) := by
  have hbound : ∀ e ∈ Home.areaMap reports,
      11 * ((reports.countP (fun r => decide (r.area = some e.name)) : Nat) : Int) ≤ e.penalty ∧
        e.penalty ≤ 15 * ((reports.countP (fun r => decide (r.area = some e.name)) : Nat) : Int) := by
    intro e he
    obtain ⟨_, _, hp⟩ := home_penalty_eq reports e he
    have hb := sum_map_bounds
      (reports.filter (fun r => decide (r.area = some e.name)))
      (fun r => 10 + severityPenalty r) 11 15 (by
        intro r hr
        have hr2 : r ∈ reports := List.mem_of_mem_filter hr
        have hlo := severityPenalty_pos r (hsev r hr2)
        have hhi := severityPenalty_le r (hsev r hr2)
        beta_reduce
        constructor <;> omega)
    rw [← hp, ← List.countP_eq_length_filter] at hb
    exact hb
  constructor
  · rintro ⟨w, hw⟩
    unfold Home.surfaced at hw
    rcases worstArea_spec (Home.objectValues (Home.areaMap reports)) with
      ⟨_, h2⟩ | ⟨pre, e, post, h1, _, _, _, h5⟩
    · rw [h2] at hw; cases hw
    · rw [h5] at hw
      simp only at hw
      by_cases hsc : (Home.withScore e).score < 85
      · have hel : e ∈ Home.objectValues (Home.areaMap reports) := by rw [h1]; simp
        have hem := (mem_home_values reports e).1 hel
        obtain ⟨hne, hin, _⟩ := home_penalty_eq reports e hem
        have hb := (hbound e hem).2
        refine ⟨e.name, hne, hin, ?_⟩
        have hsc2 : max 0 (100 - e.penalty) < 85 := hsc
        have h100 : 100 - e.penalty < 85 := lt_of_le_of_lt (le_max_right _ _) hsc2
        omega
      · rw [if_neg hsc] at hw; cases hw
  · rintro ⟨a, ha, hin, hcount⟩
    have hocc : ∃ r ∈ reports, r.area = some a := by
      have hpos : 0 < reports.countP (fun r => decide (r.area = some a)) := by omega
      obtain ⟨r, hr, hra⟩ := List.countP_pos_iff.1 hpos
      exact ⟨r, hr, by simpa using hra⟩
    obtain ⟨e, he, hea⟩ := (home_entry_iff reports a).2 ⟨ha, hin, hocc⟩
    have hb := (hbound e he).1
    rw [hea] at hb
    have h22 : 22 ≤ e.penalty := by omega
    unfold Home.surfaced
    rcases worstArea_spec (Home.objectValues (Home.areaMap reports)) with
      ⟨h1, _⟩ | ⟨pre, e', post, h1, _, h3, h4, h5⟩
    · have := h1 e ((mem_home_values reports e).2 he)
      omega
    · rw [h5]
      have hge : e.penalty ≤ e'.penalty := by
        have hxl := (mem_home_values reports e).2 he
        rw [h1, List.mem_append, List.mem_cons] at hxl
        rcases hxl with hxl | hxl | hxl
        · exact le_of_lt (h3 e hxl)
        · rw [hxl]
        · exact h4 e hxl
      have hsc : (Home.withScore e').score < 85 := by
        show max 0 (100 - e'.penalty) < 85
        exact max_lt (by norm_num) (by omega)
      simp only [hsc, if_true]
      exact ⟨_, rfl⟩

/-- C26 (failing input): two reports of severity 5 filed under the area `constructor`: the
name occurs on two reports and the severities lie in [1,5], yet Home's map gets no
entry and no focus area is surfaced, where the claim has one surfaced.  The read
`areaMap["constructor"]` yields the inherited function, which is truthy, so no entry is
created; the same two reports under the name `Anna Nagar` surface it with score 70. -/
theorem focus_area_missed_for_constructor :
    twoConstructorReports.countP (fun r => decide (r.area = some "constructor")) = 2 ∧
      (∀ r ∈ twoConstructorReports, ∀ s, r.severity = some s → 1 ≤ s ∧ s ≤ 5) ∧
      Home.areaMap twoConstructorReports = [] ∧
      Home.surfaced twoConstructorReports = none ∧
      Home.surfaced (twoConstructorReports.map (fun r => { r with area := some "Anna Nagar" }))
        = some { name := "Anna Nagar", penalty := 30, score := 70 } := by
  decide

end Ezhil

